import Mathlib

/-!
# Rserve C++ client (`server/src/Rconnection.cc`)

A shallow embedding of the QAP1 client: the tagged-length codec, the message
constructors, the resumable `Rmessage::read`, the payload scan `Rmessage::parse`,
the handshake `Rconnection::pollConnection`, `Rexp::store` / `Rexp::parse`, the
write side `Rmessage::send`, the generic exchange `Rconnection::request` with the
application operations built on it, the list and vector constructors, and the
destructor `Rexp::~Rexp` with `Rexp::set_master`.

Conventions of the embedding

* Memory is a `List Nat` of bytes addressed by offset; a byte outside the list
  reads as `0`, every byte is taken modulo 256.
* The build is the default one (`SWAPEND` undefined), so `itop` and `ptoi` are the
  identity and an `unsigned int` lies in memory low byte first.
* Pointers into a buffer are byte offsets from its start.
* The socket is an explicit value: the list of what the next `recv` calls will see.
* The sending direction is a `Wire`: what the next `::send` calls will meet and
  the bytes handed over so far.
* Node lifetime is followed on an explicit `Heap` of nodes addressed by number,
  with a log of the pointers passed to `free` and of the messages deleted.
-/

namespace Rsrv

/-! ## Bytes and words -/

/-- The byte at offset `i` of a memory block. -/
def byteAt (mem : List Nat) (i : Nat) : Nat := mem.getD i 0 % 256

/-- Load of an `unsigned int` at byte offset `off`, as in `((unsigned int*)(mem+off))[0]`. -/
def loadWord (mem : List Nat) (off : Nat) : Nat :=
  byteAt mem off + 256 * byteAt mem (off + 1) + 65536 * byteAt mem (off + 2)
    + 16777216 * byteAt mem (off + 3)

/-- The four bytes an `unsigned int` occupies in memory. -/
def wordBytes (w : Nat) : List Nat :=
  [w % 256, w / 256 % 256, w / 65536 % 256, w / 16777216 % 256]

/-- Overwrite of `bs.length` bytes of `buf` from offset `off` on (`memcpy(buf+off, bs, n)`). -/
def writeAt (buf : List Nat) (off : Nat) (bs : List Nat) : List Nat :=
  buf.take off ++ bs ++ buf.drop (off + bs.length)

/-- Conversion host to protocol order: the identity without `SWAPEND`. -/
def itop (w : Nat) : Nat := w

/-- Conversion protocol to host order: the identity without `SWAPEND`. -/
def ptoi (w : Nat) : Nat := w

/-- Value of a 32-bit word read as a C `int`. -/
def toInt32 (w : Nat) : Int :=
  if w % 4294967296 < 2147483648 then (w % 4294967296 : Nat) else (w % 4294967296 : Nat) - 4294967296

/-- Bit pattern of a C `int` as an `unsigned int`. -/
def toUInt32 (i : Int) : Nat := (i % 4294967296).toNat

/-! ## Protocol constants (`Rsrv.h`) -/

/-- Modelled from the spec: `Rsrv.h` is not among the sources. Parameter type
of a null-terminated string in the QAP1 protocol. -/
def DT_STRING : Nat := 4

/-- Modelled from the spec: `Rsrv.h` is not among the sources. Parameter type
of a single integer. -/
def DT_INT : Nat := 1

/-- Modelled from the spec: `Rsrv.h` is not among the sources. Parameter type
of a byte stream. -/
def DT_BYTESTREAM : Nat := 5

/-- Modelled from the spec: `Rsrv.h` is not among the sources. Parameter type
of an encoded value (the value wrapper tag). -/
def DT_SEXP : Nat := 10

/-- Modelled from the spec: `Rsrv.h` is not among the sources. The dedicated
large bit of a parameter header, just above the six type bits. -/
def DT_LARGE : Nat := 64

/-- Modelled from the spec: `Rsrv.h` is not among the sources. The large bit of
a value header (the same bit as `DT_LARGE`). -/
def XT_LARGE : Nat := 64

/-- Modelled from the spec: `Rsrv.h` is not among the sources. The
has-attributes bit of a value header. -/
def XT_HAS_ATTR : Nat := 128

/-- Modelled from the spec: the macro `SET_PAR` of `Rsrv.h` is not among the
sources. The header word has the type in its low byte and the low 24 bits of the
length above it. -/
def SET_PAR (ty len : Nat) : Nat := ((len &&& 0xffffff) <<< 8) ||| (ty &&& 255)

/-- Modelled from the spec: `Rsize_t` is declared in `Rconnection.h`, not among
the sources; lengths are effectively 32 bits wide. -/
def Rsize_max : Nat := 4294967296

/-! ## Messages -/

/-- The fixed 16-byte header `struct phdr`: four C `int`s. -/
structure phdr where
  cmd : Int
  len : Int
  dof : Int
  res : Int
deriving DecidableEq, Repr

/-- State of an `Rmessage`. `data` is the payload block (`[]` for the null
pointer); `par` holds the recorded parameter offsets `par[0 .. pars)`. -/
structure Rmessage where
  head : phdr
  data : List Nat
  len : Nat
  complete : Nat
  pars : Nat
  par : List Nat
  sending : Nat
  receiving : Nat
  bytesReceived : Nat
deriving DecidableEq, Repr

/-- Header size and declared length of the parameter at offset `c`, as computed
in the body of the loop of `Rmessage::parse`. -/
def parHeader (data : List Nat) (c : Nat) : Nat × Nat :=
  let p1 := ptoi (loadWord data c)
  let len := p1 >>> 8
  if (p1 &&& DT_LARGE) > 0 then
    let p2 := ptoi (loadWord data (c + 4))
    (4 + 4, len ||| ((p2 <<< 24) % Rsize_max))
  else (4, len)

/-- The loop of `Rmessage::parse` from cursor `c`, with `slots` free entries of
`par` left (`16 - pars`); `eop` is the end of the payload. The result lists the
offsets recorded from here on. Running out of slots is the `break`. -/
def Rmessage.parseLoop (data : List Nat) (eop : Nat) : Nat → Nat → List Nat
  | 0, _ => []
  | slots + 1, c =>
    if c < eop then
      c :: Rmessage.parseLoop data eop slots (c + (parHeader data c).1 + (parHeader data c).2)
    else []

/-- Embedding of `Rmessage::parse`. -/
def Rmessage.parse (m : Rmessage) : Rmessage :=
  if m.len < 4 then { m with pars := 0, par := [] }
  else
    let l := Rmessage.parseLoop m.data m.len 16 0
    { m with pars := l.length, par := l }

/-- C `strlen`: the number of bytes before the first NUL (a list without NUL is
terminated right after its last byte). -/
def strlen (s : List Nat) : Nat := (s.takeWhile (fun b => b % 256 != 0)).length

/-- The first statements of `Rmessage::Rmessage(int cmd, const char *txt)`: the
aligned text length `tl` computed from `strlen(txt)+1`. -/
def alignedTextLen (tl : Nat) : Nat :=
  if (tl &&& 3) > 0 then (tl + 4) &&& 0xffffc else tl

/-- Embedding of `Rmessage::Rmessage()`. The fields the constructor leaves
uninitialised (`head`, `pars`, `bytesReceived`) are taken as zero. -/
def Rmessage.empty : Rmessage :=
  { head := ⟨0, 0, 0, 0⟩, data := [], len := 0, complete := 0, pars := 0, par := [],
    sending := 0, receiving := 0, bytesReceived := 0 }

/-- Embedding of `Rmessage::Rmessage(int cmd)`. -/
def Rmessage.ofCmd (cmd : Int) : Rmessage :=
  { Rmessage.empty with head := ⟨cmd, 0, 0, 0⟩, complete := 1 }

/-- Embedding of `Rmessage::Rmessage(int cmd, const char *txt)`. The block is
`malloc(tl+16)` cleared by `memset`; `strcpy` writes `strlen(txt)+1` bytes at offset
4. When that write does not fit the block the behaviour is undefined (a heap
overflow) and the result is `none`. -/
def Rmessage.ofText (cmd : Int) (txt : List Nat) : Option Rmessage :=
  let tl := alignedTextLen (strlen txt + 1)
  let len := tl + 4
  let data0 := List.replicate (tl + 16) 0
  let data1 := writeAt data0 0 (wordBytes (itop (SET_PAR DT_STRING tl)))
  if 4 + (strlen txt + 1) ≤ tl + 16 then
    some { Rmessage.empty with
      head := ⟨cmd, len, 0, 0⟩, len := len,
      data := writeAt data1 4 (txt.take (strlen txt) ++ [0]), complete := 1 }
  else none

/-- Embedding of `Rmessage::Rmessage(int cmd, const void *buf, int dlen, int raw_data)`.
`buf` is the memory from the caller's pointer on. The block is `malloc(len)`, its
fresh contents taken as zero; `memcpy` copies `dlen` bytes to the start of the
block from `buf` (raw) or from `buf+4` (not raw), then the header word is stored
over the first four bytes when not raw. -/
def Rmessage.ofBuf (cmd : Int) (buf : List Nat) (dlen : Nat) (raw_data : Bool) : Rmessage :=
  let len := if raw_data then dlen else dlen + 4
  let data0 := List.replicate len 0
  let src := if raw_data then 0 else 4
  let data1 := writeAt data0 0 ((List.range dlen).map (fun i => byteAt buf (src + i)))
  let data2 := if !raw_data then writeAt data1 0 (wordBytes (itop (SET_PAR DT_BYTESTREAM dlen)))
               else data1
  { Rmessage.empty with head := ⟨cmd, len, 0, 0⟩, len := len, data := data2, complete := 1 }

/-- Embedding of `Rmessage::Rmessage(int cmd, int i)`. -/
def Rmessage.ofInt (cmd : Int) (i : Int) : Rmessage :=
  { Rmessage.empty with
    head := ⟨cmd, 8, 0, 0⟩, len := 8,
    data := wordBytes (itop (SET_PAR DT_INT 4)) ++ wordBytes (itop (toUInt32 i)),
    complete := 1 }

/-- The payload of a message: the first `len` bytes of its block. -/
def Rmessage.payload (m : Rmessage) : List Nat := m.data.take m.len

/-! ## The socket -/

/-- What one `recv` on the socket can meet next: bytes that have arrived, nothing
yet (`EAGAIN`), a transport error, or the orderly close of the peer. -/
inductive SockEvent where
  | bytes (bs : List Nat)
  | wouldBlock
  | error
  | eof
deriving DecidableEq, Repr

/-- The socket as the program sees it: the events still to come and whether
`closesocket` was called on it. -/
structure Socket where
  events : List SockEvent
  closed : Bool
deriving DecidableEq, Repr

/-- Result of `recv`: `n >= 0` with the bytes delivered (`n = 0` on close), or
`-1` with `errno == EAGAIN`, or `-1` with another `errno`. -/
inductive RecvResult where
  | ok (bs : List Nat)
  | eagain
  | fail
deriving DecidableEq, Repr

/-- A call `recv(s, buf, k, 0)`. At most `k` bytes of the chunk at the front are
delivered, the rest stays queued; with nothing queued the call would block; the
close of the peer is seen by every later call; a closed descriptor fails. -/
def recv (s : Socket) (k : Nat) : RecvResult × Socket :=
  if s.closed then (.fail, s)
  else match s.events with
    | [] => (.eagain, s)
    | .bytes bs :: rest =>
      if bs.length ≤ k then (.ok bs, { s with events := rest })
      else (.ok (bs.take k), { s with events := .bytes (bs.drop k) :: rest })
    | .wouldBlock :: rest => (.eagain, { s with events := rest })
    | .error :: rest => (.fail, { s with events := rest })
    | .eof :: rest => (.ok [], { s with events := .eof :: rest })

/-- A call `closesocket(s)`. -/
def closesocket (s : Socket) : Socket := { s with closed := true }

/-! ## `Rmessage::read` -/

/-- The 16 bytes of a header as it lies in memory. -/
def phdr.bytes (h : phdr) : List Nat :=
  wordBytes (toUInt32 h.cmd) ++ wordBytes (toUInt32 h.len) ++ wordBytes (toUInt32 h.dof)
    ++ wordBytes (toUInt32 h.res)

/-- The header whose memory is the first 16 bytes of `bs`. -/
def phdr.ofBytes (bs : List Nat) : phdr :=
  ⟨toInt32 (loadWord bs 0), toInt32 (loadWord bs 4), toInt32 (loadWord bs 8),
    toInt32 (loadWord bs 12)⟩

/-- Stage 4 of `Rmessage::read`: `parse(); complete=1; return 0`. -/
def Rmessage.read4 (m : Rmessage) (s : Socket) : Option (Int × Rmessage × Socket) :=
  if m.receiving = 4 then some (0, { m.parse with complete := 1 }, s)
  else some (0, m, s)

/-- The `while` loop of stage 3: `k` bounds the iterations left (every iteration
adds at least one byte, so `head.len - bytesReceived` of them always suffice);
`n` is the value the variable `n` holds, `none` while no `recv` of the loop has run. -/
def Rmessage.recvLoop : Nat → Option RecvResult → Rmessage → Socket →
    Option RecvResult × Rmessage × Socket
  | 0, n, m, s => (n, m, s)
  | k + 1, n, m, s =>
    if (m.bytesReceived : Int) < m.head.len then
      match recv s (m.head.len - m.bytesReceived).toNat with
      | (.ok bs, s1) =>
        if bs.length > 0 then
          Rmessage.recvLoop k (some (.ok bs))
            { m with data := writeAt m.data m.bytesReceived bs,
                     bytesReceived := m.bytesReceived + bs.length } s1
        else (some (.ok bs), m, s1)
      | (r, s1) => (some r, m, s1)
    else (n, m, s)

/-- The statements of stage 3 after its `while` loop, on the state the loop
left, and what follows: the test of `n` and of `bytesReceived`, then stage 4. -/
def Rmessage.afterRecvLoop : Option RecvResult × Rmessage × Socket →
    Option (Int × Rmessage × Socket)
  | (some .eagain, m1, s1) => some (0, m1, s1)
  | (some .fail, m1, s1) => some (-8, m1, closesocket s1)
  | (_, m1, s1) =>
    if (m1.bytesReceived : Int) ≠ m1.head.len then some (-8, m1, closesocket s1)
    else Rmessage.read4 { m1 with receiving := 4 } s1

/-- Stage 3 of `Rmessage::read` (receive the payload) and what follows it. -/
def Rmessage.read3 (m : Rmessage) (s : Socket) : Option (Int × Rmessage × Socket) :=
  if m.receiving = 3 then
    if m.head.len > 0 then
      Rmessage.afterRecvLoop (Rmessage.recvLoop (m.head.len - m.bytesReceived).toNat none m s)
    else Rmessage.read4 { m with receiving := 4 } s
  else Rmessage.read4 m s

/-- Stage 2 of `Rmessage::read` (allocate the payload block) and what follows.
`mallocFails` says whether `malloc` returns the null pointer; a fresh block is
taken as zero-filled. -/
def Rmessage.read2 (mallocFails : Bool) (m : Rmessage) (s : Socket) :
    Option (Int × Rmessage × Socket) :=
  if m.receiving = 2 then
    if m.head.len > 0 then
      if mallocFails then some (-10, { m with data := [] }, closesocket s)
      else Rmessage.read3
        { m with data := List.replicate m.head.len.toNat 0, bytesReceived := 0, receiving := 3 } s
    else Rmessage.read3 { m with receiving := 3 } s
  else Rmessage.read3 m s

/-- The `while (head.dof>0)` loop of stage 1 and what follows it. The loop need
not end, so it runs on `fuel`; `none` is the loop still running when the fuel is
spent. -/
def Rmessage.skipLoop (mallocFails : Bool) : Nat → Rmessage → Socket →
    Option (Int × Rmessage × Socket)
  | 0, _, _ => none
  | fuel + 1, m, s =>
    if m.head.dof > 0 then
      match recv s (if m.head.dof > 256 then 256 else m.head.dof).toNat with
      | (.eagain, s1) => some (0, m, s1)
      | (.fail, s1) => some (-8, m, closesocket s1)
      | (.ok bs, s1) =>
        Rmessage.skipLoop mallocFails fuel
          { m with head := { m.head with dof := m.head.dof - bs.length } } s1
    else Rmessage.read2 mallocFails { m with receiving := 2 } s

/-- Stage 1 of `Rmessage::read` (skip the auxiliary data) and what follows. -/
def Rmessage.read1 (mallocFails : Bool) (fuel : Nat) (m : Rmessage) (s : Socket) :
    Option (Int × Rmessage × Socket) :=
  if m.receiving = 1 then Rmessage.skipLoop mallocFails (fuel + 1) m s
  else Rmessage.read2 mallocFails m s

/-- Embedding of `int Rmessage::read(int s)`: the status returned, the message
and the socket afterwards. `recv` writes the bytes it delivers over the start of
`head`. `none` only when the auxiliary-data loop outlasts `fuel`. -/
def Rmessage.read (mallocFails : Bool) (fuel : Nat) (m : Rmessage) (s : Socket) :
    Option (Int × Rmessage × Socket) :=
  if m.receiving = 0 then
    match recv s 16 with
    | (.eagain, s1) => some (0, m, s1)
    | (.fail, s1) => some (-1, m, s1)
    | (.ok bs, s1) =>
      let raw := phdr.ofBytes (bs ++ m.head.bytes.drop bs.length)
      if bs.length ≠ 16 then
        some (if bs.length = 0 then -7 else -8, { m with head := raw }, closesocket s1)
      else
        Rmessage.read1 mallocFails fuel
          { m with
            receiving := 1,
            len := ptoi (toUInt32 raw.len),
            head := ⟨toInt32 (ptoi (toUInt32 raw.cmd)), toInt32 (ptoi (toUInt32 raw.len)),
                     toInt32 (ptoi (toUInt32 raw.dof)), toInt32 (ptoi (toUInt32 raw.res))⟩ } s1
  else Rmessage.read1 mallocFails fuel m s

/-! ## The handshake -/

/-- C `strncmp(a, b, n)`: the difference of the first pair of differing bytes
among the first `n`, `0` when there is none before a common NUL. -/
def strncmp : List Nat → List Nat → Nat → Int
  | _, _, 0 => 0
  | a, b, n + 1 =>
    if byteAt a 0 ≠ byteAt b 0 then (byteAt a 0 : Int) - (byteAt b 0 : Int)
    else if byteAt a 0 = 0 then 0
    else strncmp a.tail b.tail n

/-- The string `myID = "Rsrv0103QAP1"`. -/
def myID : List Nat := [82, 115, 114, 118, 48, 49, 48, 51, 81, 65, 80, 49]

/-- The string literal `"ARuc"`. -/
def tokARuc : List Nat := [65, 82, 117, 99]

/-- The string literal `"ARpt"`. -/
def tokARpt : List Nat := [65, 82, 112, 116]

/-- Modelled from the spec: `Rsrv.h` is not among the sources. Flag of `auth`:
authentication is required. -/
def A_required : Nat := 1

/-- Modelled from the spec: `Rsrv.h` is not among the sources. Flag of `auth`:
the crypt-challenge mode is offered. -/
def A_crypt : Nat := 2

/-- Modelled from the spec: `Rsrv.h` is not among the sources. Flag of `auth`:
the plaintext mode is offered. -/
def A_plain : Nat := 4

/-- State of an `Rconnection`. `s` is the descriptor held by the object (`-1`
when there is none); `IDstring` is the 33-byte identification buffer. -/
structure Rconnection where
  host : List Nat
  port : Int
  s : Int
  _connected : Bool
  auth : Nat
  salt : List Nat
  IDstring : List Nat
  receivedCharsFromIDstring : Nat
deriving DecidableEq, Repr

/-- Embedding of `Rconnection::Rconnection(host, port)`; the identification
buffer, which the constructor leaves uninitialised, is taken as 33 zero bytes. -/
def Rconnection.new (host : List Nat) (port : Int) : Rconnection :=
  { host := host, port := port, s := -1, _connected := false, auth := 0, salt := [46, 46],
    IDstring := List.replicate 33 0, receivedCharsFromIDstring := 0 }

/-- One turn of the token loop of `pollConnection` at offset `i`. -/
def Rconnection.scanToken (c : Rconnection) (i : Nat) : Rconnection :=
  let c1 := if strncmp (c.IDstring.drop i) tokARuc 4 = 0
            then { c with auth := c.auth ||| (A_required ||| A_crypt) } else c
  let c2 := if strncmp (c1.IDstring.drop i) tokARpt 4 = 0
            then { c1 with auth := c1.auth ||| (A_required ||| A_plain) } else c1
  if byteAt c2.IDstring i = 75 then
    { c2 with salt := [byteAt c2.IDstring (i + 1), byteAt c2.IDstring (i + 2)] }
  else c2

/-- The loop `i=12; while (i<32) { ...; i+=4; }` of `pollConnection`; `k` counts
the turns left (five from `i = 12`). -/
def Rconnection.scanTokens : Nat → Nat → Rconnection → Rconnection
  | 0, _, c => c
  | k + 1, i, c => if i < 32 then Rconnection.scanTokens k (i + 4) (c.scanToken i) else c

/-- Embedding of `int Rconnection::pollConnection()`: the status returned, the
connection and the socket afterwards. -/
def Rconnection.pollConnection (c : Rconnection) (sock : Socket) : Int × Rconnection × Socket :=
  match recv sock (32 - c.receivedCharsFromIDstring) with
  | (.eagain, s1) => (0, c, s1)
  | (.fail, s1) => (-1, c, s1)
  | (.ok bs, s1) =>
    let c1 := { c with IDstring := writeAt c.IDstring c.receivedCharsFromIDstring bs }
    if bs.length + c.receivedCharsFromIDstring ≠ 32 then
      (0, { c1 with receivedCharsFromIDstring := c.receivedCharsFromIDstring + bs.length }, s1)
    else if strncmp c1.IDstring myID 4 ≠ 0 then (-3, c1, s1)
    else if strncmp (c1.IDstring.drop 8) (myID.drop 8) 4 ≠ 0
        ∨ strncmp (c1.IDstring.drop 4) (myID.drop 4) 4 > 0 then (-4, c1, s1)
    else (0, { Rconnection.scanTokens 5 12 c1 with _connected := true }, s1)

/-! ## Value nodes -/

/-- Modelled from the spec: `Rsrv.h` is not among the sources. Value type of an
integer scalar. -/
def XT_INT : Nat := 1

/-- Modelled from the spec: `Rsrv.h` is not among the sources. Value type of a
double scalar. -/
def XT_DOUBLE : Nat := 2

/-- Modelled from the spec: `Rsrv.h` is not among the sources. Value type of a
string. -/
def XT_STR : Nat := 3

/-- Modelled from the spec: `Rsrv.h` is not among the sources. Value type of a
symbol in the generic form. -/
def XT_SYM : Nat := 5

/-- Modelled from the spec: `Rsrv.h` is not among the sources. Value type of a
vector. -/
def XT_VECTOR : Nat := 16

/-- Modelled from the spec: `Rsrv.h` is not among the sources. Value type of a
list in the classic form. -/
def XT_LIST : Nat := 17

/-- Modelled from the spec: `Rsrv.h` is not among the sources. Value type of a
symbol in the direct symbol-name form. -/
def XT_SYMNAME : Nat := 19

/-- Modelled from the spec: `Rsrv.h` is not among the sources. Value type of an
untagged linked list. -/
def XT_LIST_NOTAG : Nat := 20

/-- Modelled from the spec: `Rsrv.h` is not among the sources. Value type of a
tagged linked list. -/
def XT_LIST_TAG : Nat := 21

/-- Modelled from the spec: `Rsrv.h` is not among the sources. Value type of an
integer vector. -/
def XT_ARRAY_INT : Nat := 32

/-- Modelled from the spec: `Rsrv.h` is not among the sources. Value type of a
double vector. -/
def XT_ARRAY_DOUBLE : Nat := 33

/-- Modelled from the spec: `Rsrv.h` is not among the sources. Value type of a
string array. -/
def XT_ARRAY_STR : Nat := 34

/-- The C++ class of a node, as chosen by `new_parsed_Rexp`. -/
inductive RClass where
  | Rexp | Rinteger | Rdouble | Rlist | Rvector | Rstring | Rsymbol | Rstrings
deriving DecidableEq, Repr

/-- The pointer `master` of a node: null, the node itself, or another node. -/
inductive Master where
  | null | self | other
deriving DecidableEq, Repr

/-- The scalar fields of an `Rexp`. `pos`, `data` and `next` are offsets into the
block the node was parsed from; a node built from caller data has its private copy
in `own` and `data = 0` there. `name` is the offset of the printable name of an
`Rsymbol` (`none` for the empty literal). -/
structure RexpInfo where
  cls : RClass
  type : Nat
  len : Nat
  pos : Nat
  data : Nat
  next : Nat
  msg : Bool
  master : Master
  rcount : Nat
  own : List Nat
  capacity : Nat
  name : Option Nat
deriving DecidableEq, Repr

/-- A value node with the nodes it points to: its attribute, the `head`, `tail`
and `tag` of an `Rlist`, the children `cont[0 .. count)` of an `Rvector`. -/
inductive Rexp where
  | node (info : RexpInfo) (attr head tail tag : Option Rexp) (cont : List Rexp)
deriving Repr

/-- The scalar fields of a node. -/
def Rexp.info : Rexp → RexpInfo
  | .node i _ _ _ _ _ => i

/-- Field `attr`. -/
def Rexp.attr : Rexp → Option Rexp
  | .node _ a _ _ _ _ => a

/-- Field `head` of an `Rlist`. -/
def Rexp.head : Rexp → Option Rexp
  | .node _ _ h _ _ _ => h

/-- Field `tail` of an `Rlist`. -/
def Rexp.tail : Rexp → Option Rexp
  | .node _ _ _ t _ _ => t

/-- Field `tag` of an `Rlist`. -/
def Rexp.tag : Rexp → Option Rexp
  | .node _ _ _ _ g _ => g

/-- The children `cont[0 .. count)` of an `Rvector`. -/
def Rexp.cont : Rexp → List Rexp
  | .node _ _ _ _ _ c => c

/-- Field `type`. -/
def Rexp.type (e : Rexp) : Nat := e.info.type

/-- Field `len`. -/
def Rexp.len (e : Rexp) : Nat := e.info.len

/-- Field `data`, as an offset. -/
def Rexp.data (e : Rexp) : Nat := e.info.data

/-- Field `next`, as an offset. -/
def Rexp.next (e : Rexp) : Nat := e.info.next

/-- Field `count` of an `Rvector`. -/
def Rexp.count (e : Rexp) : Nat := e.cont.length

/-- The node with its scalar fields replaced. -/
def Rexp.withInfo : Rexp → RexpInfo → Rexp
  | .node _ a h t g c, i => .node i a h t g c

/-- The `len` bytes at `data`: read from the private copy of a node that is its
own master with a copy, from the block `mem` otherwise. -/
def Rexp.content (e : Rexp) (mem : List Nat) : List Nat :=
  (List.range e.len).map (fun i => byteAt (if e.info.own = [] then mem else e.info.own) (e.data + i))

/-- Embedding of `Rexp::Rexp(int type, const char *data, int len, Rexp *attr)`;
`data` is the memory at the caller's pointer, copied when `len > 0` (the field
`data` is left uninitialised otherwise, taken as offset 0 of an empty copy). -/
def Rexp.ofData (type : Nat) (data : List Nat) (len : Int) (attr : Option Rexp) : Rexp :=
  .node { cls := .Rexp, type := type, len := if len > 0 then len.toNat else 0, pos := 0,
          data := 0, next := if len > 0 then len.toNat else 0, msg := false,
          master := .self, rcount := 0,
          own := if len > 0 then (List.range len.toNat).map (fun i => byteAt data i) else [],
          capacity := 0, name := none } attr none none none []

/-- Embedding of `void Rexp::store(char *buf)`: the bytes written from `buf[0]`
on; `mem` is the block a parsed node points into. -/
def Rexp.store (e : Rexp) (mem : List Nat) : List Nat :=
  let i0 := wordBytes (itop (SET_PAR e.type e.len))
  if e.len > 0x7fffff then
    writeAt i0 0 [byteAt i0 0 ||| XT_LARGE] ++ wordBytes (itop (e.len >>> 24)) ++ e.content mem
  else i0 ++ e.content mem

/-- Embedding of `char *Rexp::parse(unsigned int *pos)` on the node `this`: the
node afterwards and the pointer returned. `np p` stands for the call
`new_parsed_Rexp((unsigned int*)p, 0)`; `none` when that call gives no result.
The subtraction on `len` is that of the 32-bit unsigned `Rsize_t`. When the
attribute is registered with a master that is another node, the count of that
node is outside this tree and not represented. -/
def Rexp.parse (np : Nat → Option Rexp) (mem : List Nat) (this : Rexp) (pos : Nat) :
    Option (Rexp × Nat) :=
  let p1 := ptoi (loadWord mem pos)
  let large : Bool := (p1 &&& XT_LARGE) > 0
  let hl := if large then 2 else 1
  let len := if large then (p1 >>> 8) ||| ((ptoi (loadWord mem (pos + 4)) <<< 24) % Rsize_max)
             else p1 >>> 8
  let data := pos + 4 * hl
  if (p1 &&& XT_HAS_ATTR) ≠ 0 then
    match np data with
    | none => none
    | some a =>
      let len1 := (len + Rsize_max - (a.next - data) % Rsize_max) % Rsize_max
      let data1 := a.next
      let linked : Bool := this.info.master != .null || this.info.msg
      let a1 := if linked then
          a.withInfo { a.info with master := .other } else a
      let rc := if linked && this.info.master != .other then this.info.rcount + 1
                else this.info.rcount
      some (.node { this.info with pos := pos, len := len1, data := data1, type := p1 &&& 0x3f,
                                   rcount := rc }
              (some a1) this.head this.tail this.tag this.cont, data1 + len1)
  else
    some (.node { this.info with pos := pos, len := len, data := data, type := p1 &&& 0x3f }
            this.attr this.head this.tail this.tag this.cont, data + len)

/-- Embedding of `Rexp::Rexp(unsigned int *pos, Rmessage *msg)`; `msg` tells
whether the message pointer is non-null. -/
def Rexp.ofPos (np : Nat → Option Rexp) (mem : List Nat) (pos : Nat) (msg : Bool) : Option Rexp :=
  let this : Rexp :=
    .node { cls := .Rexp, type := 0, len := 0, pos := 0, data := 0, next := 0, msg := msg,
            master := .null, rcount := 0, own := [], capacity := 0, name := none }
      none none none none []
  match Rexp.parse np mem this pos with
  | none => none
  | some (e, nxt) => some (e.withInfo { e.info with next := nxt })

/-- Embedding of `void Rsymbol::fix_content()`. -/
def Rsymbol.fix_content (mem : List Nat) (e : Rexp) : Rexp :=
  let n1 := if e.type = XT_SYM ∧ byteAt mem e.data = 3 then some (e.data + 4) else e.info.name
  let n2 := if e.type = XT_SYMNAME then some e.data else n1
  e.withInfo { e.info with name := n2 }

/-- Modelled from the spec: the constructor
`Rlist(int type, Rexp *head, Rexp *tag, char *next, Rmessage *msg)` is declared in
`Rconnection.h`, not among the sources. A list cell built from its content alone,
with an empty tail. -/
def Rlist.cell (type : Nat) (head : Rexp) (tag : Option Rexp) (next : Nat) (msg : Bool) : Rexp :=
  .node { cls := .Rlist, type := type, len := 0, pos := 0, data := 0, next := next, msg := msg,
          master := .null, rcount := 0, own := [], capacity := 0, name := none }
    none (some head) none tag []

/-- The loop of the untagged branch of `Rlist::fix_content` from `ptr`: the
children parsed, in order. `k` bounds the turns; `none` when a child gives no
result or the bound is reached. -/
def Rlist.notagLoop (np : Nat → Option Rexp) (eod : Nat) : Nat → Nat → Option (List Rexp)
  | 0, _ => none
  | k + 1, ptr =>
    if ptr < eod then
      match np ptr with
      | none => none
      | some h => (Rlist.notagLoop np eod k h.next).map (fun l => h :: l)
    else some []

/-- The loop of the tagged branch of `Rlist::fix_content` from `ptr`: the
(value, tag) pairs parsed, in order, and the final `ptr`. -/
def Rlist.tagLoop (np : Nat → Option Rexp) (eod : Nat) : Nat → Nat →
    Option (List (Rexp × Rexp) × Nat)
  | 0, _ => none
  | k + 1, ptr =>
    if ptr < eod then
      match np ptr with
      | none => none
      | some h =>
        match np h.next with
        | none => none
        | some t => (Rlist.tagLoop np eod k t.next).map (fun r => ((h, t) :: r.1, r.2))
    else some ([], ptr)

/-- The chain `lt = lt->tail = new Rlist(type, h, 0, h->next, msg)` hung below
the first cell for the children after the first. -/
def Rlist.chainNotag (type : Nat) (msg : Bool) : List Rexp → Option Rexp
  | [] => none
  | h :: rest =>
    match Rlist.cell type h none h.next msg with
    | .node i a hd _ g c => some (.node i a hd (Rlist.chainNotag type msg rest) g c)

/-- The chain `lt = lt->tail = new Rlist(type, h, t, t->next, msg)` hung below
the first cell for the pairs after the first. -/
def Rlist.chainTag (type : Nat) (msg : Bool) : List (Rexp × Rexp) → Option Rexp
  | [] => none
  | (h, t) :: rest =>
    match Rlist.cell type h (some t) t.next msg with
    | .node i a hd _ g c => some (.node i a hd (Rlist.chainTag type msg rest) g c)

/-- Embedding of `void Rlist::fix_content()` on a node whose `head`, `tail` and
`tag` are null. -/
def Rlist.fix_content (np : Nat → Option Rexp) (k : Nat) (e : Rexp) : Option Rexp :=
  let ptr := e.data
  let eod := e.data + e.len
  if e.type = XT_LIST then
    match np ptr with
    | none => none
    | some head =>
      if head.next < eod then
        match np head.next with
        | none => none
        | some tail =>
          let keep := if tail.type ≠ XT_LIST then none else some tail
          if tail.next < eod then
            match np tail.next with
            | none => none
            | some tag => some (.node e.info e.attr (some head) keep (some tag) e.cont)
          else some (.node e.info e.attr (some head) keep none e.cont)
      else some (.node e.info e.attr (some head) none none e.cont)
  else if e.type = XT_LIST_NOTAG then
    match Rlist.notagLoop np eod k ptr with
    | none => none
    | some [] => some e
    | some (h :: rest) =>
      some (.node e.info e.attr (some h) (Rlist.chainNotag e.type e.info.msg rest) e.tag e.cont)
  else if e.type = XT_LIST_TAG then
    match Rlist.tagLoop np eod k ptr with
    | none => none
    | some ([], p) => some (e.withInfo { e.info with next := p })
    | some ((h, t) :: rest, p) =>
      some (.node { e.info with next := p } e.attr (some h)
              (Rlist.chainTag e.type e.info.msg rest) (some t) e.cont)
  else some e

/-- The loop of `Rvector::fix_content` from `ptr`, with the children stored so
far and the capacity; the result is the final `cont[0 .. count)` and capacity. -/
def Rvector.loop (np : Nat → Option Rexp) (eod : Nat) : Nat → Nat → List Rexp → Nat →
    Option (List Rexp × Nat)
  | 0, _, _, _ => none
  | k + 1, ptr, cont, capacity =>
    if ptr < eod then
      let capacity1 := if cont.length = capacity then capacity * 2 else capacity
      match np ptr with
      | none => none
      | some h => Rvector.loop np eod k h.next (cont ++ [h]) capacity1
    else some (cont, capacity)

/-- Embedding of `void Rvector::fix_content()` on a node with `count = 0`. -/
def Rvector.fix_content (np : Nat → Option Rexp) (k : Nat) (e : Rexp) : Option Rexp :=
  match Rvector.loop np (e.data + e.len) k e.data [] 16 with
  | none => none
  | some (cont, capacity) =>
    some (.node { e.info with capacity := capacity } e.attr e.head e.tail e.tag cont)

/-- The node with its class set. -/
def Rexp.asClass (e : Rexp) (c : RClass) : Rexp := e.withInfo { e.info with cls := c }

/-- Embedding of `new_parsed_Rexp(unsigned int *d, Rmessage *msg)` on the block
`mem`. Every subclass constructor runs `Rexp(pos, msg)` and then its own
`fix_content` (those of `Rinteger` and `Rdouble` do nothing without `SWAPEND`; the
string table of `Rstrings` is not represented). The nesting of calls and the
turns of each loop are bounded by `fuel`; `none` when it is spent. -/
def new_parsed_Rexp : Nat → List Nat → Nat → Bool → Option Rexp
  | 0, _, _, _ => none
  | fuel + 1, mem, d, msg =>
    let np := fun p => new_parsed_Rexp fuel mem p false
    let type := ptoi (loadWord mem d) &&& 0x3f
    match Rexp.ofPos np mem d msg with
    | none => none
    | some e =>
      if type = XT_ARRAY_INT ∨ type = XT_INT then some (e.asClass .Rinteger)
      else if type = XT_ARRAY_DOUBLE ∨ type = XT_DOUBLE then some (e.asClass .Rdouble)
      else if type = XT_LIST ∨ type = XT_LIST_NOTAG ∨ type = XT_LIST_TAG then
        Rlist.fix_content np fuel (e.asClass .Rlist)
      else if type = XT_VECTOR then Rvector.fix_content np fuel (e.asClass .Rvector)
      else if type = XT_STR then some (e.asClass .Rstring)
      else if type = XT_SYM ∨ type = XT_SYMNAME then
        some (Rsymbol.fix_content mem (e.asClass .Rsymbol))
      else if type = XT_ARRAY_STR then some (e.asClass .Rstrings)
      else some e


/-- The identification buffer after a `recv` that delivered `bs` at the current
fill position. -/
def Rconnection.idAfter (c : Rconnection) (bs : List Nat) : List Nat :=
  writeAt c.IDstring c.receivedCharsFromIDstring bs

/-- The four bytes at offset `i` of `id` are the bytes `t0 t1 t2 t3`. -/
def tokenAt (id : List Nat) (i t0 t1 t2 t3 : Nat) : Prop :=
  byteAt id i = t0 ∧ byteAt id (i + 1) = t1 ∧ byteAt id (i + 2) = t2 ∧ byteAt id (i + 3) = t3

instance (id : List Nat) (i t0 t1 t2 t3 : Nat) : Decidable (tokenAt id i t0 t1 t2 t3) := by
  unfold tokenAt; infer_instance

/-- The values `auth` takes during the handshake: no flag, or `A_required`
together with `A_crypt`, `A_plain` or both. -/
def authOK (a : Nat) : Prop := a = 0 ∨ a = 3 ∨ a = 5 ∨ a = 7

/-! ## The caller's poll loop and the division of a byte stream into reads -/

/-- The caller's poll loop around `Rmessage::read`: the read step is invoked
again, at most `calls` times in all, as long as it returns 0 and the message is
not complete. -/
def Rmessage.readUntilComplete (mallocFails : Bool) (fuel : Nat) :
    Nat → Rmessage → Socket → Option (Int × Rmessage × Socket)
  | 0, _, _ => none
  | calls + 1, m, s =>
    match Rmessage.read mallocFails fuel m s with
    | none => none
    | some (st, m1, s1) =>
      if st ≠ 0 ∨ m1.complete = 1 then some (st, m1, s1)
      else Rmessage.readUntilComplete mallocFails fuel calls m1 s1

/-- The poll loop from the result of a call of the read step on. -/
def Rmessage.resume (mallocFails : Bool) (fuel calls : Nat) :
    Option (Int × Rmessage × Socket) → Option (Int × Rmessage × Socket)
  | none => none
  | some (st, m1, s1) =>
    if st ≠ 0 ∨ m1.complete = 1 then some (st, m1, s1)
    else Rmessage.readUntilComplete mallocFails fuel calls m1 s1

/-- The bytes a list of socket events delivers, in order. -/
def bytesOf : List SockEvent → List Nat
  | [] => []
  | .bytes bs :: rest => bs ++ bytesOf rest
  | _ :: rest => bytesOf rest

/-- The number of would-block events in a list of socket events. -/
def wouldBlocks : List SockEvent → Nat
  | [] => 0
  | .wouldBlock :: rest => wouldBlocks rest + 1
  | _ :: rest => wouldBlocks rest

/-- A division of a byte stream into reads: every event is a chunk of positive
size or a would-block. -/
def chunked : List SockEvent → Bool
  | [] => true
  | .bytes bs :: rest => decide (0 < bs.length) && chunked rest
  | .wouldBlock :: rest => chunked rest
  | _ :: _ => false

/-- The message `m` once the payload `payload` is in its block and stage 4 has
run: the state `Rmessage::read` ends in. -/
def Rmessage.completed (m : Rmessage) (payload : List Nat) : Rmessage :=
  { ({ m with data := payload, bytesReceived := payload.length, receiving := 4 }).parse with
    complete := 1 }

/-- The size of the first chunk of bytes a list of socket events delivers,
would-blocks before it skipped (`0` when there is none). -/
def firstChunkLen : List SockEvent → Nat
  | .bytes bs :: _ => bs.length
  | .wouldBlock :: rest => firstChunkLen rest
  | _ => 0

/-- The message right after stage 0 has read the 16 header bytes `hb`. -/
def Rmessage.afterHeader (m : Rmessage) (hb : List Nat) : Rmessage :=
  { m with receiving := 1, len := toUInt32 (phdr.ofBytes hb).len, head := phdr.ofBytes hb }

/-- The message in stage 1 after the 16 header bytes `hb`, with `d` bytes of
auxiliary data still to skip (`head.dof = d`). -/
def Rmessage.withAux (m : Rmessage) (hb : List Nat) (d : Nat) : Rmessage :=
  { m.afterHeader hb with head := { phdr.ofBytes hb with dof := (d : Int) } }

/-- The message after a whole read of the header bytes `hb`, the auxiliary
data and the payload `payload`: `head.dof` has been counted down to 0; with a
payload the block holds it, without one the block is left as it was. -/
def Rmessage.afterRead (m : Rmessage) (hb payload : List Nat) : Rmessage :=
  if 0 < payload.length then (m.withAux hb 0).completed payload
  else { ({ m.withAux hb 0 with receiving := 4 } : Rmessage).parse with complete := 1 }

/-! ## Sending -/

/-- What one `::send` on the socket can meet next: the transport takes at most
`k` bytes of the call, the call would block (`EAGAIN`), or it fails. -/
inductive SendEvent where
  | accept (k : Nat)
  | wouldBlock
  | error
deriving DecidableEq, Repr

/-- The sending direction of the socket: what the next `::send` calls will meet
(every byte is taken once the list is used up) and the bytes handed to the
transport so far. -/
structure Wire where
  results : List SendEvent
  sent : List Nat
deriving DecidableEq, Repr

/-- Result of `::send`: `n >= 0` bytes taken, or `-1` with `errno == EAGAIN`, or
`-1` with another `errno`. -/
inductive SendResult where
  | wrote (n : Nat)
  | eagain
  | fail
deriving DecidableEq, Repr

/-- The value `::send` returns. -/
def SendResult.ret : SendResult → Int
  | .wrote n => n
  | .eagain => -1
  | .fail => -1

/-- A call `::send(s, buf, len, 0)` with `buf[0 .. len)` given as `bytes`; a
closed descriptor fails. -/
def sendCall (sock : Socket) (w : Wire) (bytes : List Nat) : SendResult × Wire :=
  if sock.closed then (.fail, w)
  else match w.results with
    | [] => (.wrote bytes.length, { w with sent := w.sent ++ bytes })
    | .accept k :: rest =>
      (.wrote (min k bytes.length), { results := rest, sent := w.sent ++ bytes.take k })
    | .wouldBlock :: rest => (.eagain, { w with results := rest })
    | .error :: rest => (.fail, { w with results := rest })

/-- Embedding of `int Rmessage::send(int s)`: the value returned, the message
and the wire afterwards. In the first stage `ret` holds the result of the
comparison `::send(...) != sizeof(head)`, that is 1 or 0. -/
def Rmessage.send (m : Rmessage) (sock : Socket) (w : Wire) : Int × Rmessage × Wire :=
  let stage1 := fun (m1 : Rmessage) (w1 : Wire) =>
    if m1.sending = 1 ∧ m1.len > 0 then
      match sendCall sock w1 m1.payload with
      | (.eagain, w2) => ((0 : Int), m1, w2)
      | (.fail, w2) => (-1, m1, w2)
      | (.wrote _, w2) => (0, { m1 with sending := 2 }, w2)
    else (0, { m1 with sending := 2 }, w1)
  if m.sending = 0 then
    match sendCall sock w m.head.bytes with
    | (r, w1) =>
      let ret : Int := if r.ret ≠ 16 then 1 else 0
      if ret = -1 ∧ r = .eagain then (0, m, w1)
      else if ret = -1 then (ret, m, w1)
      else stage1 { m with sending := 1 } w1
  else stage1 m w

/-! ## The generic exchange -/

/-- What `Rconnection::request` leaves behind: the value returned, the
connection, the two messages, and both directions of the socket. -/
structure Exchange where
  status : Int
  conn : Rconnection
  target : Rmessage
  contents : Rmessage
  sock : Socket
  wire : Wire
deriving DecidableEq, Repr

/-- Embedding of `int Rconnection::disconnect()`. -/
def Rconnection.disconnect (c : Rconnection) (sock : Socket) : Int × Rconnection × Socket :=
  if c.s > -1 then (0, { c with s := -1 }, closesocket sock) else (0, c, sock)

/-- Embedding of `int Rconnection::request(Rmessage *targetMsg, Rmessage *contents)`.
`Rmessage::read` receives the descriptor by value: it closes the socket on a
fatal error but the member `s` keeps its value. `none` only when the
auxiliary-data loop of `read` outlasts `fuel`. -/
def Rconnection.request (mallocFails : Bool) (fuel : Nat) (c : Rconnection)
    (target contents : Rmessage) (sock : Socket) (w : Wire) : Option Exchange :=
  if c.s = -1 then some ⟨-5, c, target, contents, sock, w⟩
  else
    match contents.send sock w with
    | (r, contents1, w1) =>
      if r ≠ 0 then some ⟨-9, { c with s := -1 }, target, contents1, closesocket sock, w1⟩
      else
        match target.read mallocFails fuel sock with
        | none => none
        | some (st, target1, sock1) => some ⟨st, c, target1, contents1, sock1, w1⟩

/-! ## Commands and the application operations -/

/-- Modelled from the spec: `Rsrv.h` is not among the sources. Command `login`. -/
def CMD_login : Int := 0x001

/-- Modelled from the spec: `Rsrv.h` is not among the sources. Command
`void-evaluate`. -/
def CMD_voidEval : Int := 0x002

/-- Modelled from the spec: `Rsrv.h` is not among the sources. Command `evaluate`. -/
def CMD_eval : Int := 0x003

/-- Modelled from the spec: `Rsrv.h` is not among the sources. Command `shutdown`. -/
def CMD_shutdown : Int := 0x004

/-- Modelled from the spec: `Rsrv.h` is not among the sources. Command `open-file`. -/
def CMD_openFile : Int := 0x010

/-- Modelled from the spec: `Rsrv.h` is not among the sources. Command
`create-file`. -/
def CMD_createFile : Int := 0x011

/-- Modelled from the spec: `Rsrv.h` is not among the sources. Command
`close-file`. -/
def CMD_closeFile : Int := 0x012

/-- Modelled from the spec: `Rsrv.h` is not among the sources. Command `read-file`. -/
def CMD_readFile : Int := 0x013

/-- Modelled from the spec: `Rsrv.h` is not among the sources. Command
`write-file`. -/
def CMD_writeFile : Int := 0x014

/-- Modelled from the spec: `Rsrv.h` is not among the sources. Command
`remove-file`. -/
def CMD_removeFile : Int := 0x015

/-- Modelled from the spec: `Rsrv.h` is not among the sources. Command
`set-variable`. -/
def CMD_setSEXP : Int := 0x020

/-- Modelled from the spec: `Rsrv.h` is not among the sources. The response
command word of an accepted request. -/
def RESP_OK : Int := 0x10001

/-- Modelled from the spec: the macro `CMD_STAT` of `Rsrv.h` is not among the
sources. The status carried by a response command word, `((X)>>24)&127`. -/
def CMD_STAT (x : Int) : Int := (((toUInt32 x >>> 24) &&& 127 : Nat) : Int)

/-- Modelled from the spec: `Rconnection.h` is not among the sources. Status
`malformed packet`. -/
def CERR_malformed_packet : Int := -8

/-- Modelled from the spec: `Rconnection.h` is not among the sources. Status of a
failed file transfer. -/
def CERR_io_error : Int := -12

/-- Modelled from the spec: the inline accessor `Rmessage::command()` of
`Rconnection.h` is not among the sources; it returns `head.cmd`. -/
def Rmessage.command (m : Rmessage) : Int := m.head.cmd

/-- The tail common to `openFile`, `createFile`, `removeFile`, `login` and
`assign`: `res=request(msg,cm); if (!res) res=CMD_STAT(msg->command()); return res;`
with `msg = new Rmessage()`. The field `status` of the result is the value
returned. -/
def Rconnection.requestStatus (mallocFails : Bool) (fuel : Nat) (c : Rconnection)
    (cm : Rmessage) (sock : Socket) (w : Wire) : Option Exchange :=
  match c.request mallocFails fuel Rmessage.empty cm sock w with
  | none => none
  | some x => some (if x.status = 0 then { x with status := CMD_STAT x.target.command } else x)

/-- Embedding of `int Rconnection::openFile(const char *fn)`. -/
def Rconnection.openFile (mallocFails : Bool) (fuel : Nat) (c : Rconnection)
    (fn : List Nat) (sock : Socket) (w : Wire) : Option Exchange :=
  match Rmessage.ofText CMD_openFile fn with
  | none => none
  | some cm => c.requestStatus mallocFails fuel cm sock w

/-- Embedding of `int Rconnection::createFile(const char *fn)`. -/
def Rconnection.createFile (mallocFails : Bool) (fuel : Nat) (c : Rconnection)
    (fn : List Nat) (sock : Socket) (w : Wire) : Option Exchange :=
  match Rmessage.ofText CMD_createFile fn with
  | none => none
  | some cm => c.requestStatus mallocFails fuel cm sock w

/-- Embedding of `int Rconnection::removeFile(const char *fn)`. -/
def Rconnection.removeFile (mallocFails : Bool) (fuel : Nat) (c : Rconnection)
    (fn : List Nat) (sock : Socket) (w : Wire) : Option Exchange :=
  match Rmessage.ofText CMD_removeFile fn with
  | none => none
  | some cm => c.requestStatus mallocFails fuel cm sock w

/-- The tail common to `writeFile` and `closeFile`:
`if (!res && msg->command()==RESP_OK) return 0; return (res==0)?CERR_io_error:res;`. -/
def Rconnection.requestOK (mallocFails : Bool) (fuel : Nat) (c : Rconnection)
    (cm : Rmessage) (sock : Socket) (w : Wire) : Option Exchange :=
  match c.request mallocFails fuel Rmessage.empty cm sock w with
  | none => none
  | some x =>
    some (if x.status = 0 ∧ x.target.command = RESP_OK then { x with status := 0 }
          else if x.status = 0 then { x with status := CERR_io_error } else x)

/-- Embedding of `int Rconnection::writeFile(const char *buf, unsigned int len)`. -/
def Rconnection.writeFile (mallocFails : Bool) (fuel : Nat) (c : Rconnection)
    (buf : List Nat) (len : Nat) (sock : Socket) (w : Wire) : Option Exchange :=
  c.requestOK mallocFails fuel (Rmessage.ofBuf CMD_writeFile buf len false) sock w

/-- Embedding of `int Rconnection::closeFile()`. -/
def Rconnection.closeFile (mallocFails : Bool) (fuel : Nat) (c : Rconnection)
    (sock : Socket) (w : Wire) : Option Exchange :=
  c.requestOK mallocFails fuel (Rmessage.ofCmd CMD_closeFile) sock w

/-- Embedding of `int Rconnection::shutdown(const char *key)`; `key = none` is
the null pointer. -/
def Rconnection.shutdown (mallocFails : Bool) (fuel : Nat) (c : Rconnection)
    (key : Option (List Nat)) (sock : Socket) (w : Wire) : Option Exchange :=
  match key with
  | none => c.request mallocFails fuel Rmessage.empty (Rmessage.ofCmd CMD_shutdown) sock w
  | some k =>
    match Rmessage.ofText CMD_shutdown k with
    | none => none
    | some cm => c.request mallocFails fuel Rmessage.empty cm sock w

/-- Embedding of `int Rconnection::login(const char *user, const char *pwd)` as
compiled on unix. `crypt` is the library function; the buffer holds the user
name, a line feed and the secret. When authentication was not required nothing is
exchanged and `0` is returned. -/
def Rconnection.login (crypt : List Nat → List Nat → List Nat) (mallocFails : Bool)
    (fuel : Nat) (c : Rconnection) (user pwd : List Nat) (sock : Socket) (w : Wire) :
    Option Exchange :=
  if c.auth &&& A_required = 0 then
    some ⟨0, c, Rmessage.empty, Rmessage.empty, sock, w⟩
  else
    let secret := if c.auth &&& A_crypt ≠ 0 then crypt pwd c.salt else pwd
    let authbuf := user.take (strlen user) ++ [10] ++ secret.take (strlen secret) ++ [0]
    match Rmessage.ofText CMD_login authbuf with
    | none => none
    | some cm => c.requestStatus mallocFails fuel cm sock w

/-- Embedding of `int Rconnection::readFile(char *buf, unsigned int len)`: the
value returned and the caller's memory from `buf` on, besides the connection
state. The request is `Rmessage(CMD_readFile, len)`. `none` also when `memcpy`
would read past the block of the response. -/
def Rconnection.readFile (mallocFails : Bool) (fuel : Nat) (c : Rconnection)
    (buf : List Nat) (len : Nat) (sock : Socket) (w : Wire) :
    Option (List Nat × Exchange) :=
  match c.request mallocFails fuel Rmessage.empty
      (Rmessage.ofInt CMD_readFile (toInt32 len)) sock w with
  | none => none
  | some x =>
    if x.status = 0 then
      if x.target.len > len % 4294967296 then some (buf, { x with status := CERR_malformed_packet })
      else if x.target.data.length < x.target.len then none
      else
        some (if x.target.len > 0 then
                writeAt buf 0 ((List.range x.target.len).map (byteAt x.target.data))
              else buf,
              { x with status := toInt32 x.target.len })
    else some (buf, { x with status := CERR_io_error })

/-- Embedding of `new_parsed_Rexp_from_Msg(Rmessage *msg)`: the inner `none` is
the null pointer returned for an empty message, the outer `none` the parser
still running when `fuel` is spent. The parser starts right after the header of
the first parameter. -/
def new_parsed_Rexp_from_Msg (fuel : Nat) (msg : Rmessage) : Option (Option Rexp) :=
  if msg.head.len = 0 then some none
  else
    let hp := msg.par.getD 0 0
    let hl := if (loadWord msg.data hp &&& DT_LARGE) > 0 then 2 else 1
    (new_parsed_Rexp fuel msg.data (hp + 4 * hl) true).map some

/-- What `Rconnection::eval` leaves behind: the pointer returned (`none` is the
null pointer), the value stored through `status`, and the state of the exchange. -/
structure EvalResult where
  value : Option Rexp
  status : Int
  exch : Exchange
deriving Repr

/-- Embedding of `Rexp *Rconnection::eval(const char *cmd, int *status, int opt)`
called with a non-null `status`. `pfuel` bounds the parser. -/
def Rconnection.eval (mallocFails : Bool) (fuel pfuel : Nat) (c : Rconnection)
    (cmd : List Nat) (opt : Nat) (sock : Socket) (w : Wire) : Option EvalResult :=
  match Rmessage.ofText (if opt &&& 1 ≠ 0 then CMD_voidEval else CMD_eval) cmd with
  | none => none
  | some cmdMessage =>
    match c.request mallocFails fuel Rmessage.empty cmdMessage sock w with
    | none => none
    | some x =>
      let res := x.status
      let msg := x.target
      if opt &&& 1 ≠ 0 ∧ res = 0 then some ⟨none, 0, x⟩
      else if opt &&& 1 = 0 ∧ res = 0 ∧
          (msg.pars ≠ 1 ∨ (ptoi (loadWord msg.data (msg.par.getD 0 0)) &&& 0x3f) ≠ DT_SEXP) then
        some ⟨none, -12, x⟩
      else if res ≠ 0 then some ⟨none, res, x⟩
      else (new_parsed_Rexp_from_Msg pfuel msg).map (fun v => ⟨v, 0, x⟩)

/-- Embedding of `int Rconnection::voidEval(const char *cmd)`: the status
returned and the state of the exchange. -/
def Rconnection.voidEval (mallocFails : Bool) (fuel : Nat) (c : Rconnection)
    (cmd : List Nat) (sock : Socket) (w : Wire) : Option (Int × Exchange) :=
  (c.eval mallocFails fuel 0 cmd 1 sock w).map (fun r => (r.status, r.exch))

/-- Modelled from the spec: the inline method `Rexp::storageSize()` of
`Rconnection.h` is not among the sources. The size of what `store` writes: the
content and its tagged-length header of 4 bytes, or 8 in the large form, as an
`Rsize_t`. -/
def Rexp.storageSize (e : Rexp) : Nat :=
  (e.len + (if e.len > 0x7fffff then 8 else 4)) % Rsize_max

/-- The request built by `Rconnection::assign(const char *symbol, Rexp *exp)`
before it is sent. `fresh` is what the block returned by `malloc` holds, `mem`
the block a parsed `exp` points into. `none` when `strlen(symbol)+1` does not fit
an `int` or a write leaves the block. -/
def Rconnection.assignMessage (fresh symbol : List Nat) (exp : Rexp) (mem : List Nat) :
    Option Rmessage :=
  let tl0 := strlen symbol + 1
  let tl := if tl0 &&& 3 ≠ 0 then (tl0 + 4) &&& 0xfffc else tl0
  let xl := exp.storageSize
  let hl0 := (4 + tl + 4) % Rsize_max
  let hl := if xl > 0x7fffff then (hl0 + 4) % Rsize_max else hl0
  let n := (hl + xl) % Rsize_max
  let d0 := (List.range n).map (byteAt fresh)
  let d1 := writeAt d0 0 (wordBytes (itop (SET_PAR DT_STRING tl)))
  let d2 := writeAt d1 4 (symbol.take (strlen symbol) ++ [0])
  let d3 := writeAt d2 (4 + tl)
    (wordBytes (itop (SET_PAR (if xl > 0x7fffff then DT_SEXP ||| DT_LARGE else DT_SEXP) xl)))
  let d4 := if xl > 0x7fffff then writeAt d3 (4 + tl + 4) (wordBytes (itop (xl >>> 24))) else d3
  let d5 := writeAt d4 hl (exp.store mem)
  if tl0 < 2147483648 ∧ 4 + tl0 ≤ n ∧ 4 + tl + 4 ≤ hl ∧ hl + (exp.store mem).length ≤ n then
    some { Rmessage.ofCmd CMD_setSEXP with
      data := d5, len := n, head := ⟨CMD_setSEXP, toInt32 n, 0, 0⟩ }
  else none

/-- Embedding of `int Rconnection::assign(const char *symbol, Rexp *exp)`. -/
def Rconnection.assign (fresh : List Nat) (mallocFails : Bool) (fuel : Nat)
    (c : Rconnection) (symbol : List Nat) (exp : Rexp) (mem : List Nat)
    (sock : Socket) (w : Wire) : Option Exchange :=
  match Rconnection.assignMessage fresh symbol exp mem with
  | none => none
  | some cm => c.requestStatus mallocFails fuel cm sock w

/-! ## Properties used in the statements -/

/-- What every return of `Rmessage::read` satisfies: the status is one of 0, -1,
-7, -8, -10, and with -7, -8 or -10 the socket has been closed. -/
def ReadPost (p : Int × Rmessage × Socket) : Prop :=
  (p.1 = 0 ∨ p.1 = -1 ∨ p.1 = -7 ∨ p.1 = -8 ∨ p.1 = -10) ∧
    ((p.1 = -7 ∨ p.1 = -8 ∨ p.1 = -10) → p.2.2.closed = true)

/-- The shape of a response that `Rmessage::read` has read to completion: the
two length fields agree, the block holds exactly the declared payload (no block
when the declared length is not positive as an `int`), and `pars`, `par` are
those `parse` computes. -/
def Rmessage.Framed (m : Rmessage) : Prop :=
  m.head.len = toInt32 m.len ∧ m.len < 4294967296 ∧
    (m.head.len ≤ 0 → m.data = []) ∧ (0 < m.head.len → m.data.length = m.len) ∧
    m.pars = m.parse.pars ∧ m.par = m.parse.par

/-- The state of a response between the stages of its first `read`: not
complete, the two length fields agree. -/
def Rmessage.Reading (m : Rmessage) : Prop :=
  m.complete = 0 ∧ m.head.len = toInt32 m.len ∧ m.len < 4294967296

/-- The block of a response from stage 3 on: allocated with the declared length
when that is positive, absent otherwise; `bytesReceived` within the block. -/
def Rmessage.Allocated (m : Rmessage) : Prop :=
  (m.head.len ≤ 0 → m.data = []) ∧
    (0 < m.head.len → m.data.length = m.head.len.toNat ∧ (m.bytesReceived : Int) ≤ m.head.len)

/-- The padded length of a destination name as the claim on `assign` words it:
`strlen(name)+1` rounded up to a multiple of 4. -/
def paddedNameLen (symbol : List Nat) : Nat := (strlen symbol + 4) / 4 * 4

/-- The size of a tagged-length header for a length `c` as the claims word it:
4 bytes, or 8 when `c` exceeds `0x7fffff`. -/
def headerLen (c : Nat) : Nat := if c > 0x7fffff then 8 else 4

/-- The `i`-th cell of a chain of list cells: `e` itself for `i = 0`, else the
cell reached by following `tail` `i` times (`none` when the chain ends before). -/
def nthCell : Nat → Rexp → Option Rexp
  | 0, e => some e
  | i + 1, e => e.tail.bind (nthCell i)

/-- Content made of consecutive child encodings as the claims on lists and
vectors word it: read from `ptr`, the children `cs` are the nodes parsed one
after the other, each at the position where the one before ends, and the region
`[ptr, eod)` is used up after the last. -/
def ChildrenAt (np : Nat → Option Rexp) (eod : Nat) : Nat → List Rexp → Prop
  | ptr, [] => ¬ (ptr < eod)
  | ptr, c :: rest => ptr < eod ∧ np ptr = some c ∧ ChildrenAt np eod c.next rest

/-- Content made of consecutive (value, tag) pairs: each value starts inside the
region, its tag is parsed where the value ends, and the region `[ptr, eod)` is
used up after the last tag. -/
def PairsAt (np : Nat → Option Rexp) (eod : Nat) : Nat → List (Rexp × Rexp) → Prop
  | ptr, [] => ¬ (ptr < eod)
  | ptr, p :: rest =>
    ptr < eod ∧ np ptr = some p.1 ∧ np p.1.next = some p.2 ∧ PairsAt np eod p.2.next rest

/-- The children of a tagged list in wire order: value, tag, value, tag, ... -/
def childrenOf : List (Rexp × Rexp) → List Rexp
  | [] => []
  | p :: rest => p.1 :: p.2 :: childrenOf rest

/-! ## Sample wire data -/

/-- An untagged list of the three integers 1, 2, 3 on the wire: the header
(XT_LIST_NOTAG, 24) and three children (XT_INT, 4). -/
def sampleUntagged : List Nat :=
  [20, 24, 0, 0, 1, 4, 0, 0, 1, 0, 0, 0, 1, 4, 0, 0, 2, 0, 0, 0, 1, 4, 0, 0, 3, 0, 0, 0]

/-- A tagged list of two (value, tag) pairs on the wire: the header
(XT_LIST_TAG, 32), then an integer and a symbol name, twice. -/
def sampleTagged : List Nat :=
  [21, 32, 0, 0, 1, 4, 0, 0, 1, 0, 0, 0, 19, 4, 0, 0, 97, 0, 0, 0,
   1, 4, 0, 0, 2, 0, 0, 0, 19, 4, 0, 0, 98, 0, 0, 0]

/-- A leaf with a 4-byte header and 4 bytes of content parsed at `pos`, as
`new_parsed_Rexp` builds it for a child. -/
def sampleLeaf (cls : RClass) (type pos : Nat) (name : Option Nat) : Rexp :=
  .node { cls := cls, type := type, len := 4, pos := pos, data := pos + 4, next := pos + 8,
          msg := false, master := .null, rcount := 0, own := [], capacity := 0, name := name }
    none none none none []

/-- A vector of the seventeen integers 1, ..., 17 on the wire: the header
(XT_VECTOR, 136) and seventeen children (XT_INT, 4). -/
def sampleVector : List Nat :=
  [16, 136, 0, 0] ++
    (List.range 17).foldr (fun i acc => [1, 4, 0, 0, i + 1, 0, 0, 0] ++ acc) []

/-- The seventeen children of `sampleVector` as the parser builds them. -/
def sampleVectorChildren : List Rexp :=
  (List.range 17).map (fun i => sampleLeaf .Rinteger XT_INT (4 + 8 * i) none)

/-- A node of the given class and type parsed at offset 0 of a message, with
`len` bytes of content, before `fix_content` runs. -/
def sampleNode (cls : RClass) (type len : Nat) : Rexp :=
  .node { cls := cls, type := type, len := len, pos := 0, data := 4, next := 4 + len,
          msg := true, master := .null, rcount := 0, own := [], capacity := 0, name := none }
    none none none none []

/-! ## Node lifetime on an explicit heap -/

/-- The fields of an `Rexp` that `~Rexp` and `set_master` use. Pointers to nodes
are addresses in the heap (`none` is the null pointer); `data` is the value of
the pointer `data` and `msg` names the `Rmessage` the node holds. -/
structure Cell where
  attr : Option Nat
  master : Option Nat
  rcount : Int
  msg : Option Nat
  data : Nat
  len : Nat
deriving DecidableEq, Repr

/-- The heap of nodes: `cells[a]` is the node at address `a` (`none` once it is
deallocated); `freed` lists the pointers passed to `free`, `deleted` the messages
passed to `delete`, both in order; `warnings` counts the diagnostics printed. -/
structure Heap where
  cells : List (Option Cell)
  freed : List Nat
  deleted : List Nat
  warnings : Nat
deriving DecidableEq, Repr

/-- The live node at address `a`. -/
def Heap.get (h : Heap) (a : Nat) : Option Cell := h.cells.getD a none

/-- The heap with the node at address `a` replaced. -/
def Heap.put (h : Heap) (a : Nat) (c : Option Cell) : Heap := { h with cells := h.cells.set a c }

/-- The statement `m->rcount--`; undefined (`none`) on a node that is not live. -/
def Heap.decr (h : Heap) (m : Nat) : Option Heap :=
  match h.get m with
  | none => none
  | some c => some (h.put m (some { c with rcount := c.rcount - 1 }))

/-- The statement `m->rcount++`; undefined (`none`) on a node that is not live. -/
def Heap.incr (h : Heap) (m : Nat) : Option Heap :=
  match h.get m with
  | none => none
  | some c => some (h.put m (some { c with rcount := c.rcount + 1 }))

/-- Embedding of `void Rexp::set_master(Rexp *m)` on the node at address `this`. -/
def Rexp.set_master (h : Heap) (this : Nat) (m : Option Nat) : Option Heap :=
  match h.get this with
  | none => none
  | some c =>
    match (match c.master with
           | some p => h.decr p
           | none => some h) with
    | none => none
    | some h1 =>
      match h1.get this with
      | none => none
      | some c1 =>
        match m with
        | some q => (h1.put this (some { c1 with master := m })).incr q
        | none => some (h1.put this (some { c1 with master := m }))

/-- Embedding of `delete` on a node of class `Rexp` at address `this`: the body
of `Rexp::~Rexp`, then the deallocation of the node. `delete(attr)` runs the same
on the attribute; `fuel` bounds that nesting, `none` when it is spent or a node
that is not live is used. -/
def Rexp.delete : Nat → Heap → Nat → Option Heap
  | 0, _, _ => none
  | fuel + 1, h, this =>
    match h.get this with
    | none => none
    | some c =>
      match (match c.attr with
             | some a => Rexp.delete fuel h a
             | none => some h) with
      | none => none
      | some h1 =>
        match h1.get this with
        | none => none
        | some c1 =>
          match (match c1.master with
                 | some m =>
                   if m = this then
                     some ({ h1 with freed := h1.freed ++ [c1.data] }.put this
                       (some { c1 with attr := none, len := 0, master := none }))
                   else (h1.decr m).map (fun (h2 : Heap) =>
                     h2.put this (some { c1 with attr := none, master := none }))
                 | none => some (h1.put this (some { c1 with attr := none }))) with
          | none => none
          | some h3 =>
            match h3.get this with
            | none => none
            | some c3 =>
              some ((match c3.msg with
                     | some q =>
                       if c3.rcount > 0 then { h3 with warnings := h3.warnings + 1 }
                       else { h3 with deleted := h3.deleted ++ [q] }
                     | none => h3).put this none)

/-- Destruction of the nodes at the addresses `ds`, in that order. -/
def Rexp.deleteAll (fuel : Nat) : Heap → List Nat → Option Heap
  | h, [] => some h
  | h, d :: ds =>
    match Rexp.delete fuel h d with
    | none => none
    | some h1 => Rexp.deleteAll fuel h1 ds

/-- Allocation of a node: the heap with the node appended and its address.
Addresses stand for the identity of nodes: a new node gets an address that no
node had before, so a pointer left to a deallocated node is never a pointer to
a node allocated later. -/
def Heap.alloc (h : Heap) (c : Cell) : Heap × Nat :=
  ({ h with cells := h.cells ++ [some c] }, h.cells.length)

/-- The fields set by `Rexp::Rexp(int type, const char *data, int len, Rexp *attr)`
with `len > 0`, for a node placed at address `this`; `block` is the pointer
returned by `malloc`. -/
def Cell.ofData (this block len : Nat) (attr : Option Nat) : Cell :=
  { attr := attr, master := some this, rcount := 0, msg := none, data := block, len := len }

/-- The fields set by `Rexp::Rexp(unsigned int *pos, Rmessage *msg)` for a node
without attribute whose content is `len` bytes at `data`. -/
def Cell.ofPos (msg : Option Nat) (data len : Nat) : Cell :=
  { attr := none, master := none, rcount := 0, msg := msg, data := data, len := len }

/-- An integer array with an attribute on the wire: the header
`(XT_ARRAY_INT | XT_HAS_ATTR, 16)`, a string attribute `(XT_STR, 4)` with its 4
bytes, and 8 bytes of content. -/
def sampleAttributed : List Nat :=
  [160, 16, 0, 0, 3, 4, 0, 0, 97, 0, 0, 0, 1, 0, 0, 0, 2, 0, 0, 0]

/-- The loads of `Rmessage::parse` from the block: at every offset `c` it
records, the loop reads the word `pp[0]` at `c`, and the word `pp[1]` as well when
the large bit is set. Each entry is an offset with the number of bytes read from
it (4 or 8). -/
def Rmessage.parseReads (m : Rmessage) : List (Nat × Nat) :=
  if m.len < 4 then []
  else (Rmessage.parseLoop m.data m.len 16 0).map (fun c => (c, (parHeader m.data c).1))

/-- The number of other live nodes whose master is the node at address `a`, as
the claim on the outstanding-reference count words it. -/
def Heap.dependents (h : Heap) (a : Nat) : Nat :=
  ((List.range h.cells.length).filter
    (fun d => decide (d ≠ a) && decide ((h.get d).bind Cell.master = some a))).length

/-- The calls `d->set_master(m)` on the nodes at the addresses `ds`, in that
order. -/
def Rexp.set_master_all (m : Option Nat) : Heap → List Nat → Option Heap
  | h, [] => some h
  | h, d :: ds =>
    match Rexp.set_master h d m with
    | none => none
    | some h1 => Rexp.set_master_all m h1 ds

/-- Embedding of the statements of `Rexp::parse` that attach an attribute to the
node at address `this`, `a` being the address of the node that
`new_parsed_Rexp((unsigned int*)data, 0)` has just built:
`attr = ...; if (master || msg) attr->set_master(master?master:this);`. -/
def Rexp.parse_attr (h : Heap) (this a : Nat) : Option Heap :=
  match h.get this with
  | none => none
  | some c =>
    if c.master.isSome ∨ c.msg.isSome then
      Rexp.set_master (h.put this (some { c with attr := some a })) a
        (some (c.master.getD this))
    else some (h.put this (some { c with attr := some a }))

/-- One step in the life of the nodes: a construction by
`Rexp::Rexp(unsigned int *pos, Rmessage *msg)` or `Rexp::Rexp(Rmessage *msg)`
(`parsed`), a construction by
`Rexp::Rexp(int type, const char *data, int len, Rexp *attr)` (`ofData`), the
attachment of a just-parsed attribute by `Rexp::parse` (`parse_attr`), a call of
`set_master`, or a destruction. -/
inductive NodeOp where
  | parsed (msg : Option Nat) (data len : Nat)
  | ofData (block len : Nat) (attr : Option Nat)
  | parse_attr (this a : Nat)
  | set_master (this : Nat) (m : Option Nat)
  | delete (this : Nat)
deriving DecidableEq, Repr

/-- The effect of one step on the heap; a constructed node is placed at the next
free address. `none` when the step uses a node that is not live, or the nesting
of `delete(attr)` exceeds `fuel`. -/
def NodeOp.run (fuel : Nat) (h : Heap) : NodeOp → Option Heap
  | .parsed msg data len => some (h.alloc (Cell.ofPos msg data len)).1
  | .ofData block len attr => some (h.alloc (Cell.ofData h.cells.length block len attr)).1
  | .parse_attr this a => Rexp.parse_attr h this a
  | .set_master this m => Rexp.set_master h this m
  | .delete this => Rexp.delete fuel h this

/-- The steps in order. -/
def NodeOp.runAll (fuel : Nat) : Heap → List NodeOp → Option Heap
  | h, [] => some h
  | h, op :: ops =>
    match op.run fuel h with
    | none => none
    | some h1 => NodeOp.runAll fuel h1 ops

/-- The shape of the calls of `set_master` in the program (`Rexp::parse` calls it
on the attribute it has just parsed, `attr->set_master(master?master:this)`): the
receiver is not its own master and is not the node it is given as master. -/
def NodeOp.asParse (h : Heap) : NodeOp → Bool
  | .set_master this m =>
    decide ((h.get this).bind Cell.master ≠ some this) && decide (m ≠ some this)
  | .parse_attr this a =>
    decide ((h.get a).bind Cell.master ≠ some a) && decide (this ≠ a) &&
      decide ((h.get this).bind Cell.master ≠ some a)
  | _ => true

/-- Every step of the sequence, at the heap it runs on, calls `set_master` as
the program does. -/
def NodeOp.allAsParse (fuel : Nat) : Heap → List NodeOp → Bool
  | _, [] => true
  | h, op :: ops =>
    op.asParse h &&
      (match op.run fuel h with
       | none => true
       | some h1 => NodeOp.allAsParse fuel h1 ops)

/-- The count invariant up to an offset: every live node has `rcount` equal to
the number of its dependents plus `off`, and the master pointer of a live node is
the address of a node that has been allocated. With `off = 0` the first part is
the invariant on the outstanding-reference count. -/
def Heap.CountedBy (h : Heap) (off : Nat → Int) : Prop :=
  (∀ a c, h.get a = some c → c.rcount = (h.dependents a : Int) + off a) ∧
  (∀ d c m, h.get d = some c → c.master = some m → m < h.cells.length)

/-- The class of the node that `new_parsed_Rexp` builds for a node type: the
subclass whose constructor it calls. -/
def classOfType (t : Nat) : RClass :=
  if t = XT_ARRAY_INT ∨ t = XT_INT then .Rinteger
  else if t = XT_ARRAY_DOUBLE ∨ t = XT_DOUBLE then .Rdouble
  else if t = XT_LIST ∨ t = XT_LIST_NOTAG ∨ t = XT_LIST_TAG then .Rlist
  else if t = XT_VECTOR then .Rvector
  else if t = XT_STR then .Rstring
  else if t = XT_SYM ∨ t = XT_SYMNAME then .Rsymbol
  else if t = XT_ARRAY_STR then .Rstrings
  else .Rexp

/-- The node types whose subclass has no `fix_content` that reads the block or
builds children: everything but the lists, the vector and the symbols. -/
def flatType (t : Nat) : Prop :=
  t ≠ XT_LIST ∧ t ≠ XT_LIST_NOTAG ∧ t ≠ XT_LIST_TAG ∧ t ≠ XT_VECTOR ∧ t ≠ XT_SYM ∧ t ≠ XT_SYMNAME

instance (t : Nat) : Decidable (flatType t) := by
  unfold flatType
  exact inferInstance

/-- A node without attribute and children whose `len` bytes of content are at
offset `data` of the block it was parsed from. -/
def leafNode (cls : RClass) (type len pos data : Nat) (msg : Bool) : Rexp :=
  .node { cls := cls, type := type, len := len, pos := pos, data := data, next := data + len,
          msg := msg, master := .null, rcount := 0, own := [], capacity := 0, name := none }
    none none none none []

/-- The fields of a node that no `fix_content` changes. -/
def Rexp.rootFields (v : Rexp) :
    RClass × Nat × Nat × Nat × Nat × Bool × List Nat × Option Rexp :=
  (v.info.cls, v.info.type, v.info.len, v.info.pos, v.info.data, v.info.msg, v.info.own, v.attr)

/-- What the bytes of the block at offset `d` say of the node `v` parsed there:
`pos` is `d`, the type is the low 6 bits of the header word and the class the one
of that type, the content is read from the block; without the attribute bit the
content is the declared length right after the header (4 bytes, or 8 in the
large form), and a node of a flat type is the leaf with these fields; with the
attribute bit the attribute is the node parsed right after the header and the
content starts where the attribute ends. -/
def Rexp.DecodedAt (mem : List Nat) (d : Nat) (msg : Bool) (v : Rexp) : Prop :=
  v.info.pos = d ∧ v.type = loadWord mem d &&& 0x3f ∧
  v.info.cls = classOfType (loadWord mem d &&& 0x3f) ∧ v.info.msg = msg ∧ v.info.own = [] ∧
  (loadWord mem d &&& XT_HAS_ATTR = 0 →
    v.attr = none ∧ v.data = d + (parHeader mem d).1 ∧ v.len = (parHeader mem d).2 ∧
    (flatType (loadWord mem d &&& 0x3f) →
      v = leafNode (classOfType (loadWord mem d &&& 0x3f)) (loadWord mem d &&& 0x3f)
        (parHeader mem d).2 d (d + (parHeader mem d).1) msg)) ∧
  (loadWord mem d &&& XT_HAS_ATTR ≠ 0 →
    ∃ a, v.attr = some a ∧ a.info.pos = d + (parHeader mem d).1 ∧ v.data = a.next)

/-- Values back to back from offset `c` until the end `e` of the content is
reached, as the loops of `Rlist::fix_content` (untagged branch) and
`Rvector::fix_content` read them: `va p` is the end of the value at `p`, `none`
when that value does not lie inside the block; `k` bounds the number of turns. -/
def valuesWithin (va : Nat → Option Nat) (e : Nat) : Nat → Nat → Bool
  | 0, _ => false
  | k + 1, c =>
    if c < e then
      match va c with
      | none => false
      | some c1 => valuesWithin va e k c1
    else true

/-- Pairs of a value and its tag back to back from offset `c` until the end `e`
of the content is reached, as the loop of the tagged branch of
`Rlist::fix_content` reads them: the offset the loop stops at, `none` when a value
or a tag does not lie inside the block or `k` turns do not suffice. -/
def pairsWithin (va : Nat → Option Nat) (e : Nat) : Nat → Nat → Option Nat
  | 0, _ => none
  | k + 1, c =>
    if c < e then
      match va c with
      | none => none
      | some c1 =>
        match va c1 with
        | none => none
        | some c2 => pairsWithin va e k c2
    else some c

/-- The head, tail and tag of a list of type `XT_LIST` from offset `c`, as
`Rlist::fix_content` reads them: the tail when the head ends before `e`, the tag
when the tail ends before `e`. -/
def dottedWithin (va : Nat → Option Nat) (e c : Nat) : Bool :=
  match va c with
  | none => false
  | some c1 =>
    if c1 < e then
      match va c1 with
      | none => false
      | some c2 => if c2 < e then (va c2).isSome else true
    else true

/-- The offset `next` of the node that `new_parsed_Rexp` builds at offset `d`
when every byte the parser reads for it, and the content of the node, lies inside
the block: the header (4 bytes, or 8 in the large form) and the declared content
end within the block, the attribute (if the bit is set) is such a value and ends
within the content, and so is every value that `fix_content` parses from the
content; a symbol of type `XT_SYM` has the byte that `Rsymbol::fix_content`
tests. `none` otherwise. `k` bounds the nesting and the turns of each loop as
the fuel of `new_parsed_Rexp` does. -/
def valueWithin : Nat → List Nat → Nat → Option Nat
  | 0, _, _ => none
  | k + 1, mem, d =>
    let va := fun p => valueWithin k mem p
    let t := loadWord mem d &&& 0x3f
    let e := d + (parHeader mem d).1 + (parHeader mem d).2
    if d + (parHeader mem d).1 ≤ mem.length ∧ e ≤ mem.length then
      match (if loadWord mem d &&& XT_HAS_ATTR ≠ 0 then va (d + (parHeader mem d).1)
             else some (d + (parHeader mem d).1)) with
      | none => none
      | some c =>
        if c ≤ e then
          if t = XT_LIST then (if dottedWithin va e c then some e else none)
          else if t = XT_LIST_NOTAG ∨ t = XT_VECTOR then
            (if valuesWithin va e k c then some e else none)
          else if t = XT_LIST_TAG then pairsWithin va e k c
          else if t = XT_SYM then (if c < e then some e else none)
          else some e
        else none
    else none

/-! ## Theorems -/

theorem parHeader_fst (data : List Nat) (c : Nat) :
    (parHeader data c).1 = if loadWord data c &&& 64 ≠ 0 then 8 else 4 := by
  unfold parHeader ptoi DT_LARGE
  by_cases h : loadWord data c &&& 64 = 0
  · simp [h]
  · have : loadWord data c &&& 64 > 0 := Nat.pos_of_ne_zero h
    simp [h, this]

theorem parHeader_snd (data : List Nat) (c : Nat) :
    (parHeader data c).2 =
      if loadWord data c &&& 64 ≠ 0 then
        loadWord data c / 256 ||| (loadWord data (c + 4) * 16777216) % 4294967296
      else loadWord data c / 256 := by
  unfold parHeader ptoi DT_LARGE Rsize_max
  by_cases h : loadWord data c &&& 64 = 0
  · simp [h, Nat.shiftRight_eq_div_pow]
  · have : loadWord data c &&& 64 > 0 := Nat.pos_of_ne_zero h
    simp [h, this, Nat.shiftRight_eq_div_pow, Nat.shiftLeft_eq]

theorem parseLoop_length_le (data : List Nat) (eop : Nat) :
    ∀ slots c, (Rmessage.parseLoop data eop slots c).length ≤ slots := by
  intro slots
  induction slots with
  | zero => intro c; simp [Rmessage.parseLoop]
  | succ n ih =>
    intro c
    unfold Rmessage.parseLoop
    split
    · simpa using ih _
    · simp

theorem parseLoop_lt (data : List Nat) (eop : Nat) :
    ∀ slots c, ∀ x ∈ Rmessage.parseLoop data eop slots c, x < eop := by
  intro slots
  induction slots with
  | zero => intro c x hx; simp [Rmessage.parseLoop] at hx
  | succ n ih =>
    intro c x hx
    unfold Rmessage.parseLoop at hx
    split at hx
    · rcases List.mem_cons.1 hx with h | h
      · omega
      · exact ih _ x h
    · simp at hx

theorem parseLoop_head (data : List Nat) (eop slots c : Nat) (h : c < eop) :
    (Rmessage.parseLoop data eop (slots + 1) c).head? = some c := by
  simp [Rmessage.parseLoop, h]

theorem parseLoop_head_mem (data : List Nat) (eop : Nat) :
    ∀ slots c, ∀ x ∈ (Rmessage.parseLoop data eop slots c).head?, x = c := by
  intro slots c x hx
  cases slots with
  | zero => simp [Rmessage.parseLoop] at hx
  | succ n =>
    unfold Rmessage.parseLoop at hx
    split at hx
    · simpa using hx.symm
    · simp at hx

theorem parseLoop_chain (data : List Nat) (eop : Nat) :
    ∀ slots c, List.Chain' (fun a b => b = a + (parHeader data a).1 + (parHeader data a).2)
      (Rmessage.parseLoop data eop slots c) := by
  intro slots
  induction slots with
  | zero => intro c; simp [Rmessage.parseLoop]
  | succ n ih =>
    intro c
    unfold Rmessage.parseLoop
    split
    · rw [List.chain'_cons']
      exact ⟨fun y hy => parseLoop_head_mem data eop n _ y hy, ih _⟩
    · simp

theorem parseLoop_stop (data : List Nat) (eop : Nat) :
    ∀ slots c, c < eop → 0 < slots →
      (Rmessage.parseLoop data eop slots c).length = slots ∨
      ∃ z, (Rmessage.parseLoop data eop slots c).getLast? = some z ∧
        eop ≤ z + (parHeader data z).1 + (parHeader data z).2 := by
  intro slots
  induction slots with
  | zero => intro c _ h; omega
  | succ n ih =>
    intro c hc _
    unfold Rmessage.parseLoop
    simp only [hc, if_true]
    rcases Nat.eq_zero_or_pos n with hn | hn
    · subst hn; left; simp [Rmessage.parseLoop]
    · by_cases hnext : c + (parHeader data c).1 + (parHeader data c).2 < eop
      · rcases ih _ hnext hn with h | ⟨z, hz, hle⟩
        · left; simp [h]
        · right
          refine ⟨z, ?_, hle⟩
          rw [List.getLast?_cons, hz]; rfl
      · right
        refine ⟨c, ?_, by omega⟩
        cases n with
        | zero => omega
        | succ k => simp [Rmessage.parseLoop, hnext]

/-- Claim C2. `Rmessage::parse` records at most 16 parameter offsets: none for
a payload shorter than 4 bytes; otherwise the first is 0, each following one is
the previous one plus that parameter's header size (8 when the large bit of its
first word is set, else 4) plus its declared length, every recorded offset is
below the payload length, and the scan ends after 16 records or when the
position after the last recorded parameter is not below the payload length. -/
theorem C2_parse_offsets (m : Rmessage) :
    m.parse.pars = m.parse.par.length ∧ m.parse.pars ≤ 16 ∧
    (m.len < 4 → m.parse.pars = 0) ∧
    (4 ≤ m.len → m.parse.par.head? = some 0) ∧
    List.Chain' (fun a b => b = a + (parHeader m.data a).1 + (parHeader m.data a).2)
      m.parse.par ∧
    (∀ x ∈ m.parse.par, x < m.len) ∧
    (4 ≤ m.len → m.parse.pars = 16 ∨
      ∃ z, m.parse.par.getLast? = some z ∧
        m.len ≤ z + (parHeader m.data z).1 + (parHeader m.data z).2) ∧
    (∀ c, (parHeader m.data c).1 = if loadWord m.data c &&& 64 ≠ 0 then 8 else 4) ∧
    (∀ c, (parHeader m.data c).2 =
      if loadWord m.data c &&& 64 ≠ 0 then
        loadWord m.data c / 256 ||| (loadWord m.data (c + 4) * 16777216) % 4294967296
      else loadWord m.data c / 256) := by
  by_cases h : m.len < 4
  · have hp : m.parse = { m with pars := 0, par := [] } := by simp [Rmessage.parse, h]
    rw [hp]
    refine ⟨rfl, by simp, fun _ => rfl, fun h4 => by omega, by simp, by simp,
      fun h4 => by omega, parHeader_fst _, parHeader_snd _⟩
  · have hp : m.parse = { m with pars := (Rmessage.parseLoop m.data m.len 16 0).length,
                                 par := Rmessage.parseLoop m.data m.len 16 0 } := by
      simp [Rmessage.parse, h]
    rw [hp]
    have h0 : 0 < m.len := by omega
    refine ⟨rfl, parseLoop_length_le _ _ _ _, fun h4 => by omega,
      fun _ => parseLoop_head _ _ _ _ h0, parseLoop_chain _ _ _ _, parseLoop_lt _ _ _ _,
      fun _ => parseLoop_stop _ _ _ _ h0 (by norm_num), parHeader_fst _, parHeader_snd _⟩


theorem strlen_replicate (n b : Nat) (hb : b % 256 ≠ 0) : strlen (List.replicate n b) = n := by
  simp [strlen, List.takeWhile_replicate, hb]

/-- Claim C3, the code at the failing input: for a text of 1048572 bytes `a`
(no NUL), `strlen(txt)+1 = 1048573` is not a multiple of 4 and the mask `0xffffc`
turns the aligned length into 0 instead of 1048576, so that `len = 4`, the block
has 16 bytes and `strcpy` writes 1048573 bytes past offset 4: no message with a
payload of 4 + 1048576 bytes is built. -/
theorem C3_ofText_mask_truncates (cmd : Int) :
    strlen (List.replicate 1048572 97) = 1048572 ∧
    alignedTextLen (strlen (List.replicate 1048572 97) + 1) = 0 ∧
    alignedTextLen (strlen (List.replicate 1048572 97) + 1) + 4 ≠ 4 + 1048576 ∧
    Rmessage.ofText cmd (List.replicate 1048572 97) = none := by
  have h : strlen (List.replicate 1048572 97) = 1048572 := strlen_replicate _ _ (by decide)
  have h2 : alignedTextLen (1048572 + 1) = 0 := by decide
  refine ⟨h, by rw [h]; exact h2, by rw [h, h2]; decide, ?_⟩
  unfold Rmessage.ofText
  simp only [h, h2]
  rfl


theorem ofBuf_raw (cmd : Int) (buf : List Nat) (dlen : Nat) :
    (Rmessage.ofBuf cmd buf dlen true).len = dlen ∧
    (Rmessage.ofBuf cmd buf dlen true).head.len = dlen ∧
    (Rmessage.ofBuf cmd buf dlen true).payload = (List.range dlen).map (fun i => byteAt buf i) := by
  simp [Rmessage.ofBuf, Rmessage.payload, writeAt, Rmessage.empty]

/-- Claim C4, the code at the failing input: for the caller's buffer
`1,2,...,10` (whatever lies behind it in memory) with `dlen = 10` and `raw_data`
unset, the payload has 14 bytes and starts with the header (DT_BYTESTREAM, 10),
but the bytes after the header are not the caller's `1,2,...`: `memcpy` reads from
`buf+4` and writes to the start of the block, so after the header come the
caller's bytes 9 and 10 (source offsets 8, 9), the caller's first eight bytes are
lost, and the last four bytes of the payload are never written. -/
theorem C4_ofBuf_shifts_source (cmd : Int) (beyond : List Nat) :
    (Rmessage.ofBuf cmd ([1, 2, 3, 4, 5, 6, 7, 8, 9, 10] ++ beyond) 10 false).len = 14 ∧
    (Rmessage.ofBuf cmd ([1, 2, 3, 4, 5, 6, 7, 8, 9, 10] ++ beyond) 10 false).payload.take 6
      = wordBytes (SET_PAR DT_BYTESTREAM 10) ++ [9, 10] ∧
    (Rmessage.ofBuf cmd ([1, 2, 3, 4, 5, 6, 7, 8, 9, 10] ++ beyond) 10 false).payload.take 6
      ≠ wordBytes (SET_PAR DT_BYTESTREAM 10) ++ [1, 2] ∧
    (Rmessage.ofBuf cmd ([1, 2, 3, 4, 5, 6, 7, 8, 9, 10] ++ beyond) 10 false).payload.drop 10
      = [0, 0, 0, 0] := by
  have hr : List.range 10 = [0, 1, 2, 3, 4, 5, 6, 7, 8, 9] := by decide
  have hw : wordBytes (SET_PAR DT_BYTESTREAM 10) = [5, 10, 0, 0] := by decide
  have h : (Rmessage.ofBuf cmd ([1, 2, 3, 4, 5, 6, 7, 8, 9, 10] ++ beyond) 10 false).payload
      = [5, 10, 0, 0, 9, 10, byteAt beyond 0, byteAt beyond 1, byteAt beyond 2, byteAt beyond 3,
         0, 0, 0, 0] := by
    simp [Rmessage.ofBuf, Rmessage.payload, writeAt, Rmessage.empty, hr, hw, itop, byteAt,
      List.getD_cons_succ, List.replicate]
  refine ⟨rfl, ?_, ?_, ?_⟩
  · rw [h, hw]; rfl
  · rw [h, hw]; simp
  · rw [h]; rfl


theorem byteAt_tail (a : List Nat) (i : Nat) : byteAt a.tail i = byteAt a (i + 1) := by
  cases a <;> simp [byteAt]

theorem byteAt_drop (a : List Nat) (k i : Nat) : byteAt (a.drop k) i = byteAt a (k + i) := by
  simp [byteAt, List.getD_eq_getElem?_getD, List.getElem?_drop]

theorem byteAt_lt (a : List Nat) (i : Nat) : byteAt a i < 256 := by
  unfold byteAt; omega

/-- `strncmp` against four given non-NUL bytes: the difference at the first
position where the strings differ, `0` when the four bytes agree. -/
theorem strncmp_four (a rest : List Nat) (b0 b1 b2 b3 : Nat)
    (h0 : 0 < b0 ∧ b0 < 256) (h1 : 0 < b1 ∧ b1 < 256) (h2 : 0 < b2 ∧ b2 < 256)
    (h3 : 0 < b3 ∧ b3 < 256) :
    strncmp a (b0 :: b1 :: b2 :: b3 :: rest) 4 =
      if byteAt a 0 ≠ b0 then (byteAt a 0 : Int) - b0
      else if byteAt a 1 ≠ b1 then (byteAt a 1 : Int) - b1
      else if byteAt a 2 ≠ b2 then (byteAt a 2 : Int) - b2
      else if byteAt a 3 ≠ b3 then (byteAt a 3 : Int) - b3
      else 0 := by
  have e0 : byteAt (b0 :: b1 :: b2 :: b3 :: rest) 0 = b0 := by
    simp [byteAt]; omega
  have e1 : byteAt (b1 :: b2 :: b3 :: rest) 0 = b1 := by
    simp [byteAt]; omega
  have e2 : byteAt (b2 :: b3 :: rest) 0 = b2 := by
    simp [byteAt]; omega
  have e3 : byteAt (b3 :: rest) 0 = b3 := by
    simp [byteAt]; omega
  simp only [strncmp, List.tail_cons, e0, e1, e2, e3, byteAt_tail, Nat.zero_add]
  by_cases c0 : byteAt a 0 = b0
  · by_cases c1 : byteAt a 1 = b1
    · by_cases c2 : byteAt a 2 = b2
      · by_cases c3 : byteAt a 3 = b3
        · simp [c0, c1, c2, c3]
        · simp [c0, c1, c2, c3]; omega
      · simp [c0, c1, c2]; omega
    · simp [c0, c1]; omega
  · simp [c0]


theorem pollConnection_full (c : Rconnection) (sock s1 : Socket) (bs : List Nat)
    (hrecv : recv sock (32 - c.receivedCharsFromIDstring) = (.ok bs, s1))
    (hfull : bs.length + c.receivedCharsFromIDstring = 32) :
    c.pollConnection sock =
      if strncmp (c.idAfter bs) myID 4 ≠ 0 then (-3, { c with IDstring := c.idAfter bs }, s1)
      else if strncmp ((c.idAfter bs).drop 8) (myID.drop 8) 4 ≠ 0
          ∨ strncmp ((c.idAfter bs).drop 4) (myID.drop 4) 4 > 0 then
        (-4, { c with IDstring := c.idAfter bs }, s1)
      else (0, { Rconnection.scanTokens 5 12 { c with IDstring := c.idAfter bs } with
                  _connected := true }, s1) := by
  simp only [Rconnection.pollConnection, hrecv, Rconnection.idAfter]
  simp [hfull]

theorem strncmp_magic (a : List Nat) :
    strncmp a myID 4 = 0 ↔
      byteAt a 0 = 82 ∧ byteAt a 1 = 115 ∧ byteAt a 2 = 114 ∧ byteAt a 3 = 118 := by
  have h := strncmp_four a [48, 49, 48, 51, 81, 65, 80, 49] 82 115 114 118
    (by decide) (by decide) (by decide) (by decide)
  have e : myID = 82 :: 115 :: 114 :: 118 :: [48, 49, 48, 51, 81, 65, 80, 49] := rfl
  rw [e, h]
  split_ifs <;> omega

theorem strncmp_transport (a : List Nat) :
    strncmp (a.drop 8) (myID.drop 8) 4 = 0 ↔
      byteAt a 8 = 81 ∧ byteAt a 9 = 65 ∧ byteAt a 10 = 80 ∧ byteAt a 11 = 49 := by
  have h := strncmp_four (a.drop 8) [] 81 65 80 49
    (by decide) (by decide) (by decide) (by decide)
  have e : myID.drop 8 = 81 :: 65 :: 80 :: 49 :: [] := rfl
  have d0 : byteAt (a.drop 8) 0 = byteAt a 8 := byteAt_drop a 8 0
  have d1 : byteAt (a.drop 8) 1 = byteAt a 9 := byteAt_drop a 8 1
  have d2 : byteAt (a.drop 8) 2 = byteAt a 10 := byteAt_drop a 8 2
  have d3 : byteAt (a.drop 8) 3 = byteAt a 11 := byteAt_drop a 8 3
  rw [e, h]
  simp only [d0, d1, d2, d3]
  split_ifs <;> omega

theorem strncmp_version (a : List Nat) :
    strncmp (a.drop 4) (myID.drop 4) 4 > 0 ↔
      (byteAt a 4 > 48 ∨ (byteAt a 4 = 48 ∧ (byteAt a 5 > 49 ∨ (byteAt a 5 = 49 ∧
        (byteAt a 6 > 48 ∨ (byteAt a 6 = 48 ∧ byteAt a 7 > 51)))))) := by
  have h := strncmp_four (a.drop 4) [81, 65, 80, 49] 48 49 48 51
    (by decide) (by decide) (by decide) (by decide)
  have e : myID.drop 4 = 48 :: 49 :: 48 :: 51 :: [81, 65, 80, 49] := rfl
  have d0 : byteAt (a.drop 4) 0 = byteAt a 4 := byteAt_drop a 4 0
  have d1 : byteAt (a.drop 4) 1 = byteAt a 5 := byteAt_drop a 4 1
  have d2 : byteAt (a.drop 4) 2 = byteAt a 6 := byteAt_drop a 4 2
  have d3 : byteAt (a.drop 4) 3 = byteAt a 7 := byteAt_drop a 4 3
  rw [e, h]
  simp only [d0, d1, d2, d3]
  split_ifs <;> omega

/-- Claim C5. Once the 32 bytes of the identification string are in,
`pollConnection` returns -3 exactly when bytes 0..3 are not `Rsrv`; otherwise it
returns -4 exactly when bytes 8..11 are not `QAP1` or bytes 4..7 are lexically
greater than `0103`; otherwise it returns 0 with `_connected` set. When it
returns -3 or -4 the flag `_connected` is left as it was. -/
theorem C5_handshake_validation (c : Rconnection) (sock s1 : Socket) (bs : List Nat)
    (hrecv : recv sock (32 - c.receivedCharsFromIDstring) = (.ok bs, s1))
    (hfull : bs.length + c.receivedCharsFromIDstring = 32) :
    ((c.pollConnection sock).1 = -3 ↔
      ¬ (byteAt (c.idAfter bs) 0 = 82 ∧ byteAt (c.idAfter bs) 1 = 115 ∧
         byteAt (c.idAfter bs) 2 = 114 ∧ byteAt (c.idAfter bs) 3 = 118)) ∧
    ((byteAt (c.idAfter bs) 0 = 82 ∧ byteAt (c.idAfter bs) 1 = 115 ∧
         byteAt (c.idAfter bs) 2 = 114 ∧ byteAt (c.idAfter bs) 3 = 118) →
      ((c.pollConnection sock).1 = -4 ↔
        (¬ (byteAt (c.idAfter bs) 8 = 81 ∧ byteAt (c.idAfter bs) 9 = 65 ∧
            byteAt (c.idAfter bs) 10 = 80 ∧ byteAt (c.idAfter bs) 11 = 49) ∨
         (byteAt (c.idAfter bs) 4 > 48 ∨ (byteAt (c.idAfter bs) 4 = 48 ∧
           (byteAt (c.idAfter bs) 5 > 49 ∨ (byteAt (c.idAfter bs) 5 = 49 ∧
             (byteAt (c.idAfter bs) 6 > 48 ∨ (byteAt (c.idAfter bs) 6 = 48 ∧
               byteAt (c.idAfter bs) 7 > 51))))))))) ∧
    ((c.pollConnection sock).1 ≠ -3 → (c.pollConnection sock).1 ≠ -4 →
      (c.pollConnection sock).1 = 0 ∧ (c.pollConnection sock).2.1._connected = true) ∧
    ((c.pollConnection sock).1 = -3 ∨ (c.pollConnection sock).1 = -4 →
      (c.pollConnection sock).2.1._connected = c._connected) := by
  rw [pollConnection_full c sock s1 bs hrecv hfull]
  have hM := strncmp_magic (c.idAfter bs)
  have hT := strncmp_transport (c.idAfter bs)
  have hV := strncmp_version (c.idAfter bs)
  have n43 : ¬ ((-4 : Int) = -3) := by decide
  have n03 : ¬ ((0 : Int) = -3) := by decide
  have n04 : ¬ ((0 : Int) = -4) := by decide
  by_cases hm : strncmp (c.idAfter bs) myID 4 = 0
  · by_cases hr : strncmp ((c.idAfter bs).drop 8) (myID.drop 8) 4 ≠ 0
          ∨ strncmp ((c.idAfter bs).drop 4) (myID.drop 4) 4 > 0
    · rw [if_neg (not_not.2 hm), if_pos hr]
      have hr' := hr
      rw [ne_eq, hT, hV] at hr'
      refine ⟨⟨fun h => absurd h n43, fun h => absurd (hM.1 hm) h⟩,
        fun _ => ⟨fun _ => hr', fun _ => rfl⟩, fun _ h => absurd rfl h, fun _ => rfl⟩
    · rw [if_neg (not_not.2 hm), if_neg hr]
      have hr' := hr
      rw [ne_eq, hT, hV] at hr'
      refine ⟨⟨fun h => absurd h n03, fun h => absurd (hM.1 hm) h⟩,
        fun _ => ⟨fun h => absurd h n04, fun h => absurd h hr'⟩,
        fun _ _ => ⟨rfl, rfl⟩, ?_⟩
      rintro (h | h)
      · exact absurd h n03
      · exact absurd h n04
  · rw [if_pos hm]
    have hm' : ¬ _ := fun h => hm (hM.2 h)
    refine ⟨⟨fun _ => hm', fun _ => rfl⟩, fun h => absurd h hm', fun h => absurd rfl h,
      fun _ => rfl⟩

/-- Witness of C5: the greeting `Rsrv0103QAP1` followed by twenty `-`, received
in one piece by a fresh connection. -/
theorem C5_handshake_validation_witness :
    (((Rconnection.new [] 6311).pollConnection
        ⟨[.bytes (myID ++ List.replicate 20 45)], false⟩).1 = -3 ↔
      ¬ (byteAt ((Rconnection.new [] 6311).idAfter (myID ++ List.replicate 20 45)) 0 = 82 ∧
         byteAt ((Rconnection.new [] 6311).idAfter (myID ++ List.replicate 20 45)) 1 = 115 ∧
         byteAt ((Rconnection.new [] 6311).idAfter (myID ++ List.replicate 20 45)) 2 = 114 ∧
         byteAt ((Rconnection.new [] 6311).idAfter (myID ++ List.replicate 20 45)) 3 = 118)) ∧
    ((Rconnection.new [] 6311).pollConnection
        ⟨[.bytes (myID ++ List.replicate 20 45)], false⟩).1 = 0 ∧
    ((Rconnection.new [] 6311).pollConnection
        ⟨[.bytes (myID ++ List.replicate 20 45)], false⟩).2.1._connected = true :=
  ⟨(C5_handshake_validation (Rconnection.new [] 6311)
      ⟨[.bytes (myID ++ List.replicate 20 45)], false⟩ ⟨[], false⟩
      (myID ++ List.replicate 20 45) (by decide) (by decide)).1,
   by decide, by decide⟩


theorem strncmp_ARuc (id : List Nat) (i : Nat) :
    strncmp (id.drop i) tokARuc 4 = 0 ↔ tokenAt id i 65 82 117 99 := by
  have h := strncmp_four (id.drop i) [] 65 82 117 99
    (by decide) (by decide) (by decide) (by decide)
  have e : tokARuc = 65 :: 82 :: 117 :: 99 :: [] := rfl
  have d0 : byteAt (id.drop i) 0 = byteAt id i := byteAt_drop id i 0
  have d1 : byteAt (id.drop i) 1 = byteAt id (i + 1) := byteAt_drop id i 1
  have d2 : byteAt (id.drop i) 2 = byteAt id (i + 2) := byteAt_drop id i 2
  have d3 : byteAt (id.drop i) 3 = byteAt id (i + 3) := byteAt_drop id i 3
  rw [e, h]
  simp only [d0, d1, d2, d3, tokenAt]
  split_ifs <;> omega

theorem strncmp_ARpt (id : List Nat) (i : Nat) :
    strncmp (id.drop i) tokARpt 4 = 0 ↔ tokenAt id i 65 82 112 116 := by
  have h := strncmp_four (id.drop i) [] 65 82 112 116
    (by decide) (by decide) (by decide) (by decide)
  have e : tokARpt = 65 :: 82 :: 112 :: 116 :: [] := rfl
  have d0 : byteAt (id.drop i) 0 = byteAt id i := byteAt_drop id i 0
  have d1 : byteAt (id.drop i) 1 = byteAt id (i + 1) := byteAt_drop id i 1
  have d2 : byteAt (id.drop i) 2 = byteAt id (i + 2) := byteAt_drop id i 2
  have d3 : byteAt (id.drop i) 3 = byteAt id (i + 3) := byteAt_drop id i 3
  rw [e, h]
  simp only [d0, d1, d2, d3, tokenAt]
  split_ifs <;> omega

theorem scanToken_IDstring (c : Rconnection) (i : Nat) :
    (c.scanToken i).IDstring = c.IDstring := by
  by_cases u : strncmp (c.IDstring.drop i) tokARuc 4 = 0 <;>
  by_cases p : strncmp (c.IDstring.drop i) tokARpt 4 = 0 <;>
  by_cases k : byteAt c.IDstring i = 75 <;>
  simp [Rconnection.scanToken, u, p, k]

theorem scanToken_salt (c : Rconnection) (i : Nat) :
    (c.scanToken i).salt =
      if byteAt c.IDstring i = 75 then [byteAt c.IDstring (i + 1), byteAt c.IDstring (i + 2)]
      else c.salt := by
  by_cases u : strncmp (c.IDstring.drop i) tokARuc 4 = 0 <;>
  by_cases p : strncmp (c.IDstring.drop i) tokARpt 4 = 0 <;>
  by_cases k : byteAt c.IDstring i = 75 <;>
  simp [Rconnection.scanToken, u, p, k]

theorem scanToken_auth (c : Rconnection) (i : Nat) (h : authOK c.auth) :
    authOK (c.scanToken i).auth ∧
    ((c.scanToken i).auth &&& A_crypt ≠ 0 ↔
      (c.auth &&& A_crypt ≠ 0 ∨ tokenAt c.IDstring i 65 82 117 99)) ∧
    ((c.scanToken i).auth &&& A_plain ≠ 0 ↔
      (c.auth &&& A_plain ≠ 0 ∨ tokenAt c.IDstring i 65 82 112 116)) := by
  have hu := strncmp_ARuc c.IDstring i
  have hp := strncmp_ARpt c.IDstring i
  unfold authOK at *
  by_cases u : tokenAt c.IDstring i 65 82 117 99 <;>
  by_cases p : tokenAt c.IDstring i 65 82 112 116 <;>
  by_cases k : byteAt c.IDstring i = 75 <;>
  rcases h with h | h | h | h <;>
  simp [Rconnection.scanToken, hu, hp, u, p, k, h, A_required, A_crypt, A_plain] <;> decide

theorem authOK_required (a : Nat) (h : authOK a) :
    a &&& A_required ≠ 0 ↔ (a &&& A_crypt ≠ 0 ∨ a &&& A_plain ≠ 0) := by
  rcases h with h | h | h | h <;> subst h <;> decide

theorem scanTokens_spec : ∀ (k i : Nat) (c : Rconnection), authOK c.auth →
    (Rconnection.scanTokens k i c).IDstring = c.IDstring ∧
    authOK (Rconnection.scanTokens k i c).auth ∧
    ((Rconnection.scanTokens k i c).auth &&& A_crypt ≠ 0 ↔
      (c.auth &&& A_crypt ≠ 0 ∨
        ∃ j, j < k ∧ i + 4 * j < 32 ∧ tokenAt c.IDstring (i + 4 * j) 65 82 117 99)) ∧
    ((Rconnection.scanTokens k i c).auth &&& A_plain ≠ 0 ↔
      (c.auth &&& A_plain ≠ 0 ∨
        ∃ j, j < k ∧ i + 4 * j < 32 ∧ tokenAt c.IDstring (i + 4 * j) 65 82 112 116)) ∧
    (((∀ j, j < k → i + 4 * j < 32 → byteAt c.IDstring (i + 4 * j) ≠ 75) ∧
        (Rconnection.scanTokens k i c).salt = c.salt) ∨
      ∃ j, j < k ∧ i + 4 * j < 32 ∧ byteAt c.IDstring (i + 4 * j) = 75 ∧
        (Rconnection.scanTokens k i c).salt =
          [byteAt c.IDstring (i + 4 * j + 1), byteAt c.IDstring (i + 4 * j + 2)]) := by
  intro k
  induction k with
  | zero =>
    intro i c h
    simp [Rconnection.scanTokens, h]
  | succ n ih =>
    intro i c h
    unfold Rconnection.scanTokens
    by_cases hi : i < 32
    · simp only [hi, if_true]
      obtain ⟨a1, a2, a3⟩ := scanToken_auth c i h
      obtain ⟨b1, b2, b3, b4, b5⟩ := ih (i + 4) (c.scanToken i) a1
      have hid := scanToken_IDstring c i
      rw [hid] at b1 b3 b4 b5
      have re : ∀ j, i + 4 + 4 * j = i + 4 * (j + 1) := fun j => by ring
      refine ⟨b1, b2, ?_, ?_, ?_⟩
      · rw [b3, a2]
        constructor
        · rintro ((h1 | h1) | ⟨j, hj, hlt, ht⟩)
          · exact Or.inl h1
          · exact Or.inr ⟨0, by omega, by simpa using hi, by simpa using h1⟩
          · exact Or.inr ⟨j + 1, by omega, by rw [← re]; exact hlt, by rw [← re]; exact ht⟩
        · rintro (h1 | ⟨j, hj, hlt, ht⟩)
          · exact Or.inl (Or.inl h1)
          · cases j with
            | zero => exact Or.inl (Or.inr (by simpa using ht))
            | succ m =>
              exact Or.inr ⟨m, by omega, by rw [re]; exact hlt, by rw [re]; exact ht⟩
      · rw [b4, a3]
        constructor
        · rintro ((h1 | h1) | ⟨j, hj, hlt, ht⟩)
          · exact Or.inl h1
          · exact Or.inr ⟨0, by omega, by simpa using hi, by simpa using h1⟩
          · exact Or.inr ⟨j + 1, by omega, by rw [← re]; exact hlt, by rw [← re]; exact ht⟩
        · rintro (h1 | ⟨j, hj, hlt, ht⟩)
          · exact Or.inl (Or.inl h1)
          · cases j with
            | zero => exact Or.inl (Or.inr (by simpa using ht))
            | succ m =>
              exact Or.inr ⟨m, by omega, by rw [re]; exact hlt, by rw [re]; exact ht⟩
      · rcases b5 with ⟨hno, hs⟩ | ⟨j, hj, hlt, hk, hs⟩
        · rw [scanToken_salt] at hs
          by_cases hk0 : byteAt c.IDstring i = 75
          · right
            refine ⟨0, by omega, by simpa using hi, by simpa using hk0, ?_⟩
            simpa [hk0] using hs
          · left
            refine ⟨?_, by simpa [hk0] using hs⟩
            intro j hj hlt
            cases j with
            | zero => simpa using hk0
            | succ m => rw [← re]; exact hno m (by omega) (by rw [re]; exact hlt)
        · right
          refine ⟨j + 1, by omega, by rw [← re]; exact hlt, by rw [← re]; exact hk, ?_⟩
          rw [← re]; exact hs
    · simp only [hi, if_false]
      refine ⟨trivial, h, ?_, ?_, ?_⟩
      · constructor
        · exact fun h1 => Or.inl h1
        · rintro (h1 | ⟨j, _, hlt, _⟩)
          · exact h1
          · omega
      · constructor
        · exact fun h1 => Or.inl h1
        · rintro (h1 | ⟨j, _, hlt, _⟩)
          · exact h1
          · omega
      · left
        exact ⟨fun j _ hlt => by omega, trivial⟩


theorem token_offsets_iff (P : Nat → Prop) :
    (∃ j, j < 5 ∧ 12 + 4 * j < 32 ∧ P (12 + 4 * j)) ↔ ∃ i ∈ [12, 16, 20, 24, 28], P i := by
  constructor
  · rintro ⟨j, hj, _, hp⟩
    interval_cases j
    · exact ⟨12, by simp, hp⟩
    · exact ⟨16, by simp, hp⟩
    · exact ⟨20, by simp, hp⟩
    · exact ⟨24, by simp, hp⟩
    · exact ⟨28, by simp, hp⟩
  · rintro ⟨i, hi, hp⟩
    simp only [List.mem_cons, List.mem_singleton, List.not_mem_nil, or_false] at hi
    rcases hi with rfl | rfl | rfl | rfl | rfl
    · exact ⟨0, by omega, by omega, hp⟩
    · exact ⟨1, by omega, by omega, hp⟩
    · exact ⟨2, by omega, by omega, hp⟩
    · exact ⟨3, by omega, by omega, hp⟩
    · exact ⟨4, by omega, by omega, hp⟩

theorem pollConnection_accepted (c : Rconnection) (sock s1 : Socket) (bs : List Nat)
    (hrecv : recv sock (32 - c.receivedCharsFromIDstring) = (.ok bs, s1))
    (hfull : bs.length + c.receivedCharsFromIDstring = 32)
    (hacc : (c.pollConnection sock).1 = 0) :
    c.pollConnection sock =
      (0, { Rconnection.scanTokens 5 12 { c with IDstring := c.idAfter bs } with
              _connected := true }, s1) := by
  have h := pollConnection_full c sock s1 bs hrecv hfull
  rw [h] at hacc ⊢
  have n3 : ¬ ((-3 : Int) = 0) := by decide
  have n4 : ¬ ((-4 : Int) = 0) := by decide
  split_ifs at hacc ⊢ with h1 h2
  · exact absurd hacc n3
  · exact absurd hacc n4
  · rfl

/-- Claim C6. For an accepted 32-byte identification string on a connection
whose `auth` starts clear, after `pollConnection`: the crypt flag is set exactly
when one of the tokens at offsets 12, 16, 20, 24, 28 is `ARuc`; the plain flag
exactly when one of them is `ARpt`; the required flag exactly when the crypt or
the plain flag is set; the salt is the two bytes following the `K` of a token
that begins with `K`, and is unchanged when no token begins with `K`; and
`_connected` is set. -/
theorem C6_capability_tokens (c : Rconnection) (sock s1 : Socket) (bs : List Nat)
    (hrecv : recv sock (32 - c.receivedCharsFromIDstring) = (.ok bs, s1))
    (hfull : bs.length + c.receivedCharsFromIDstring = 32)
    (hacc : (c.pollConnection sock).1 = 0)
    (hauth : c.auth = 0) :
    (c.pollConnection sock).2.1._connected = true ∧
    ((c.pollConnection sock).2.1.auth &&& A_crypt ≠ 0 ↔
      ∃ i ∈ [12, 16, 20, 24, 28], tokenAt (c.idAfter bs) i 65 82 117 99) ∧
    ((c.pollConnection sock).2.1.auth &&& A_plain ≠ 0 ↔
      ∃ i ∈ [12, 16, 20, 24, 28], tokenAt (c.idAfter bs) i 65 82 112 116) ∧
    ((c.pollConnection sock).2.1.auth &&& A_required ≠ 0 ↔
      ((c.pollConnection sock).2.1.auth &&& A_crypt ≠ 0 ∨
       (c.pollConnection sock).2.1.auth &&& A_plain ≠ 0)) ∧
    ((∀ i ∈ [12, 16, 20, 24, 28], byteAt (c.idAfter bs) i ≠ 75) →
      (c.pollConnection sock).2.1.salt = c.salt) ∧
    ((∃ i ∈ [12, 16, 20, 24, 28], byteAt (c.idAfter bs) i = 75) →
      ∃ i ∈ [12, 16, 20, 24, 28], byteAt (c.idAfter bs) i = 75 ∧
        (c.pollConnection sock).2.1.salt =
          [byteAt (c.idAfter bs) (i + 1), byteAt (c.idAfter bs) (i + 2)]) := by
  have heq := pollConnection_accepted c sock s1 bs hrecv hfull hacc
  obtain ⟨c1, hc1⟩ : ∃ c1 : Rconnection, c1 = { c with IDstring := c.idAfter bs } := ⟨_, rfl⟩
  rw [← hc1] at heq
  have ha1 : c1.auth = 0 := by rw [hc1]; exact hauth
  have hi1 : c1.IDstring = c.idAfter bs := by rw [hc1]
  have hs1 : c1.salt = c.salt := by rw [hc1]
  have hC : (c.pollConnection sock).2.1._connected = true := by rw [heq]
  have hA : (c.pollConnection sock).2.1.auth = (Rconnection.scanTokens 5 12 c1).auth := by
    rw [heq]
  have hS : (c.pollConnection sock).2.1.salt = (Rconnection.scanTokens 5 12 c1).salt := by
    rw [heq]
  rw [hA, hS]
  have h0 : authOK c1.auth := Or.inl ha1
  obtain ⟨_, b2, b3, b4, b5⟩ := scanTokens_spec 5 12 c1 h0
  rw [ha1, hi1] at b3 b4
  rw [hi1, hs1] at b5
  have z2 : ¬ (0 &&& A_crypt ≠ 0) := by decide
  have z4 : ¬ (0 &&& A_plain ≠ 0) := by decide
  refine ⟨hC, ?_, ?_, authOK_required _ b2, ?_, ?_⟩
  · rw [b3, ← token_offsets_iff]
    exact ⟨fun h => h.resolve_left z2, Or.inr⟩
  · rw [b4, ← token_offsets_iff]
    exact ⟨fun h => h.resolve_left z4, Or.inr⟩
  · intro hno
    rcases b5 with ⟨_, hs⟩ | ⟨j, hj, hlt, hk, _⟩
    · exact hs
    · exact absurd hk
        (hno _ (by
          have := (token_offsets_iff (fun i => i = 12 + 4 * j)).1 ⟨j, hj, hlt, rfl⟩
          obtain ⟨i, hi, he⟩ := this
          rw [← he]; exact hi))
  · intro hex
    rcases b5 with ⟨hno, _⟩ | ⟨j, hj, hlt, hk, hs⟩
    · obtain ⟨i, hi, hk⟩ := hex
      obtain ⟨j, hj, hlt, hp⟩ := (token_offsets_iff (fun i => byteAt (c.idAfter bs) i = 75)).2
        ⟨i, hi, hk⟩
      exact absurd hp (hno j hj hlt)
    · exact (token_offsets_iff (fun i => byteAt (c.idAfter bs) i = 75 ∧
        (Rconnection.scanTokens 5 12 c1).salt =
          [byteAt (c.idAfter bs) (i + 1), byteAt (c.idAfter bs) (i + 2)])).1
        ⟨j, hj, hlt, hk, hs⟩

/-- Witness of C6: the greeting `Rsrv0103QAP1ARpt` followed by sixteen `-`,
received in one piece by a fresh connection, gives a connected client with the
required and plain flags and without the crypt flag. -/
theorem C6_capability_tokens_witness :
    ((Rconnection.new [] 6311).pollConnection
        ⟨[.bytes (myID ++ tokARpt ++ List.replicate 16 45)], false⟩).1 = 0 ∧
    ((Rconnection.new [] 6311).pollConnection
        ⟨[.bytes (myID ++ tokARpt ++ List.replicate 16 45)], false⟩).2.1._connected = true ∧
    ((Rconnection.new [] 6311).pollConnection
        ⟨[.bytes (myID ++ tokARpt ++ List.replicate 16 45)], false⟩).2.1.auth
          &&& A_plain ≠ 0 ∧
    ((Rconnection.new [] 6311).pollConnection
        ⟨[.bytes (myID ++ tokARpt ++ List.replicate 16 45)], false⟩).2.1.auth
          &&& A_required ≠ 0 ∧
    ¬ (((Rconnection.new [] 6311).pollConnection
        ⟨[.bytes (myID ++ tokARpt ++ List.replicate 16 45)], false⟩).2.1.auth
          &&& A_crypt ≠ 0) ∧
    ((Rconnection.new [] 6311).pollConnection
        ⟨[.bytes (myID ++ tokARpt ++ List.replicate 16 45)], false⟩).2.1.salt = [46, 46] := by
  have h := C6_capability_tokens (Rconnection.new [] 6311)
    ⟨[.bytes (myID ++ tokARpt ++ List.replicate 16 45)], false⟩ ⟨[], false⟩
    (myID ++ tokARpt ++ List.replicate 16 45) (by decide) (by decide) (by decide) (by decide)
  obtain ⟨h1, h2, h3, h4, h5, _⟩ := h
  have hp := h3.2 (by decide)
  exact ⟨by decide, h1, hp, h4.2 (Or.inr hp), fun hc => absurd (h2.1 hc) (by decide),
    h5 (by decide)⟩

/-- The greeting `Rsrv0103QAP1ARucK3x` followed by padding, received in two
pieces: connected, required and crypt flags, no plain flag, salt `3x`. -/
theorem pollConnection_crypt_example :
    ((Rconnection.new [] 6311).pollConnection ⟨[.bytes (myID ++ tokARuc)], false⟩).1 = 0 ∧
    (((Rconnection.new [] 6311).pollConnection
        ⟨[.bytes (myID ++ tokARuc)], false⟩).2.1.pollConnection
        ⟨[.bytes ([75, 51, 120, 45] ++ List.replicate 12 45)], false⟩) =
      (0, { Rconnection.new [] 6311 with
              _connected := true, auth := 3, salt := [51, 120],
              IDstring := myID ++ tokARuc ++ [75, 51, 120, 45] ++ List.replicate 12 45 ++ [0],
              receivedCharsFromIDstring := 16 }, ⟨[], false⟩) := by
  constructor <;> decide


theorem writeAt_nil (buf : List Nat) (off : Nat) : writeAt buf off [] = buf := by
  simp [writeAt]

/-- Claim C7, the code at the failing input: with fewer than 32 identification
bytes received, a `recv` that returns zero bytes (the peer closed) makes
`pollConnection` return 0 and leave the connection as it was, exactly as a
would-block result does; -1 is returned only for a `recv` error other than
`EAGAIN`. -/
theorem C7_zero_read_returns_zero (c : Rconnection) (rest : List SockEvent)
    (h : c.receivedCharsFromIDstring < 32) :
    c.pollConnection ⟨.eof :: rest, false⟩ = (0, c, ⟨.eof :: rest, false⟩) ∧
    c.pollConnection ⟨.wouldBlock :: rest, false⟩ = (0, c, ⟨rest, false⟩) ∧
    c.pollConnection ⟨.error :: rest, false⟩ = (-1, c, ⟨rest, false⟩) := by
  refine ⟨?_, ?_, ?_⟩
  · have hne : ¬ (c.receivedCharsFromIDstring = 32) := by omega
    simp [Rconnection.pollConnection, recv, writeAt_nil, hne]
  · simp [Rconnection.pollConnection, recv]
  · simp [Rconnection.pollConnection, recv]

/-- Witness of C7: a fresh connection, nothing received yet, the peer closes. -/
theorem C7_zero_read_returns_zero_witness :
    (Rconnection.new [] 6311).pollConnection ⟨[.eof], false⟩
      = (0, Rconnection.new [] 6311, ⟨[.eof], false⟩) ∧
    ((Rconnection.new [] 6311).pollConnection ⟨[.eof], false⟩).1 ≠ -1 :=
  ⟨(C7_zero_read_returns_zero (Rconnection.new [] 6311) [] (by decide)).1, by decide⟩


/-- Claim C8. In stage 0 of `Rmessage::read` (await the header): a `recv` that
returns zero bytes makes `read` return -7; one that returns `n` bytes with
`0 < n < 16` makes it return -8; in both cases the socket is closed. A `recv` that
would block makes `read` return 0 with the message, its stage included,
unchanged. -/
theorem C8_await_header (mallocFails : Bool) (fuel : Nat) (m : Rmessage) (s s1 : Socket)
    (h0 : m.receiving = 0) :
    (∀ bs, recv s 16 = (.ok bs, s1) → bs.length = 0 →
      ∃ m1, Rmessage.read mallocFails fuel m s = some (-7, m1, closesocket s1)) ∧
    (∀ bs, recv s 16 = (.ok bs, s1) → 0 < bs.length → bs.length < 16 →
      ∃ m1, Rmessage.read mallocFails fuel m s = some (-8, m1, closesocket s1)) ∧
    (recv s 16 = (.eagain, s1) → Rmessage.read mallocFails fuel m s = some (0, m, s1)) := by
  refine ⟨?_, ?_, ?_⟩
  · intro bs hr hz
    refine ⟨{ m with head := phdr.ofBytes (bs ++ m.head.bytes.drop bs.length) }, ?_⟩
    simp only [Rmessage.read, h0, hr, if_true]
    simp [hz]
  · intro bs hr hp hlt
    have hne : ¬ (bs.length = 16) := by omega
    have hnz : ¬ (bs.length = 0) := by omega
    refine ⟨{ m with head := phdr.ofBytes (bs ++ m.head.bytes.drop bs.length) }, ?_⟩
    simp only [Rmessage.read, h0, hr, if_true]
    simp [hne, hnz]
  · intro hr
    simp only [Rmessage.read, h0, hr, if_true]

/-- Witness of C8: an empty response message and a socket on which seven bytes
have arrived. -/
theorem C8_await_header_witness :
    (∃ m1, Rmessage.read false 0 Rmessage.empty ⟨[.bytes [1, 0, 1, 0, 0, 0, 0]], false⟩
        = some (-8, m1, closesocket ⟨[], false⟩)) ∧
    Rmessage.read false 0 Rmessage.empty ⟨[.eof], false⟩
        = some (-7, Rmessage.empty, ⟨[.eof], true⟩) ∧
    Rmessage.read false 0 Rmessage.empty ⟨[.wouldBlock], false⟩
        = some (0, Rmessage.empty, ⟨[], false⟩) :=
  ⟨(C8_await_header false 0 Rmessage.empty ⟨[.bytes [1, 0, 1, 0, 0, 0, 0]], false⟩ ⟨[], false⟩
      rfl).2.1 [1, 0, 1, 0, 0, 0, 0] (by decide) (by decide) (by decide),
   by decide, by decide⟩


theorem readUntilComplete_succ (mallocFails : Bool) (fuel calls : Nat) (m : Rmessage)
    (s : Socket) :
    Rmessage.readUntilComplete mallocFails fuel (calls + 1) m s
      = Rmessage.resume mallocFails fuel calls (Rmessage.read mallocFails fuel m s) := by
  unfold Rmessage.readUntilComplete Rmessage.resume
  cases Rmessage.read mallocFails fuel m s with
  | none => rfl
  | some r => rfl

theorem read_stage3 (mallocFails : Bool) (fuel : Nat) (m : Rmessage) (s : Socket)
    (h3 : m.receiving = 3) (hpos : 0 < m.head.len) :
    Rmessage.read mallocFails fuel m s =
      Rmessage.afterRecvLoop
        (Rmessage.recvLoop (m.head.len - m.bytesReceived).toNat none m s) := by
  simp [Rmessage.read, Rmessage.read1, Rmessage.read2, Rmessage.read3, h3, hpos]

theorem recvLoop_done (k : Nat) (n : Option RecvResult) (m : Rmessage) (s : Socket)
    (h : ¬ ((m.bytesReceived : Int) < m.head.len)) :
    Rmessage.recvLoop k n m s = (n, m, s) := by
  cases k with
  | zero => rfl
  | succ k => simp [Rmessage.recvLoop, h]

theorem completed_update (m : Rmessage) (d p : List Nat) (b : Nat) :
    Rmessage.completed { m with data := d, bytesReceived := b } p = Rmessage.completed m p := rfl

theorem resume_done (mallocFails : Bool) (fuel calls k : Nat) (n : Option RecvResult)
    (m : Rmessage) (s : Socket)
    (hn : n = none ∨ ∃ bs, n = some (.ok bs))
    (h : (m.bytesReceived : Int) = m.head.len) :
    Rmessage.resume mallocFails fuel calls
        (Rmessage.afterRecvLoop (Rmessage.recvLoop k n m s))
      = some (0, { ({ m with receiving := 4 } : Rmessage).parse with complete := 1 }, s) := by
  rw [recvLoop_done k n m s (by omega)]
  rcases hn with hn | ⟨bs, hn⟩ <;> subst hn <;>
    simp [Rmessage.afterRecvLoop, Rmessage.read4, Rmessage.resume, h]

theorem completed_eq (m : Rmessage) (p : List Nat)
    (hd : m.data = p) (hb : m.bytesReceived = p.length) :
    ({ ({ m with receiving := 4 } : Rmessage).parse with complete := 1 } : Rmessage)
      = Rmessage.completed m p := by
  cases m
  simp only at hd hb
  subst hd hb
  rfl

theorem writeAt_append (pre junk bs : List Nat) :
    writeAt (pre ++ junk) pre.length bs = (pre ++ bs) ++ junk.drop bs.length := by
  simp [writeAt, List.take_append_eq_append_take, List.drop_append_eq_append_drop]

/-- The payload stage on a division of the outstanding bytes into chunks and
would-blocks: from any point inside the loop, the poll loop ends in the completed
message. -/
theorem recv_payload_resume (mallocFails : Bool) (fuel : Nat) (L : Nat) :
    ∀ (es : List SockEvent) (m : Rmessage) (pre junk : List Nat) (k : Nat)
      (n : Option RecvResult) (calls : Nat),
      m.receiving = 3 → m.head.len = (L : Int) → m.complete ≠ 1 →
      m.bytesReceived = pre.length → m.data = pre ++ junk →
      chunked es = true → pre.length + (bytesOf es).length = L →
      junk.length = (bytesOf es).length → L - pre.length ≤ k → wouldBlocks es ≤ calls →
      (n = none ∨ ∃ bs, n = some (.ok bs)) →
      ∃ rest, Rmessage.resume mallocFails fuel calls
          (Rmessage.afterRecvLoop (Rmessage.recvLoop k n m ⟨es, false⟩))
        = some (0, Rmessage.completed m (pre ++ bytesOf es), ⟨rest, false⟩) := by
  intro es
  induction es with
  | nil =>
    intro m pre junk k n calls h3 hL hc hb hd _ hlen hj hk _ hn
    simp only [bytesOf, List.length_nil, Nat.add_zero] at hlen hj
    have hj0 : junk = [] := List.length_eq_zero.1 hj
    refine ⟨[], ?_⟩
    rw [resume_done mallocFails fuel calls k n m _ hn (by rw [hL, hb, hlen])]
    rw [completed_eq m (pre ++ bytesOf []) (by simp [hd, hj0, bytesOf]) (by simp [hb, bytesOf])]
  | cons e es ih =>
    intro m pre junk k n calls h3 hL hc hb hd hch hlen hj hk hwb hn
    cases e with
    | error => simp [chunked] at hch
    | eof => simp [chunked] at hch
    | wouldBlock =>
      simp only [bytesOf, chunked, wouldBlocks] at hlen hj hch hwb ⊢
      by_cases hfull : pre.length = L
      · have hz : (bytesOf es).length = 0 := by omega
        have hj0 : junk = [] := List.length_eq_zero.1 (by omega)
        have hb0 : bytesOf es = [] := List.length_eq_zero.1 hz
        refine ⟨SockEvent.wouldBlock :: es, ?_⟩
        rw [resume_done mallocFails fuel calls k n m _ hn (by rw [hL, hb, hfull])]
        rw [completed_eq m (pre ++ bytesOf es) (by simp [hd, hj0, hb0]) (by simp [hb, hb0])]
      · have hlt : pre.length < L := by omega
        obtain ⟨k', rfl⟩ : ∃ k', k = k' + 1 := ⟨k - 1, by omega⟩
        obtain ⟨c, rfl⟩ : ∃ c, calls = c + 1 := ⟨calls - 1, by omega⟩
        have hcond : (m.bytesReceived : Int) < m.head.len := by rw [hL, hb]; exact_mod_cast hlt
        have hstep : Rmessage.recvLoop (k' + 1) n m ⟨SockEvent.wouldBlock :: es, false⟩
            = (some .eagain, m, ⟨es, false⟩) := by
          simp [Rmessage.recvLoop, hcond, recv]
        rw [hstep]
        have hres : Rmessage.resume mallocFails fuel (c + 1)
            (Rmessage.afterRecvLoop (some RecvResult.eagain, m, ⟨es, false⟩))
            = Rmessage.readUntilComplete mallocFails fuel (c + 1) m ⟨es, false⟩ := by
          simp [Rmessage.afterRecvLoop, Rmessage.resume, hc]
        rw [hres, readUntilComplete_succ, read_stage3 mallocFails fuel m _ h3 (by rw [hL]; exact_mod_cast (by omega : 0 < L))]
        exact ih m pre junk _ none c h3 hL hc hb hd hch hlen hj
          (by rw [hL, hb]; omega) (by omega) (Or.inl rfl)
    | bytes bs =>
      simp only [bytesOf, chunked, wouldBlocks, Bool.and_eq_true, decide_eq_true_eq,
        List.length_append] at hlen hj hch hwb ⊢
      obtain ⟨hbs, hch'⟩ := hch
      have hlt : pre.length < L := by omega
      obtain ⟨k', rfl⟩ : ∃ k', k = k' + 1 := ⟨k - 1, by omega⟩
      have hcond : (m.bytesReceived : Int) < m.head.len := by rw [hL, hb]; exact_mod_cast hlt
      have hreq : (m.head.len - (m.bytesReceived : Int)).toNat = L - pre.length := by
        rw [hL, hb]; omega
      have hstep : Rmessage.recvLoop (k' + 1) n m ⟨SockEvent.bytes bs :: es, false⟩
          = Rmessage.recvLoop k' (some (.ok bs))
              { m with data := writeAt m.data m.bytesReceived bs,
                       bytesReceived := m.bytesReceived + bs.length } ⟨es, false⟩ := by
        have hle : bs.length ≤ L - pre.length := by omega
        simp [Rmessage.recvLoop, hcond, recv, hreq, hle, hbs]
      rw [hstep]
      have hw : writeAt m.data m.bytesReceived bs = (pre ++ bs) ++ junk.drop bs.length := by
        rw [hd, hb]; exact writeAt_append pre junk bs
      obtain ⟨rest, hrest⟩ := ih
        { m with data := writeAt m.data m.bytesReceived bs,
                 bytesReceived := m.bytesReceived + bs.length }
        (pre ++ bs) (junk.drop bs.length) k' (some (.ok bs)) calls h3 hL hc
        (by simp [hb]) hw hch' (by simp; omega) (by simp; omega) (by simp; omega) hwb
        (Or.inr ⟨bs, rfl⟩)
      refine ⟨rest, ?_⟩
      rw [hrest, completed_update, List.append_assoc]

theorem completed_fields (m : Rmessage) (p : List Nat) :
    (m.completed p).data = p ∧ (m.completed p).bytesReceived = p.length ∧
    (m.completed p).complete = 1 ∧ (m.completed p).receiving = 4 ∧
    (m.completed p).head = m.head ∧ (m.completed p).len = m.len := by
  unfold Rmessage.completed Rmessage.parse
  split <;> simp

/-- Claim C10. In stage 3 (receive the payload) with declared length `L > 0`,
nothing received yet and a block of `L` bytes: for every division of the `L`
payload bytes into chunks of positive size with would-block results in between,
the poll loop around `Rmessage::read` (one more call than there are would-blocks
is enough) ends with status 0, `bytesReceived = L`, the block equal to the
payload in order, and the message complete. -/
theorem C10_receive_payload (mallocFails : Bool) (fuel calls : Nat) (m : Rmessage)
    (es : List SockEvent) (payload : List Nat)
    (h3 : m.receiving = 3) (hL : m.head.len = (payload.length : Int))
    (hpos : 0 < payload.length) (hb : m.bytesReceived = 0)
    (hd : m.data.length = payload.length) (hc : m.complete = 0)
    (hch : chunked es = true) (hes : bytesOf es = payload) (hcalls : wouldBlocks es < calls) :
    ∃ rest, Rmessage.readUntilComplete mallocFails fuel calls m ⟨es, false⟩
        = some (0, m.completed payload, ⟨rest, false⟩) ∧
      (m.completed payload).data = payload ∧
      (m.completed payload).bytesReceived = payload.length ∧
      (m.completed payload).complete = 1 ∧
      (m.completed payload).receiving = 4 := by
  obtain ⟨c, rfl⟩ : ∃ c, calls = c + 1 := ⟨calls - 1, by omega⟩
  have hf := completed_fields m payload
  rw [readUntilComplete_succ,
    read_stage3 mallocFails fuel m _ h3 (by rw [hL]; exact_mod_cast hpos)]
  obtain ⟨rest, hrest⟩ := recv_payload_resume mallocFails fuel payload.length es m [] m.data
    (m.head.len - (m.bytesReceived : Int)).toNat none c h3 hL (by omega) (by simp [hb])
    (by simp) hch (by simp [hes]) (by simp [hes, hd]) (by rw [hL, hb]; simp) (by omega)
    (Or.inl rfl)
  refine ⟨rest, ?_, hf.1, hf.2.1, hf.2.2.1, hf.2.2.2.1⟩
  rw [hrest, hes]
  simp

/-- Witness of C10: five payload bytes arriving as 2 + 1 + 2 with two
would-blocks after the first chunk. -/
theorem C10_receive_payload_witness :
    ∃ rest, Rmessage.readUntilComplete false 0 3
        { Rmessage.empty with head := ⟨1, 5, 0, 0⟩, len := 5, receiving := 3,
                              data := [0, 0, 0, 0, 0] }
        ⟨[.bytes [10, 20], .wouldBlock, .wouldBlock, .bytes [30], .bytes [40, 50]], false⟩
      = some (0, Rmessage.completed
          { Rmessage.empty with head := ⟨1, 5, 0, 0⟩, len := 5, receiving := 3,
                                data := [0, 0, 0, 0, 0] } [10, 20, 30, 40, 50],
          ⟨rest, false⟩) ∧
      (Rmessage.completed
          { Rmessage.empty with head := ⟨1, 5, 0, 0⟩, len := 5, receiving := 3,
                                data := [0, 0, 0, 0, 0] } [10, 20, 30, 40, 50]).data
        = [10, 20, 30, 40, 50] ∧
      (Rmessage.completed
          { Rmessage.empty with head := ⟨1, 5, 0, 0⟩, len := 5, receiving := 3,
                                data := [0, 0, 0, 0, 0] } [10, 20, 30, 40, 50]).bytesReceived
        = 5 ∧
      (Rmessage.completed
          { Rmessage.empty with head := ⟨1, 5, 0, 0⟩, len := 5, receiving := 3,
                                data := [0, 0, 0, 0, 0] } [10, 20, 30, 40, 50]).complete = 1 ∧
      (Rmessage.completed
          { Rmessage.empty with head := ⟨1, 5, 0, 0⟩, len := 5, receiving := 3,
                                data := [0, 0, 0, 0, 0] } [10, 20, 30, 40, 50]).receiving = 4 :=
  C10_receive_payload false 0 3
    { Rmessage.empty with head := ⟨1, 5, 0, 0⟩, len := 5, receiving := 3,
                          data := [0, 0, 0, 0, 0] }
    [.bytes [10, 20], .wouldBlock, .wouldBlock, .bytes [30], .bytes [40, 50]]
    [10, 20, 30, 40, 50] rfl rfl (by decide) rfl rfl rfl rfl rfl (by decide)


theorem toUInt32_toInt32 (w : Nat) : toUInt32 (toInt32 w) = w % 4294967296 := by
  unfold toUInt32 toInt32
  split <;> omega

theorem toInt32_mod (w : Nat) : toInt32 (w % 4294967296) = toInt32 w := by
  unfold toInt32
  simp

theorem toInt32_round (w : Nat) : toInt32 (ptoi (toUInt32 (toInt32 w))) = toInt32 w := by
  rw [ptoi, toUInt32_toInt32, toInt32_mod]

theorem loadWord_lt (mem : List Nat) (off : Nat) : loadWord mem off < 4294967296 := by
  have h0 := byteAt_lt mem off
  have h1 := byteAt_lt mem (off + 1)
  have h2 := byteAt_lt mem (off + 2)
  have h3 := byteAt_lt mem (off + 3)
  unfold loadWord
  omega

theorem byteAt_append_left (a b : List Nat) (i : Nat) (h : i < a.length) :
    byteAt (a ++ b) i = byteAt a i := by
  simp [byteAt, List.getD_eq_getElem?_getD, List.getElem?_append_left h]

theorem loadWord_append_left (a b : List Nat) (off : Nat) (h : off + 4 ≤ a.length) :
    loadWord (a ++ b) off = loadWord a off := by
  unfold loadWord
  rw [byteAt_append_left a b off (by omega), byteAt_append_left a b (off + 1) (by omega),
    byteAt_append_left a b (off + 2) (by omega), byteAt_append_left a b (off + 3) (by omega)]

theorem ofBytes_append (a b : List Nat) (h : a.length = 16) :
    phdr.ofBytes (a ++ b) = phdr.ofBytes a := by
  unfold phdr.ofBytes
  rw [loadWord_append_left a b 0 (by omega), loadWord_append_left a b 4 (by omega),
    loadWord_append_left a b 8 (by omega), loadWord_append_left a b 12 (by omega)]


theorem read_header_whole (mallocFails : Bool) (fuel : Nat) (m : Rmessage) (bs0 hb : List Nat)
    (es : List SockEvent) (h0 : m.receiving = 0) (h16 : 16 ≤ bs0.length)
    (htake : bs0.take 16 = hb) :
    Rmessage.read mallocFails fuel m ⟨.bytes bs0 :: es, false⟩ =
      Rmessage.read1 mallocFails fuel (m.afterHeader hb)
        ⟨if bs0.length ≤ 16 then es else .bytes (bs0.drop 16) :: es, false⟩ := by
  have hlen : hb.length = 16 := by rw [← htake]; simp; omega
  have hraw : ∀ x, phdr.ofBytes (hb ++ x) = phdr.ofBytes hb := fun x => ofBytes_append hb x hlen
  have hhead : (⟨toInt32 (toUInt32 (phdr.ofBytes hb).cmd),
      toInt32 (toUInt32 (phdr.ofBytes hb).len),
      toInt32 (toUInt32 (phdr.ofBytes hb).dof),
      toInt32 (toUInt32 (phdr.ofBytes hb).res)⟩ : phdr) = phdr.ofBytes hb := by
    have h := toInt32_round
    simp only [ptoi] at h
    simp only [phdr.ofBytes, h]
  by_cases hle : bs0.length ≤ 16
  · have hall : bs0 = hb := by rw [← htake, List.take_of_length_le hle]
    subst hall
    simp only [Rmessage.read, h0, recv, hle, if_true]
    simp [hlen, hraw, hhead, Rmessage.afterHeader, ptoi]
  · simp only [Rmessage.read, h0, recv, hle, if_true, if_false, htake]
    simp [hlen, hraw, hhead, Rmessage.afterHeader, ptoi]

theorem read2_payload (m : Rmessage) (s : Socket) (h2 : m.receiving = 2) :
    Rmessage.read2 false m s =
      if 0 < m.head.len then
        Rmessage.afterRecvLoop
          (Rmessage.recvLoop m.head.len.toNat none
            { m with data := List.replicate m.head.len.toNat 0, bytesReceived := 0,
                     receiving := 3 } s)
      else some (0, { ({ m with receiving := 4 } : Rmessage).parse with complete := 1 }, s) := by
  by_cases hpos : 0 < m.head.len
  · simp [Rmessage.read2, Rmessage.read3, h2, hpos]
  · simp [Rmessage.read2, Rmessage.read3, Rmessage.read4, h2, hpos]

theorem chunked_after_take (bs0 : List Nat) (es : List SockEvent) (k : Nat)
    (hch : chunked (.bytes bs0 :: es) = true) :
    chunked (if bs0.length ≤ k then es else .bytes (bs0.drop k) :: es) = true ∧
    bytesOf (if bs0.length ≤ k then es else .bytes (bs0.drop k) :: es)
      = bs0.drop k ++ bytesOf es ∧
    wouldBlocks (if bs0.length ≤ k then es else .bytes (bs0.drop k) :: es)
      = wouldBlocks es ∧
    (if bs0.length ≤ k then es else .bytes (bs0.drop k) :: es).length ≤ es.length + 1 ∧
    (bs0.length ≤ k →
      (if bs0.length ≤ k then es else .bytes (bs0.drop k) :: es).length = es.length) := by
  simp only [chunked, Bool.and_eq_true, decide_eq_true_eq] at hch
  by_cases hle : bs0.length ≤ k
  · have hd : bs0.drop k = [] := List.drop_eq_nil_of_le hle
    simp [hle, hch.2, hd]
  · simp [hle, hch.2, chunked, bytesOf, wouldBlocks]
    omega

theorem recv_bytes (bs : List Nat) (es : List SockEvent) (k : Nat) :
    recv ⟨.bytes bs :: es, false⟩ k =
      (.ok (bs.take k), ⟨if bs.length ≤ k then es else .bytes (bs.drop k) :: es, false⟩) := by
  by_cases hle : bs.length ≤ k
  · simp [recv, hle, List.take_of_length_le hle]
  · simp [recv, hle]

theorem withAux_read1 (fuel : Nat) (m : Rmessage) (hb : List Nat) (d : Nat) (s : Socket) :
    Rmessage.read false fuel (m.withAux hb d) s
      = Rmessage.skipLoop false (fuel + 1) (m.withAux hb d) s := by
  simp [Rmessage.read, Rmessage.read1, Rmessage.withAux, Rmessage.afterHeader]

/-- The auxiliary-data stage and the payload stage on a division of the
outstanding bytes into chunks and would-blocks: from any turn of the skip loop,
the poll loop ends in the message of a whole read. -/
theorem skip_resume (fuel : Nat) (m : Rmessage) (hb payload : List Nat)
    (hc : m.complete ≠ 1) (hL : (phdr.ofBytes hb).len = (payload.length : Int)) :
    ∀ (n d : Nat) (es : List SockEvent) (aux : List Nat) (calls f : Nat),
      d + es.length ≤ n → aux.length = d → chunked es = true →
      bytesOf es = aux ++ payload → d < f → d ≤ fuel → wouldBlocks es ≤ calls →
      ∃ rest, Rmessage.resume false fuel calls
          (Rmessage.skipLoop false f (m.withAux hb d) ⟨es, false⟩)
        = some (0, m.afterRead hb payload, ⟨rest, false⟩) := by
  intro n
  induction n with
  | zero =>
    intro d es aux calls f hn haux hch hby hf hfu hwb
    have hd : d = 0 := by omega
    have he : es = [] := List.length_eq_zero.1 (by omega)
    subst hd he
    obtain ⟨f', rfl⟩ : ∃ f', f = f' + 1 := ⟨f - 1, by omega⟩
    have haux0 : aux = [] := List.length_eq_zero.1 haux
    have hp0 : payload = [] := by simpa [bytesOf, haux0] using hby.symm
    subst hp0
    refine ⟨[], ?_⟩
    have hlen0 : ¬ (0 < (phdr.ofBytes hb).len) := by rw [hL]; simp
    simp [Rmessage.skipLoop, Rmessage.withAux, Rmessage.afterHeader, Rmessage.read2,
      Rmessage.read3, Rmessage.read4, hlen0, Rmessage.resume, Rmessage.afterRead]
  | succ n ih =>
    intro d es aux calls f hn haux hch hby hf hfu hwb
    obtain ⟨f', rfl⟩ : ∃ f', f = f' + 1 := ⟨f - 1, by omega⟩
    by_cases hd : d = 0
    · subst hd
      have haux0 : aux = [] := List.length_eq_zero.1 haux
      subst haux0
      simp only [List.nil_append] at hby
      have hstep : Rmessage.skipLoop false (f' + 1) (m.withAux hb 0) ⟨es, false⟩
          = Rmessage.read2 false { m.withAux hb 0 with receiving := 2 } ⟨es, false⟩ := by
        simp [Rmessage.skipLoop, Rmessage.withAux, Rmessage.afterHeader]
      rw [hstep, read2_payload _ _ rfl]
      have hlen1 : ({ m.withAux hb 0 with receiving := 2 } : Rmessage).head.len
          = (payload.length : Int) := hL
      by_cases hpos : 0 < payload.length
      · have hposi : 0 < ({ m.withAux hb 0 with receiving := 2 } : Rmessage).head.len := by
          rw [hlen1]; exact_mod_cast hpos
        rw [if_pos hposi, hlen1]
        obtain ⟨rest, hrest⟩ := recv_payload_resume false fuel payload.length es
          { m.withAux hb 0 with data := List.replicate (payload.length : Int).toNat 0,
                                bytesReceived := 0, receiving := 3 }
          [] (List.replicate (payload.length : Int).toNat 0) (payload.length : Int).toNat none
          calls rfl hL (by exact hc) rfl rfl hch (by simp [hby]) (by simp [hby]) (by simp)
          hwb (Or.inl rfl)
        refine ⟨rest, hrest.trans ?_⟩
        simp only [List.nil_append, hby, Rmessage.afterRead, if_pos hpos]
        rfl
      · have hz : ¬ (0 < ({ m.withAux hb 0 with receiving := 2 } : Rmessage).head.len) := by
          rw [hlen1]; exact_mod_cast hpos
        rw [if_neg hz]
        refine ⟨es, ?_⟩
        simp [Rmessage.resume, Rmessage.afterRead, hpos]
    · have hdpos : 0 < d := Nat.pos_of_ne_zero hd
      have hdof : (m.withAux hb d).head.dof = (d : Int) := rfl
      have hgt : (m.withAux hb d).head.dof > 0 := by rw [hdof]; exact_mod_cast hdpos
      have hreq : (if (m.withAux hb d).head.dof > 256 then 256
          else (m.withAux hb d).head.dof).toNat = min d 256 := by
        rw [hdof]; split <;> omega
      cases es with
      | nil =>
        simp only [bytesOf] at hby
        have : aux.length = 0 := by
          have h := congrArg List.length hby
          simp at h; omega
        omega
      | cons e es =>
        cases e with
        | error => simp [chunked] at hch
        | eof => simp [chunked] at hch
        | wouldBlock =>
          simp only [chunked, bytesOf, wouldBlocks, List.length_cons] at hch hby hwb hn
          obtain ⟨c, rfl⟩ : ∃ c, calls = c + 1 := ⟨calls - 1, by omega⟩
          have hstep : Rmessage.skipLoop false (f' + 1) (m.withAux hb d)
              ⟨SockEvent.wouldBlock :: es, false⟩ = some (0, m.withAux hb d, ⟨es, false⟩) := by
            simp [Rmessage.skipLoop, hgt, recv]
          have hc' : (m.withAux hb d).complete ≠ 1 := hc
          rw [hstep]
          have hres : Rmessage.resume false fuel (c + 1) (some (0, m.withAux hb d, ⟨es, false⟩))
              = Rmessage.readUntilComplete false fuel (c + 1) (m.withAux hb d) ⟨es, false⟩ := by
            simp [Rmessage.resume, hc']
          rw [hres, readUntilComplete_succ, withAux_read1]
          exact ih d es aux c (fuel + 1) (by omega) haux hch hby (by omega) hfu (by omega)
        | bytes bs =>
          have hch0 := hch
          simp only [chunked, Bool.and_eq_true, decide_eq_true_eq] at hch
          simp only [bytesOf, wouldBlocks, List.length_cons] at hby hwb hn
          obtain ⟨k1, k2, k3, k4, k5⟩ := chunked_after_take bs es (min d 256) hch0
          have hmin : 0 < min d 256 := by omega
          have htl : (bs.take (min d 256)).length = min bs.length (min d 256) := by
            simp [Nat.min_comm]
          have htpos : 0 < (bs.take (min d 256)).length := by rw [htl]; omega
          have htle : (bs.take (min d 256)).length ≤ d := by rw [htl]; omega
          have hstep : Rmessage.skipLoop false (f' + 1) (m.withAux hb d)
              ⟨SockEvent.bytes bs :: es, false⟩
              = Rmessage.skipLoop false f'
                  (m.withAux hb (d - (bs.take (min d 256)).length))
                  ⟨if bs.length ≤ min d 256 then es else .bytes (bs.drop (min d 256)) :: es,
                    false⟩ := by
            rw [Rmessage.skipLoop]
            simp only [hgt, if_true, hreq, recv_bytes]
            congr 1
            simp only [Rmessage.withAux, Rmessage.afterHeader]
            congr 2
            omega
          rw [hstep]
          have hsplit : bs.take (min d 256) ++ (bs.drop (min d 256) ++ bytesOf es)
              = aux ++ payload := by
            rw [← List.append_assoc, List.take_append_drop]; exact hby
          have haux' : aux.drop (bs.take (min d 256)).length ++ payload
              = bs.drop (min d 256) ++ bytesOf es := by
            have h := congrArg (List.drop (bs.take (min d 256)).length) hsplit
            rw [List.drop_left, List.drop_append_of_le_length (by omega)] at h
            exact h.symm
          by_cases hle : bs.length ≤ min d 256
          · exact ih (d - (bs.take (min d 256)).length) _
              (aux.drop (bs.take (min d 256)).length) calls f'
              (by have := k5 hle; omega) (by simp; omega) k1 (by rw [k2, haux'])
              (by omega) (by omega) (by omega)
          · have hlen' : (bs.take (min d 256)).length = min d 256 := by rw [htl]; omega
            exact ih (d - (bs.take (min d 256)).length) _
              (aux.drop (bs.take (min d 256)).length) calls f'
              (by omega) (by simp; omega) k1 (by rw [k2, haux'])
              (by omega) (by omega) (by omega)

theorem afterHeader_eq_withAux (m : Rmessage) (hb : List Nat) (d : Nat)
    (hdof : (phdr.ofBytes hb).dof = (d : Int)) : m.afterHeader hb = m.withAux hb d := by
  unfold Rmessage.withAux Rmessage.afterHeader
  rw [← hdof]

theorem withAux_read1' (fuel : Nat) (m : Rmessage) (hb : List Nat) (d : Nat) (s : Socket) :
    Rmessage.read1 false fuel (m.withAux hb d) s
      = Rmessage.skipLoop false (fuel + 1) (m.withAux hb d) s := by
  simp [Rmessage.read1, Rmessage.withAux, Rmessage.afterHeader]

/-- A message whose header arrives in one read and whose auxiliary data and
payload arrive in any division into chunks and would-blocks is read to the same
final state. -/
theorem read_chunked (fuel : Nat) (m : Rmessage) (hb aux payload : List Nat)
    (h0 : m.receiving = 0) (hc : m.complete ≠ 1) (hlen : hb.length = 16)
    (hL : (phdr.ofBytes hb).len = (payload.length : Int))
    (hdof : (phdr.ofBytes hb).dof = (aux.length : Int)) (hfuel : aux.length ≤ fuel) :
    ∀ (es : List SockEvent) (calls : Nat), chunked es = true → 16 ≤ firstChunkLen es →
      bytesOf es = hb ++ (aux ++ payload) → wouldBlocks es < calls →
      ∃ rest, Rmessage.readUntilComplete false fuel calls m ⟨es, false⟩
        = some (0, m.afterRead hb payload, ⟨rest, false⟩) := by
  intro es
  induction es with
  | nil => intro calls _ hf; simp [firstChunkLen] at hf
  | cons e es ih =>
    intro calls hch hf hby hwb
    cases e with
    | error => simp [chunked] at hch
    | eof => simp [chunked] at hch
    | wouldBlock =>
      simp only [chunked, firstChunkLen, bytesOf, wouldBlocks] at hch hf hby hwb
      obtain ⟨c, rfl⟩ : ∃ c, calls = c + 1 := ⟨calls - 1, by omega⟩
      have hread : Rmessage.read false fuel m ⟨SockEvent.wouldBlock :: es, false⟩
          = some (0, m, ⟨es, false⟩) := by
        simp [Rmessage.read, h0, recv]
      rw [readUntilComplete_succ, hread]
      have hres : Rmessage.resume false fuel c (some (0, m, ⟨es, false⟩))
          = Rmessage.readUntilComplete false fuel c m ⟨es, false⟩ := by
        simp [Rmessage.resume, hc]
      rw [hres]
      exact ih c hch hf hby (by omega)
    | bytes bs0 =>
      simp only [firstChunkLen, bytesOf, wouldBlocks] at hf hby hwb
      obtain ⟨c, rfl⟩ : ∃ c, calls = c + 1 := ⟨calls - 1, by omega⟩
      have htake : bs0.take 16 = hb := by
        have h1 := congrArg (List.take 16) hby
        rw [List.take_append_of_le_length hf, ← hlen, List.take_left] at h1
        rw [hlen] at h1
        exact h1
      have hdrop : bs0.drop 16 ++ bytesOf es = aux ++ payload := by
        have h1 := congrArg (List.drop 16) hby
        rw [List.drop_append_of_le_length hf, ← hlen, List.drop_left] at h1
        rw [hlen] at h1
        exact h1
      obtain ⟨k1, k2, k3, k4, _⟩ := chunked_after_take bs0 es 16 hch
      rw [hdrop] at k2
      rw [readUntilComplete_succ, read_header_whole false fuel m bs0 hb es h0 hf htake,
        afterHeader_eq_withAux m hb aux.length hdof, withAux_read1']
      exact skip_resume fuel m hb payload hc hL _ aux.length _ aux c (fuel + 1)
        (Nat.le_refl _) rfl k1 k2 (by omega) hfuel (by omega)

theorem afterRead_fields (m : Rmessage) (hb payload : List Nat)
    (hL : (phdr.ofBytes hb).len = (payload.length : Int)) :
    (m.afterRead hb payload).complete = 1 ∧
    (m.afterRead hb payload).receiving = 4 ∧
    (m.afterRead hb payload).head = { phdr.ofBytes hb with dof := 0 } ∧
    (m.afterRead hb payload).len = payload.length ∧
    (0 < payload.length → (m.afterRead hb payload).data = payload ∧
      (m.afterRead hb payload).bytesReceived = payload.length) := by
  have hlen : toUInt32 (phdr.ofBytes hb).len = payload.length := by
    rw [hL]; unfold toUInt32
    have hlt : payload.length < 2147483648 := by
      have h := hL
      simp only [phdr.ofBytes, toInt32] at h
      split at h <;> omega
    omega
  unfold Rmessage.afterRead
  by_cases hpos : 0 < payload.length
  · have hf := completed_fields (m.withAux hb 0) payload
    simp only [if_pos hpos]
    refine ⟨hf.2.2.1, hf.2.2.2.1, hf.2.2.2.2.1, ?_, fun _ => ⟨hf.1, hf.2.1⟩⟩
    rw [hf.2.2.2.2.2]; exact hlen
  · simp only [if_neg hpos]
    refine ⟨trivial, ?_, ?_, ?_, fun h => absurd h hpos⟩
    · unfold Rmessage.parse; split <;> rfl
    · unfold Rmessage.parse; split <;> rfl
    · have : (({ m.withAux hb 0 with receiving := 4 } : Rmessage).parse).len
          = toUInt32 (phdr.ofBytes hb).len := by
        unfold Rmessage.parse; split <;> rfl
      rw [← hlen]; exact this

/-- Claim C9 as amended. For a message made of a 16-byte header, the
auxiliary data it announces and a payload of the declared length, read by a fresh
response message when `malloc` succeeds: whenever the header arrives whole in one
`recv`, every division of the remaining bytes into chunks of positive size and
would-blocks, with the read step invoked again after each would-block, ends in
the same completed message (header fields, length, payload block, recorded
parameters) as the read of all the bytes in one piece. -/
theorem C9_read_equivalence (fuel calls : Nat) (m : Rmessage) (hb aux payload : List Nat)
    (es : List SockEvent)
    (h0 : m.receiving = 0) (hc : m.complete = 0) (hlen : hb.length = 16)
    (hL : (phdr.ofBytes hb).len = (payload.length : Int))
    (hdof : (phdr.ofBytes hb).dof = (aux.length : Int)) (hfuel : aux.length ≤ fuel)
    (hch : chunked es = true) (hfirst : 16 ≤ firstChunkLen es)
    (hby : bytesOf es = hb ++ (aux ++ payload)) (hcalls : wouldBlocks es < calls) :
    ∃ rest rest1,
      Rmessage.readUntilComplete false fuel calls m ⟨es, false⟩
        = some (0, m.afterRead hb payload, ⟨rest, false⟩) ∧
      Rmessage.readUntilComplete false fuel 1 m ⟨[.bytes (hb ++ (aux ++ payload))], false⟩
        = some (0, m.afterRead hb payload, ⟨rest1, false⟩) ∧
      (m.afterRead hb payload).complete = 1 ∧
      (m.afterRead hb payload).head = { phdr.ofBytes hb with dof := 0 } ∧
      (m.afterRead hb payload).len = payload.length ∧
      (0 < payload.length → (m.afterRead hb payload).data = payload) ∧
      (m.afterRead hb payload).par = (m.afterRead hb payload).parse.par := by
  have hc1 : m.complete ≠ 1 := by omega
  obtain ⟨rest, hrest⟩ := read_chunked fuel m hb aux payload h0 hc1 hlen hL hdof hfuel es calls
    hch hfirst hby hcalls
  obtain ⟨rest1, hrest1⟩ := read_chunked fuel m hb aux payload h0 hc1 hlen hL hdof hfuel
    [.bytes (hb ++ (aux ++ payload))] 1 (by simp [chunked, hlen]) (by simp [firstChunkLen, hlen])
    (by simp [bytesOf]) (by simp [wouldBlocks])
  obtain ⟨f1, _, f3, f4, f5⟩ := afterRead_fields m hb payload hL
  refine ⟨rest, rest1, hrest, hrest1, f1, f3, f4, fun h => (f5 h).1, ?_⟩
  unfold Rmessage.afterRead Rmessage.completed
  split <;> (simp only [Rmessage.parse]; split <;> simp_all)

/-- Witness of C9: the response header `cmd = 0x10001, len = 12, dof = 2`, two
bytes of auxiliary data and a payload of 12 bytes; the header arrives with the
first auxiliary byte after one would-block, the rest in two chunks after another
would-block. -/
theorem C9_read_equivalence_witness :
    ∃ rest rest1,
      Rmessage.readUntilComplete false 2 3 Rmessage.empty
          ⟨[.wouldBlock, .bytes [1, 0, 1, 0, 12, 0, 0, 0, 2, 0, 0, 0, 0, 0, 0, 0, 7],
            .wouldBlock, .bytes [7, 10, 8, 0], .bytes [0, 32, 4, 0, 0, 1, 0, 0, 0]], false⟩
        = some (0, Rmessage.empty.afterRead [1, 0, 1, 0, 12, 0, 0, 0, 2, 0, 0, 0, 0, 0, 0, 0]
            [10, 8, 0, 0, 32, 4, 0, 0, 1, 0, 0, 0], ⟨rest, false⟩) ∧
      Rmessage.readUntilComplete false 2 1 Rmessage.empty
          ⟨[.bytes ([1, 0, 1, 0, 12, 0, 0, 0, 2, 0, 0, 0, 0, 0, 0, 0]
              ++ ([7, 7] ++ [10, 8, 0, 0, 32, 4, 0, 0, 1, 0, 0, 0]))], false⟩
        = some (0, Rmessage.empty.afterRead [1, 0, 1, 0, 12, 0, 0, 0, 2, 0, 0, 0, 0, 0, 0, 0]
            [10, 8, 0, 0, 32, 4, 0, 0, 1, 0, 0, 0], ⟨rest1, false⟩) ∧
      (Rmessage.empty.afterRead [1, 0, 1, 0, 12, 0, 0, 0, 2, 0, 0, 0, 0, 0, 0, 0]
            [10, 8, 0, 0, 32, 4, 0, 0, 1, 0, 0, 0]).par = [0] ∧
      (Rmessage.empty.afterRead [1, 0, 1, 0, 12, 0, 0, 0, 2, 0, 0, 0, 0, 0, 0, 0]
            [10, 8, 0, 0, 32, 4, 0, 0, 1, 0, 0, 0]).data
        = [10, 8, 0, 0, 32, 4, 0, 0, 1, 0, 0, 0] := by
  obtain ⟨rest, rest1, h1, h2, _⟩ := C9_read_equivalence 2 3 Rmessage.empty
    [1, 0, 1, 0, 12, 0, 0, 0, 2, 0, 0, 0, 0, 0, 0, 0] [7, 7]
    [10, 8, 0, 0, 32, 4, 0, 0, 1, 0, 0, 0]
    [.wouldBlock, .bytes [1, 0, 1, 0, 12, 0, 0, 0, 2, 0, 0, 0, 0, 0, 0, 0, 7],
      .wouldBlock, .bytes [7, 10, 8, 0], .bytes [0, 32, 4, 0, 0, 1, 0, 0, 0]]
    rfl rfl rfl (by decide) (by decide) (by decide) (by decide) (by decide) (by decide)
    (by decide)
  exact ⟨rest, rest1, h1, h2, by decide, by decide⟩

/-- Claim C9 as stated fails: the same 28 bytes (header `cmd = 0x10001,
len = 12` and 12 payload bytes) read in one piece give status 0 and a complete
message, but fed one byte at a time the first call of the read step receives a
single header byte and returns -8 (malformed packet) with the message not
complete. -/
theorem C9_bytewise_counterexample :
    (Rmessage.readUntilComplete false 0 29 Rmessage.empty
        ⟨[.bytes ([1, 0, 1, 0, 12, 0, 0, 0, 0, 0, 0, 0, 0, 0, 0, 0]
            ++ [10, 8, 0, 0, 32, 4, 0, 0, 1, 0, 0, 0])], false⟩).map
        (fun r => (r.1, r.2.1.complete, r.2.1.data)) =
      some (0, 1, [10, 8, 0, 0, 32, 4, 0, 0, 1, 0, 0, 0]) ∧
    (Rmessage.readUntilComplete false 0 29 Rmessage.empty
        ⟨([1, 0, 1, 0, 12, 0, 0, 0, 0, 0, 0, 0, 0, 0, 0, 0]
            ++ [10, 8, 0, 0, 32, 4, 0, 0, 1, 0, 0, 0]).map (fun b => SockEvent.bytes [b]),
          false⟩).map
        (fun r => (r.1, r.2.1.complete, r.2.1.data)) =
      some (-8, 0, []) := by
  constructor <;> decide

theorem and_low_byte (x m : Nat) (hm : 255 &&& m = m) : x &&& m = (x % 256) &&& m := by
  have h := Nat.and_pow_two_sub_one_eq_mod x 8
  have h255 : (2 : Nat) ^ 8 - 1 = 255 := by norm_num
  have h256 : (2 : Nat) ^ 8 = 256 := by norm_num
  rw [h255, h256] at h
  rw [← h, Nat.and_assoc, hm]

theorem SET_PAR_eq (t len : Nat) (ht : t < 64) :
    SET_PAR t len = (len % 16777216) * 256 + t := by
  unfold SET_PAR
  have h1 : len &&& 0xffffff = len % 16777216 := by
    have h := Nat.and_pow_two_sub_one_eq_mod len 24
    norm_num at h
    exact h
  have h2 : t &&& 255 = t := by
    have h := Nat.and_pow_two_sub_one_eq_mod t 8
    norm_num at h
    rw [h]; omega
  rw [h1, h2, Nat.shiftLeft_eq]
  have h3 := Nat.mul_add_lt_is_or (i := 8) (b := t) (by norm_num; omega) (len % 16777216)
  norm_num at h3
  have h4 : len % 16777216 * 2 ^ 8 = 256 * (len % 16777216) := by norm_num; ring
  rw [h4, ← h3]; ring

theorem loadWord_wordBytes (w : Nat) (rest : List Nat) :
    loadWord (wordBytes w ++ rest) 0 = w % 4294967296 := by
  simp [loadWord, wordBytes, byteAt]
  omega

theorem map_byteAt_append (pre content : List Nat) (hb : ∀ b ∈ content, b < 256) :
    (List.range content.length).map (fun i => byteAt (pre ++ content) (pre.length + i))
      = content := by
  apply List.ext_getElem
  · simp
  · intro i h1 h2
    simp only [List.getElem_map, List.getElem_range, byteAt, List.getD_eq_getElem?_getD]
    rw [List.getElem?_append_right (by omega)]
    simp only [Nat.add_sub_cancel_left]
    rw [List.getElem?_eq_getElem h2]
    simp only [Option.getD_some]
    exact Nat.mod_eq_of_lt (hb _ (List.getElem_mem h2))


theorem ofPos_small (np : Nat → Option Rexp) (mem : List Nat) (pos : Nat) (msg : Bool)
    (h64 : loadWord mem pos &&& 64 = 0) (h128 : loadWord mem pos &&& 128 = 0) :
    Rexp.ofPos np mem pos msg =
      some (.node { cls := .Rexp, type := loadWord mem pos &&& 63,
                    len := loadWord mem pos / 256, pos := pos, data := pos + 4,
                    next := pos + 4 + loadWord mem pos / 256, msg := msg, master := .null,
                    rcount := 0, own := [], capacity := 0, name := none }
              none none none none []) := by
  simp [Rexp.ofPos, Rexp.parse, ptoi, XT_LARGE, XT_HAS_ATTR, h64, h128, Rexp.withInfo, Rexp.info,
    Rexp.attr, Rexp.head, Rexp.tail, Rexp.tag, Rexp.cont, Nat.shiftRight_eq_div_pow]

theorem ofPos_large (np : Nat → Option Rexp) (mem : List Nat) (pos : Nat) (msg : Bool)
    (h64 : loadWord mem pos &&& 64 ≠ 0) (h128 : loadWord mem pos &&& 128 = 0) :
    Rexp.ofPos np mem pos msg =
      some (.node { cls := .Rexp, type := loadWord mem pos &&& 63,
                    len := loadWord mem pos / 256 |||
                      (loadWord mem (pos + 4) * 16777216) % 4294967296,
                    pos := pos, data := pos + 8,
                    next := pos + 8 + (loadWord mem pos / 256 |||
                      (loadWord mem (pos + 4) * 16777216) % 4294967296),
                    msg := msg, master := .null,
                    rcount := 0, own := [], capacity := 0, name := none }
              none none none none []) := by
  have hpos : 0 < loadWord mem pos &&& 64 := Nat.pos_of_ne_zero h64
  simp [Rexp.ofPos, Rexp.parse, ptoi, XT_LARGE, XT_HAS_ATTR, hpos, h128, Rexp.withInfo,
    Rexp.info, Rexp.attr, Rexp.head, Rexp.tail, Rexp.tag, Rexp.cont, Nat.shiftRight_eq_div_pow,
    Nat.shiftLeft_eq, Rsize_max]

theorem content_length (e : Rexp) (mem : List Nat) : (e.content mem).length = e.len := by
  simp [Rexp.content]

theorem content_lt (e : Rexp) (mem : List Nat) : ∀ b ∈ e.content mem, b < 256 := by
  intro b hb
  simp only [Rexp.content, List.mem_map] at hb
  obtain ⟨i, _, rfl⟩ := hb
  exact byteAt_lt _ _

theorem low_bits_small : ∀ t, t < 64 → t &&& 64 = 0 ∧ t &&& 128 = 0 ∧ t &&& 63 = t := by
  decide

theorem low_bits_large : ∀ t, t < 64 →
    (t ||| 64) = t + 64 ∧ (t + 64) &&& 64 ≠ 0 ∧ (t + 64) &&& 128 = 0 ∧ (t + 64) &&& 63 = t := by
  decide

theorem store_small (e : Rexp) (mem : List Nat) (hs : e.len ≤ 0x7fffff) :
    e.store mem = wordBytes (SET_PAR e.type e.len) ++ e.content mem := by
  have hn : ¬ (e.len > 0x7fffff) := by omega
  unfold Rexp.store
  simp only [itop]
  rw [if_neg hn]

theorem store_large (e : Rexp) (mem : List Nat) (ht : e.type < 64) (hs : 0x7fffff < e.len) :
    e.store mem
      = [e.type + 64, (SET_PAR e.type e.len) / 256 % 256,
          (SET_PAR e.type e.len) / 65536 % 256,
          (SET_PAR e.type e.len) / 16777216 % 256]
        ++ wordBytes (e.len / 16777216) ++ e.content mem := by
  have hw := SET_PAR_eq e.type e.len ht
  have h0 : byteAt (wordBytes (SET_PAR e.type e.len)) 0 = e.type := by
    simp [wordBytes, byteAt, hw]; omega
  unfold Rexp.store
  simp only [itop]
  rw [if_pos hs, h0]
  simp only [XT_LARGE]
  rw [(low_bits_large e.type ht).1]
  simp [writeAt, wordBytes, Nat.shiftRight_eq_div_pow]

/-- The header written by `Rexp::store` read back by `Rexp::parse`, on the bytes
themselves: a header for type `t < 64` and length `L < 2^32`, followed by `L`
content bytes. -/
theorem header_roundtrip (np : Nat → Option Rexp) (msg : Bool) (t L : Nat)
    (content : List Nat)
    (ht : t < 64) (hb : ∀ b ∈ content, b < 256) (hcl : content.length = L)
    (hL : L < 4294967296) :
    (L ≤ 0x7fffff →
      (wordBytes (SET_PAR t L) ++ content).length = 4 + L ∧
      byteAt (wordBytes (SET_PAR t L) ++ content) 0 &&& XT_LARGE = 0 ∧
      Rexp.ofPos np (wordBytes (SET_PAR t L) ++ content) 0 msg =
        some (.node { cls := .Rexp, type := t, len := L, pos := 0, data := 4,
                      next := 4 + L, msg := msg, master := .null, rcount := 0,
                      own := [], capacity := 0, name := none } none none none none []) ∧
      (List.range L).map (fun i => byteAt (wordBytes (SET_PAR t L) ++ content) (4 + i))
        = content) ∧
    (0x7fffff < L →
      ([t + 64, SET_PAR t L / 256 % 256, SET_PAR t L / 65536 % 256,
          SET_PAR t L / 16777216 % 256] ++ wordBytes (L / 16777216) ++ content).length
        = 8 + L ∧
      byteAt ([t + 64, SET_PAR t L / 256 % 256, SET_PAR t L / 65536 % 256,
          SET_PAR t L / 16777216 % 256] ++ wordBytes (L / 16777216) ++ content) 0
        &&& XT_LARGE ≠ 0 ∧
      Rexp.ofPos np ([t + 64, SET_PAR t L / 256 % 256, SET_PAR t L / 65536 % 256,
          SET_PAR t L / 16777216 % 256] ++ wordBytes (L / 16777216) ++ content) 0 msg =
        some (.node { cls := .Rexp, type := t, len := L, pos := 0, data := 8,
                      next := 8 + L, msg := msg, master := .null, rcount := 0,
                      own := [], capacity := 0, name := none } none none none none []) ∧
      (List.range L).map (fun i => byteAt ([t + 64, SET_PAR t L / 256 % 256,
          SET_PAR t L / 65536 % 256, SET_PAR t L / 16777216 % 256]
          ++ wordBytes (L / 16777216) ++ content) (8 + i))
        = content) := by
  subst hcl
  have hw := SET_PAR_eq t content.length ht
  constructor
  · intro hs
    have hs' : content.length ≤ 8388607 := hs
    have hmod : content.length % 16777216 = content.length := Nat.mod_eq_of_lt (by omega)
    have hload : loadWord (wordBytes (SET_PAR t content.length) ++ content) 0
        = content.length * 256 + t := by
      rw [loadWord_wordBytes, hw, hmod]; omega
    have hlow : (content.length * 256 + t) % 256 = t := by omega
    obtain ⟨l1, l2, l3⟩ := low_bits_small t ht
    have h64 : loadWord (wordBytes (SET_PAR t content.length) ++ content) 0 &&& 64 = 0 := by
      rw [hload, and_low_byte _ 64 (by decide), hlow]; exact l1
    have h128 : loadWord (wordBytes (SET_PAR t content.length) ++ content) 0 &&& 128 = 0 := by
      rw [hload, and_low_byte _ 128 (by decide), hlow]; exact l2
    have h63 : loadWord (wordBytes (SET_PAR t content.length) ++ content) 0 &&& 63 = t := by
      rw [hload, and_low_byte _ 63 (by decide), hlow]; exact l3
    have hdiv : loadWord (wordBytes (SET_PAR t content.length) ++ content) 0 / 256
        = content.length := by
      rw [hload]; omega
    refine ⟨by simp [wordBytes]; omega, ?_, ?_, ?_⟩
    · have : byteAt (wordBytes (SET_PAR t content.length) ++ content) 0 = t := by
        simp [wordBytes, byteAt, hw]; omega
      rw [this]; exact l1
    · rw [ofPos_small np _ 0 msg h64 h128, h63, hdiv]
    · have h := map_byteAt_append (wordBytes (SET_PAR t content.length)) content hb
      simpa [wordBytes] using h
  · intro hs
    have hs' : 8388607 < content.length := hs
    obtain ⟨_, l1, l2, l3⟩ := low_bits_large t ht
    have hload : loadWord ([t + 64, SET_PAR t content.length / 256 % 256,
          SET_PAR t content.length / 65536 % 256, SET_PAR t content.length / 16777216 % 256]
          ++ wordBytes (content.length / 16777216) ++ content) 0
        = (content.length % 16777216) * 256 + (t + 64) := by
      simp [loadWord, byteAt, hw]; omega
    have hload4 : loadWord ([t + 64, SET_PAR t content.length / 256 % 256,
          SET_PAR t content.length / 65536 % 256, SET_PAR t content.length / 16777216 % 256]
          ++ wordBytes (content.length / 16777216) ++ content) (0 + 4)
        = content.length / 16777216 := by
      simp [loadWord, byteAt, wordBytes]; omega
    have hlow : ((content.length % 16777216) * 256 + (t + 64)) % 256 = t + 64 := by omega
    have h64 : loadWord ([t + 64, SET_PAR t content.length / 256 % 256,
          SET_PAR t content.length / 65536 % 256, SET_PAR t content.length / 16777216 % 256]
          ++ wordBytes (content.length / 16777216) ++ content) 0 &&& 64 ≠ 0 := by
      rw [hload, and_low_byte _ 64 (by decide), hlow]; exact l1
    have h128 : loadWord ([t + 64, SET_PAR t content.length / 256 % 256,
          SET_PAR t content.length / 65536 % 256, SET_PAR t content.length / 16777216 % 256]
          ++ wordBytes (content.length / 16777216) ++ content) 0 &&& 128 = 0 := by
      rw [hload, and_low_byte _ 128 (by decide), hlow]; exact l2
    have h63 : loadWord ([t + 64, SET_PAR t content.length / 256 % 256,
          SET_PAR t content.length / 65536 % 256, SET_PAR t content.length / 16777216 % 256]
          ++ wordBytes (content.length / 16777216) ++ content) 0 &&& 63 = t := by
      rw [hload, and_low_byte _ 63 (by decide), hlow]; exact l3
    have hlen : ((content.length % 16777216) * 256 + (t + 64)) / 256 |||
        (content.length / 16777216 * 16777216) % 4294967296 = content.length := by
      have e1 : ((content.length % 16777216) * 256 + (t + 64)) / 256
          = content.length % 16777216 := by omega
      have e2 : (content.length / 16777216 * 16777216) % 4294967296
          = 2 ^ 24 * (content.length / 16777216) := by norm_num; omega
      rw [e1, e2, Nat.or_comm,
        ← Nat.mul_add_lt_is_or (by norm_num; omega) (content.length / 16777216)]
      norm_num; omega
    refine ⟨by simp [wordBytes]; omega, ?_, ?_, ?_⟩
    · have : byteAt ([t + 64, SET_PAR t content.length / 256 % 256,
          SET_PAR t content.length / 65536 % 256, SET_PAR t content.length / 16777216 % 256]
          ++ wordBytes (content.length / 16777216) ++ content) 0 = t + 64 := by
        simp [byteAt]; omega
      rw [this]; exact l1
    · rw [ofPos_large np _ 0 msg h64 h128, h63, hload4, hload, hlen]
    · have h := map_byteAt_append ([t + 64, SET_PAR t content.length / 256 % 256,
          SET_PAR t content.length / 65536 % 256, SET_PAR t content.length / 16777216 % 256]
          ++ wordBytes (content.length / 16777216)) content hb
      simpa [wordBytes] using h

/-- Claim C1. Round trip of `Rexp::store` and `Rexp::parse` for every node `e`
of type `t < 64` with `L < 2^32` content bytes (the stored form never carries
attributes): for `L <= 0x7fffff` the stored form has `4 + L` bytes with the large
bit clear, and the node parsed from it has type `t`, length `L`, content start 4,
end cursor `4 + L`, no attribute, and the same content bytes; for
`0x7fffff < L` the stored form has `8 + L` bytes with the large bit set, and the
node parsed from it has type `t`, length `L`, content start 8, end cursor
`8 + L`, no attribute, and the same content bytes. -/
theorem C1_store_parse_roundtrip (np : Nat → Option Rexp) (msg : Bool) (e : Rexp)
    (mem : List Nat) (ht : e.type < 64) (hL : e.len < 4294967296) :
    (e.len ≤ 0x7fffff →
      (e.store mem).length = 4 + e.len ∧
      byteAt (e.store mem) 0 &&& XT_LARGE = 0 ∧
      Rexp.ofPos np (e.store mem) 0 msg =
        some (.node { cls := .Rexp, type := e.type, len := e.len, pos := 0, data := 4,
                      next := 4 + e.len, msg := msg, master := .null, rcount := 0,
                      own := [], capacity := 0, name := none } none none none none []) ∧
      (List.range e.len).map (fun i => byteAt (e.store mem) (4 + i)) = e.content mem) ∧
    (0x7fffff < e.len →
      (e.store mem).length = 8 + e.len ∧
      byteAt (e.store mem) 0 &&& XT_LARGE ≠ 0 ∧
      Rexp.ofPos np (e.store mem) 0 msg =
        some (.node { cls := .Rexp, type := e.type, len := e.len, pos := 0, data := 8,
                      next := 8 + e.len, msg := msg, master := .null, rcount := 0,
                      own := [], capacity := 0, name := none } none none none none []) ∧
      (List.range e.len).map (fun i => byteAt (e.store mem) (8 + i)) = e.content mem) := by
  have h := header_roundtrip np msg e.type e.len (e.content mem) ht (content_lt e mem)
    (content_length e mem) hL
  constructor
  · intro hs
    rw [store_small e mem hs]
    exact h.1 hs
  · intro hs
    rw [store_large e mem ht hs]
    exact h.2 hs

/-- Witness of C1: the string node `hi` (type `XT_STR`, content `hi\0\0`) in the
short form, and a node of 8388608 zero bytes in the large form. -/
theorem C1_store_parse_roundtrip_witness :
    ((Rexp.ofData 3 [104, 105, 0, 0] 4 none).store [] = [3, 4, 0, 0, 104, 105, 0, 0] ∧
      Rexp.ofPos (fun _ => none) ((Rexp.ofData 3 [104, 105, 0, 0] 4 none).store []) 0 false =
        some (.node { cls := .Rexp, type := (Rexp.ofData 3 [104, 105, 0, 0] 4 none).type,
                      len := (Rexp.ofData 3 [104, 105, 0, 0] 4 none).len, pos := 0,
                      data := 4, next := 4 + (Rexp.ofData 3 [104, 105, 0, 0] 4 none).len,
                      msg := false, master := .null, rcount := 0,
                      own := [], capacity := 0, name := none } none none none none []) ∧
      (Rexp.ofData 3 [104, 105, 0, 0] 4 none).type = 3 ∧
      (Rexp.ofData 3 [104, 105, 0, 0] 4 none).len = 4) ∧
    (((Rexp.ofData 3 [] 8388608 none).store []).length
        = 8 + (Rexp.ofData 3 [] 8388608 none).len ∧
      byteAt ((Rexp.ofData 3 [] 8388608 none).store []) 0 &&& XT_LARGE ≠ 0 ∧
      (Rexp.ofData 3 [] 8388608 none).len = 8388608) :=
  ⟨⟨by decide,
    ((C1_store_parse_roundtrip (fun _ => none) false (Rexp.ofData 3 [104, 105, 0, 0] 4 none) []
      (by decide) (by decide)).1 (by decide)).2.2.1, by decide, by decide⟩,
   ⟨((C1_store_parse_roundtrip (fun _ => none) false (Rexp.ofData 3 [] 8388608 none) []
      (by decide) (by decide)).2 (by decide)).1,
    ((C1_store_parse_roundtrip (fun _ => none) false (Rexp.ofData 3 [] 8388608 none) []
      (by decide) (by decide)).2 (by decide)).2.1, by decide⟩⟩


theorem and_3 (x : Nat) : x &&& 3 = x % 4 := by
  have h := Nat.and_pow_two_sub_one_eq_mod x 2
  norm_num at h
  exact h

theorem and_ffffc (x : Nat) (hx : x < 1048576) : x &&& 0xffffc = x / 4 * 4 := by
  apply Nat.eq_of_testBit_eq
  intro i
  have hm : (0xffffc : Nat) = (2 ^ 18 - 1) <<< 2 := by decide
  have hd : x / 4 * 4 = (x >>> 2) <<< 2 := by
    rw [Nat.shiftLeft_eq, Nat.shiftRight_eq_div_pow]
  rw [Nat.testBit_and, hm, hd, Nat.testBit_shiftLeft, Nat.testBit_shiftLeft,
    Nat.testBit_two_pow_sub_one, Nat.testBit_shiftRight]
  by_cases h2 : i ≥ 2
  · have e : 2 + (i - 2) = i := by omega
    rw [e]
    by_cases h20 : i - 2 < 18
    · simp [h2, h20]
    · have hlt : x < 2 ^ i := by
        have : (2 : Nat) ^ 20 ≤ 2 ^ i := Nat.pow_le_pow_right (by norm_num) (by omega)
        omega
      simp [h2, h20, Nat.testBit_lt_two_pow hlt]
  · simp [h2]

theorem alignedTextLen_of_lt (tl : Nat) (h : tl + 4 < 1048576) :
    alignedTextLen tl = (tl + 3) / 4 * 4 := by
  unfold alignedTextLen
  rw [and_3]
  by_cases hz : tl % 4 = 0
  · simp [hz]; omega
  · have hp : tl % 4 > 0 := Nat.pos_of_ne_zero hz
    rw [if_pos hp, and_ffffc _ h]
    omega

theorem strlen_of_no_nul (txt : List Nat) (h : ∀ b ∈ txt, b % 256 ≠ 0) :
    strlen txt = txt.length := by
  unfold strlen
  rw [List.takeWhile_eq_self_iff.2 (by simpa using h)]

/-- For a text of `n` bytes without NUL with `n + 5 < 2^20`, the string
constructor builds what claim C3 describes: `len = head.len = 4 + p` with `p` the
least multiple of 4 that is at least `n + 1`, and a payload made of the header
(DT_STRING, `p`), the text, and `p - n` NUL bytes. -/
theorem ofText_in_range (cmd : Int) (txt : List Nat) (h : ∀ b ∈ txt, b % 256 ≠ 0)
    (hn : txt.length + 5 < 1048576) :
    ∃ m, Rmessage.ofText cmd txt = some m ∧
      m.len = 4 + (txt.length + 4) / 4 * 4 ∧
      m.head = ⟨cmd, ((4 + (txt.length + 4) / 4 * 4 : Nat) : Int), 0, 0⟩ ∧
      m.payload = wordBytes (SET_PAR DT_STRING ((txt.length + 4) / 4 * 4)) ++ txt
        ++ List.replicate ((txt.length + 4) / 4 * 4 - txt.length) 0 := by
  have hs := strlen_of_no_nul txt h
  have ha : alignedTextLen (txt.length + 1) = (txt.length + 4) / 4 * 4 := by
    rw [alignedTextLen_of_lt _ (by omega)]
  have hp : txt.length + 1 ≤ (txt.length + 4) / 4 * 4 := by omega
  have hfit : 4 + (txt.length + 1) ≤ (txt.length + 4) / 4 * 4 + 16 := by omega
  have hof : Rmessage.ofText cmd txt = some { Rmessage.empty with
      head := ⟨cmd, (((txt.length + 4) / 4 * 4 + 4 : Nat) : Int), 0, 0⟩,
      len := (txt.length + 4) / 4 * 4 + 4,
      data := writeAt (writeAt (List.replicate ((txt.length + 4) / 4 * 4 + 16) 0) 0
        (wordBytes (itop (SET_PAR DT_STRING ((txt.length + 4) / 4 * 4))))) 4
        (txt.take txt.length ++ [0]),
      complete := 1 } := by
    unfold Rmessage.ofText
    simp only [hs, ha]
    rw [if_pos hfit]
  refine ⟨_, hof, ?_, ?_, ?_⟩
  · simp [Nat.add_comm]
  · simp [Nat.add_comm]
  · generalize hpdef : (txt.length + 4) / 4 * 4 = p at hp hfit ⊢
    have hwl : (wordBytes (SET_PAR DT_STRING p)).length = 4 := rfl
    simp only [Rmessage.payload, writeAt, itop, List.take_length, Nat.zero_add, List.take_zero,
      List.nil_append, hwl]
    simp [List.take_append_eq_append_take, List.drop_append_eq_append_drop, hwl,
      List.take_replicate, List.drop_replicate]
    rw [List.take_of_length_le (by rw [hwl]; omega),
      List.take_of_length_le (by omega : txt.length ≤ p),
      List.drop_eq_nil_of_le (by rw [hwl]; omega), List.nil_append, ← List.replicate_succ,
      List.take_replicate]
    congr 3
    omega

/-- What `sendCall` does on an open socket whose next event is `ev`. -/
theorem sendCall_open (sock : Socket) (ev : SendEvent) (rest : List SendEvent)
    (sent bytes : List Nat) (ho : sock.closed = false) :
    sendCall sock ⟨ev :: rest, sent⟩ bytes =
      match ev with
      | .accept k => (.wrote (min k bytes.length), ⟨rest, sent ++ bytes.take k⟩)
      | .wouldBlock => (.eagain, ⟨rest, sent⟩)
      | .error => (.fail, ⟨rest, sent⟩) := by
  cases ev <;> simp [sendCall, ho]

/-- What `sendCall` does on an open socket with no event left. -/
theorem sendCall_idle (sock : Socket) (sent bytes : List Nat) (ho : sock.closed = false) :
    sendCall sock ⟨[], sent⟩ bytes = (.wrote bytes.length, ⟨[], sent ++ bytes⟩) := by
  simp [sendCall, ho]

/-- The result of a comparison is never `-1`. -/
theorem cmp_ne_neg_one (p : Prop) [Decidable p] : ¬ ((if p then (0 : Int) else 1) = -1) := by
  split_ifs <;> decide

/-- Claim C11, the code at the failing input: for a message in write state NotSent
(`sending = 0`) on an open socket, when the header write would block, or is short
(fewer than 16 bytes taken), or fails, `Rmessage::send` goes on exactly as from
state HeaderSent (`sending = 1`) with the header written: the variable `ret` holds
the result of the comparison with `sizeof(head)` (0 or 1), so neither test
`ret == -1` can hold. When the transport then takes whatever it is given, `send`
returns 0, leaves the message in state Done (`sending = 2`) and has handed the
whole payload to the transport right after the part of the header that was taken. -/
theorem C11_send_header_failure_ignored (m : Rmessage) (sock : Socket) (ev : SendEvent)
    (rest : List SendEvent) (sent : List Nat) (hs : m.sending = 0) (ho : sock.closed = false)
    (hev : ev = .wouldBlock ∨ ev = .error ∨ ∃ k, k < 16 ∧ ev = .accept k) :
    m.send sock ⟨ev :: rest, sent⟩ =
      ({ m with sending := 1 } : Rmessage).send sock
        ⟨rest, sent ++ (match ev with
                        | .accept k => m.head.bytes.take k
                        | _ => [])⟩ ∧
    m.send sock ⟨[ev], sent⟩ =
      (0, { m with sending := 2 },
       ⟨[], sent ++ (match ev with
                     | .accept k => m.head.bytes.take k
                     | _ => []) ++ (if m.len > 0 then m.payload else [])⟩) := by
  have n10 : ¬ ((1 : Nat) = 0) := by decide
  rcases hev with h | h | ⟨k, hk, h⟩ <;> subst h
  · constructor
    · simp [Rmessage.send, hs, sendCall_open, ho, SendResult.ret, cmp_ne_neg_one, n10]
    · by_cases hl : m.len > 0
      · simp [Rmessage.send, hs, sendCall_open, sendCall_idle, ho, SendResult.ret, hl,
          Rmessage.payload, cmp_ne_neg_one]
      · simp [Rmessage.send, hs, sendCall_open, ho, SendResult.ret, hl, cmp_ne_neg_one]
  · constructor
    · simp [Rmessage.send, hs, sendCall_open, ho, SendResult.ret, cmp_ne_neg_one, n10]
    · by_cases hl : m.len > 0
      · simp [Rmessage.send, hs, sendCall_open, sendCall_idle, ho, SendResult.ret, hl,
          Rmessage.payload, cmp_ne_neg_one]
      · simp [Rmessage.send, hs, sendCall_open, ho, SendResult.ret, hl, cmp_ne_neg_one]
  · constructor
    · simp [Rmessage.send, hs, sendCall_open, ho, SendResult.ret, cmp_ne_neg_one, n10]
    · by_cases hl : m.len > 0
      · simp [Rmessage.send, hs, sendCall_open, sendCall_idle, ho, SendResult.ret, hl,
          Rmessage.payload, cmp_ne_neg_one]
      · simp [Rmessage.send, hs, sendCall_open, ho, SendResult.ret, hl, cmp_ne_neg_one]

/-- Witness of C11: a read-file request whose header write would block is
reported as sent, with only its payload on the wire. -/
theorem C11_send_header_failure_ignored_witness :
    (Rmessage.ofInt CMD_readFile 10).send ⟨[], false⟩ ⟨[.wouldBlock], []⟩ =
      (0, { Rmessage.ofInt CMD_readFile 10 with sending := 2 },
       ⟨[], [] ++ [] ++ (if (Rmessage.ofInt CMD_readFile 10).len > 0
                         then (Rmessage.ofInt CMD_readFile 10).payload else [])⟩) :=
  (C11_send_header_failure_ignored (Rmessage.ofInt CMD_readFile 10) ⟨[], false⟩ .wouldBlock []
    [] rfl rfl (Or.inl rfl)).2

/-- Without a descriptor the generic exchange returns -5 and touches nothing. -/
theorem request_not_connected (mf : Bool) (fuel : Nat) (c : Rconnection)
    (target contents : Rmessage) (sock : Socket) (w : Wire) (h : c.s = -1) :
    c.request mf fuel target contents sock w = some ⟨-5, c, target, contents, sock, w⟩ := by
  simp [Rconnection.request, h]

/-- Without a descriptor the operations that report the response status return -5. -/
theorem requestStatus_not_connected (mf : Bool) (fuel : Nat) (c : Rconnection)
    (cm : Rmessage) (sock : Socket) (w : Wire) (h : c.s = -1) :
    c.requestStatus mf fuel cm sock w = some ⟨-5, c, Rmessage.empty, cm, sock, w⟩ := by
  simp [Rconnection.requestStatus, request_not_connected, h]

/-- Without a descriptor the operations that expect `RESP_OK` return -5. -/
theorem requestOK_not_connected (mf : Bool) (fuel : Nat) (c : Rconnection)
    (cm : Rmessage) (sock : Socket) (w : Wire) (h : c.s = -1) :
    c.requestOK mf fuel cm sock w = some ⟨-5, c, Rmessage.empty, cm, sock, w⟩ := by
  simp [Rconnection.requestOK, request_not_connected, h]

/-- After `disconnect` the connection holds no descriptor, and the descriptor it
held is closed. -/
theorem disconnect_spec (c0 : Rconnection) (sock0 : Socket) (h : -1 ≤ c0.s) :
    (c0.disconnect sock0).1 = 0 ∧ (c0.disconnect sock0).2.1.s = -1 ∧
      (c0.s ≠ -1 → (c0.disconnect sock0).2.2.closed = true) := by
  unfold Rconnection.disconnect
  by_cases hs : c0.s > -1
  · simp [hs, closesocket]
  · have : c0.s = -1 := by omega
    simp [hs, this]

/-- Claim C12 as amended. After `disconnect()` the connection holds no descriptor
(`s = -1`, the one it held is closed); every generic exchange then returns -5
with both messages, the socket and the wire unchanged; and every application
operation that performs an exchange fails: evaluate and void-evaluate give
status -5 and no value, assign, open/create/remove/write/close-file, shutdown and
login with authentication required return -5, read-file returns the transfer
error and leaves the caller's buffer unchanged. -/
theorem C12_disconnected_operations_fail (c0 : Rconnection) (sock0 : Socket) (h : -1 ≤ c0.s)
    (crypt : List Nat → List Nat → List Nat) (mf : Bool) (fuel pfuel : Nat) (w : Wire) :
    (c0.disconnect sock0).2.1.s = -1 ∧
    (c0.s ≠ -1 → (c0.disconnect sock0).2.2.closed = true) ∧
    ∀ c sock, c = (c0.disconnect sock0).2.1 → sock = (c0.disconnect sock0).2.2 →
    (∀ target contents, c.request mf fuel target contents sock w
        = some ⟨-5, c, target, contents, sock, w⟩) ∧
    (∀ cmd opt, c.eval mf fuel pfuel cmd opt sock w
        = (Rmessage.ofText (if opt &&& 1 ≠ 0 then CMD_voidEval else CMD_eval) cmd).map
            (fun cm => ⟨none, -5, ⟨-5, c, Rmessage.empty, cm, sock, w⟩⟩)) ∧
    (∀ cmd, c.voidEval mf fuel cmd sock w
        = (Rmessage.ofText CMD_voidEval cmd).map
            (fun cm => (-5, ⟨-5, c, Rmessage.empty, cm, sock, w⟩))) ∧
    (∀ fresh symbol exp mem, c.assign fresh mf fuel symbol exp mem sock w
        = (Rconnection.assignMessage fresh symbol exp mem).map
            (fun cm => ⟨-5, c, Rmessage.empty, cm, sock, w⟩)) ∧
    (∀ fn, c.openFile mf fuel fn sock w
        = (Rmessage.ofText CMD_openFile fn).map
            (fun cm => ⟨-5, c, Rmessage.empty, cm, sock, w⟩)) ∧
    (∀ fn, c.createFile mf fuel fn sock w
        = (Rmessage.ofText CMD_createFile fn).map
            (fun cm => ⟨-5, c, Rmessage.empty, cm, sock, w⟩)) ∧
    (∀ fn, c.removeFile mf fuel fn sock w
        = (Rmessage.ofText CMD_removeFile fn).map
            (fun cm => ⟨-5, c, Rmessage.empty, cm, sock, w⟩)) ∧
    (∀ buf len, c.writeFile mf fuel buf len sock w
        = some ⟨-5, c, Rmessage.empty, Rmessage.ofBuf CMD_writeFile buf len false, sock, w⟩) ∧
    c.closeFile mf fuel sock w
        = some ⟨-5, c, Rmessage.empty, Rmessage.ofCmd CMD_closeFile, sock, w⟩ ∧
    (∀ buf len, c.readFile mf fuel buf len sock w
        = some (buf, ⟨CERR_io_error, c, Rmessage.empty,
                      Rmessage.ofInt CMD_readFile (toInt32 len), sock, w⟩)) ∧
    c.shutdown mf fuel none sock w
        = some ⟨-5, c, Rmessage.empty, Rmessage.ofCmd CMD_shutdown, sock, w⟩ ∧
    (∀ key, c.shutdown mf fuel (some key) sock w
        = (Rmessage.ofText CMD_shutdown key).map
            (fun cm => ⟨-5, c, Rmessage.empty, cm, sock, w⟩)) ∧
    (∀ user pwd, c.auth &&& A_required ≠ 0 →
      ∃ authbuf, c.login crypt mf fuel user pwd sock w
        = (Rmessage.ofText CMD_login authbuf).map
            (fun cm => ⟨-5, c, Rmessage.empty, cm, sock, w⟩)) := by
  obtain ⟨-, hs, hcl⟩ := disconnect_spec c0 sock0 h
  refine ⟨hs, hcl, ?_⟩
  intro c sock hc hsock
  have hs1 : c.s = -1 := by rw [hc]; exact hs
  refine ⟨fun t cm => request_not_connected mf fuel c t cm sock w hs1, ?_, ?_, ?_, ?_, ?_, ?_,
    ?_, ?_, ?_, ?_, ?_, ?_⟩
  · intro cmd opt
    unfold Rconnection.eval
    cases Rmessage.ofText (if opt &&& 1 ≠ 0 then CMD_voidEval else CMD_eval) cmd with
    | none => rfl
    | some cm =>
      simp only [request_not_connected mf fuel c _ cm sock w hs1, Option.map_some']
      have n50 : ¬ ((-5 : Int) = 0) := by decide
      simp [n50]
  · intro cmd
    unfold Rconnection.voidEval Rconnection.eval
    have h1 : ((1 : Nat) &&& 1 ≠ 0) := by decide
    rw [if_pos h1]
    cases Rmessage.ofText CMD_voidEval cmd with
    | none => rfl
    | some cm =>
      simp only [request_not_connected mf fuel c _ cm sock w hs1, Option.map_some']
      have n50 : ¬ ((-5 : Int) = 0) := by decide
      simp [n50]
  · intro fresh symbol exp mem
    unfold Rconnection.assign
    cases Rconnection.assignMessage fresh symbol exp mem with
    | none => rfl
    | some cm => simp [requestStatus_not_connected, hs1]
  · intro fn
    unfold Rconnection.openFile
    cases Rmessage.ofText CMD_openFile fn with
    | none => rfl
    | some cm => simp [requestStatus_not_connected, hs1]
  · intro fn
    unfold Rconnection.createFile
    cases Rmessage.ofText CMD_createFile fn with
    | none => rfl
    | some cm => simp [requestStatus_not_connected, hs1]
  · intro fn
    unfold Rconnection.removeFile
    cases Rmessage.ofText CMD_removeFile fn with
    | none => rfl
    | some cm => simp [requestStatus_not_connected, hs1]
  · intro buf len
    simp [Rconnection.writeFile, requestOK_not_connected, hs1]
  · simp [Rconnection.closeFile, requestOK_not_connected, hs1]
  · intro buf len
    simp [Rconnection.readFile, request_not_connected, hs1]
  · simp [Rconnection.shutdown, request_not_connected, hs1]
  · intro key
    simp only [Rconnection.shutdown]
    cases Rmessage.ofText CMD_shutdown key with
    | none => rfl
    | some cm => simp [request_not_connected, hs1]
  · intro user pwd ha
    refine ⟨user.take (strlen user) ++ [10] ++
      (if c.auth &&& A_crypt ≠ 0 then crypt pwd c.salt else pwd).take
        (strlen (if c.auth &&& A_crypt ≠ 0 then crypt pwd c.salt else pwd)) ++ [0], ?_⟩
    unfold Rconnection.login
    rw [if_neg ha]
    simp only []
    cases Rmessage.ofText CMD_login _ with
    | none => rfl
    | some cm => simp [requestStatus_not_connected, hs1]

/-- Witness of C12: a connection holding descriptor 3 is disconnected. -/
theorem C12_disconnected_operations_fail_witness :
    (({ Rconnection.new [] 6311 with s := 3 } : Rconnection).disconnect ⟨[], false⟩).2.1.s = -1 :=
  (C12_disconnected_operations_fail { Rconnection.new [] 6311 with s := 3 } ⟨[], false⟩
    (by decide) (fun p _ => p) false 0 0 ⟨[], []⟩).1

/-- Claim C12 as stated fails: on a connection whose handshake did not
require authentication, `login` issued after `disconnect()` returns 0. -/
theorem C12_login_after_disconnect_succeeds :
    ((({ Rconnection.new [] 6311 with s := 3 } : Rconnection).disconnect ⟨[], false⟩).2.1.login
        (fun p _ => p) false 0 [117] [112]
        (({ Rconnection.new [] 6311 with s := 3 } : Rconnection).disconnect ⟨[], false⟩).2.2
        ⟨[], []⟩).map (fun x => x.status) = some 0 := by
  decide

theorem readPost_of (r : Int) (m : Rmessage) (s : Socket) (h : r = 0 ∨ r = -1) :
    ReadPost (r, m, s) := by
  refine ⟨by rcases h with h | h <;> simp [h], ?_⟩
  intro h2
  simp only [] at h2
  omega

theorem readPost_zero (m : Rmessage) (s : Socket) : ReadPost (0, m, s) :=
  readPost_of 0 m s (Or.inl rfl)

theorem readPost_close (r : Int) (m : Rmessage) (s : Socket)
    (h : r = -7 ∨ r = -8 ∨ r = -10) : ReadPost (r, m, closesocket s) :=
  ⟨Or.inr (Or.inr h), fun _ => rfl⟩

theorem read4_post (m : Rmessage) (s : Socket) (x : Int × Rmessage × Socket)
    (h : Rmessage.read4 m s = some x) : ReadPost x := by
  unfold Rmessage.read4 at h
  split_ifs at h <;> (cases h; exact readPost_zero _ _)

theorem afterRecvLoop_post (t : Option RecvResult × Rmessage × Socket)
    (x : Int × Rmessage × Socket) (h : Rmessage.afterRecvLoop t = some x) : ReadPost x := by
  obtain ⟨n, m1, s1⟩ := t
  unfold Rmessage.afterRecvLoop at h
  split at h
  · cases h; exact readPost_zero _ _
  · cases h; exact readPost_close _ _ _ (Or.inr (Or.inl rfl))
  · split_ifs at h
    · cases h; exact readPost_close _ _ _ (Or.inr (Or.inl rfl))
    · exact read4_post _ _ _ h

theorem read3_post (m : Rmessage) (s : Socket) (x : Int × Rmessage × Socket)
    (h : Rmessage.read3 m s = some x) : ReadPost x := by
  unfold Rmessage.read3 at h
  split_ifs at h
  · exact afterRecvLoop_post _ _ h
  · exact read4_post _ _ _ h
  · exact read4_post _ _ _ h

theorem read2_post (mf : Bool) (m : Rmessage) (s : Socket) (x : Int × Rmessage × Socket)
    (h : Rmessage.read2 mf m s = some x) : ReadPost x := by
  unfold Rmessage.read2 at h
  split_ifs at h
  · cases h; exact readPost_close _ _ _ (Or.inr (Or.inr rfl))
  · exact read3_post _ _ _ h
  · exact read3_post _ _ _ h
  · exact read3_post _ _ _ h

theorem skipLoop_post (mf : Bool) : ∀ (fuel : Nat) (m : Rmessage) (s : Socket)
    (x : Int × Rmessage × Socket), Rmessage.skipLoop mf fuel m s = some x → ReadPost x := by
  intro fuel
  induction fuel with
  | zero => intro m s x h; simp [Rmessage.skipLoop] at h
  | succ k ih =>
    intro m s x h
    unfold Rmessage.skipLoop at h
    by_cases hd : m.head.dof > 0
    · rw [if_pos hd] at h
      generalize recv s (if m.head.dof > 256 then 256 else m.head.dof).toNat = rr at h
      obtain ⟨r, s1⟩ := rr
      cases r with
      | eagain => cases h; exact readPost_zero _ _
      | fail => cases h; exact readPost_close _ _ _ (Or.inr (Or.inl rfl))
      | ok bs => exact ih _ _ _ h
    · rw [if_neg hd] at h
      exact read2_post _ _ _ _ h

theorem read1_post (mf : Bool) (fuel : Nat) (m : Rmessage) (s : Socket)
    (x : Int × Rmessage × Socket) (h : Rmessage.read1 mf fuel m s = some x) : ReadPost x := by
  unfold Rmessage.read1 at h
  split_ifs at h
  · exact skipLoop_post _ _ _ _ _ h
  · exact read2_post _ _ _ _ h

/-- Every return of `Rmessage::read` has status 0, -1, -7, -8 or -10, and the
socket is closed when the status is -7, -8 or -10. -/
theorem read_post (mf : Bool) (fuel : Nat) (m : Rmessage) (s : Socket)
    (x : Int × Rmessage × Socket) (h : Rmessage.read mf fuel m s = some x) : ReadPost x := by
  unfold Rmessage.read at h
  split_ifs at h
  · split at h
    · cases h; exact readPost_zero _ _
    · cases h; exact readPost_of _ _ _ (Or.inr rfl)
    · simp only [] at h
      split_ifs at h
      · cases h; exact readPost_close _ _ _ (Or.inl rfl)
      · cases h; exact readPost_close _ _ _ (Or.inr (Or.inl rfl))
      · exact read1_post _ _ _ _ _ h
  · exact read1_post _ _ _ _ _ h

/-- Claim C13, the code at the failing input: in a generic exchange on a connected
object whose response read fails with -7, -8 or -10, `Rmessage::read` closes the
descriptor it received by value and the member `s` of the connection keeps its
value: the connection is left as it was (not Disconnected) with a closed socket, and
no later request on it returns -5. -/
theorem C13_failed_read_keeps_descriptor (mf : Bool) (fuel : Nat) (c : Rconnection)
    (target contents : Rmessage) (sock : Socket) (w : Wire) (x : Exchange)
    (hs : c.s ≠ -1) (hx : c.request mf fuel target contents sock w = some x)
    (hst : x.status = -7 ∨ x.status = -8 ∨ x.status = -10) :
    x.conn = c ∧ x.conn.s ≠ -1 ∧ x.sock.closed = true ∧
      ∀ mf2 fuel2 t2 c2 y, x.conn.request mf2 fuel2 t2 c2 x.sock x.wire = some y →
        y.status ≠ -5 := by
  have key : ∀ (mf : Bool) (fuel : Nat) (c : Rconnection) (target contents : Rmessage)
      (sock : Socket) (w : Wire) (x : Exchange), c.s ≠ -1 →
      c.request mf fuel target contents sock w = some x →
      x.status ≠ -5 ∧ ((x.status = -7 ∨ x.status = -8 ∨ x.status = -10) →
        x.conn = c ∧ x.sock.closed = true) := by
    intro mf fuel c target contents sock w x hs hx
    unfold Rconnection.request at hx
    rw [if_neg hs] at hx
    simp only [] at hx
    split_ifs at hx with hr
    · cases hx
      have n95 : ¬ ((-9 : Int) = -5) := by decide
      exact ⟨n95, fun h => by simp at h⟩
    · cases hrd : Rmessage.read mf fuel target sock with
      | none => rw [hrd] at hx; simp at hx
      | some p =>
        obtain ⟨st, t1, s1⟩ := p
        rw [hrd] at hx
        cases hx
        have hp := read_post mf fuel target sock _ hrd
        have h1 : st = 0 ∨ st = -1 ∨ st = -7 ∨ st = -8 ∨ st = -10 := hp.1
        have h2 : (st = -7 ∨ st = -8 ∨ st = -10) → s1.closed = true := hp.2
        have h3 : st ≠ -5 := by omega
        exact ⟨h3, fun h => ⟨rfl, h2 h⟩⟩
  obtain ⟨-, h2⟩ := key mf fuel c target contents sock w x hs hx
  obtain ⟨hc, hcl⟩ := h2 hst
  refine ⟨hc, by rw [hc]; exact hs, hcl, ?_⟩
  intro mf2 fuel2 t2 c2 y hy
  exact (key mf2 fuel2 x.conn t2 c2 x.sock x.wire y (by rw [hc]; exact hs) hy).1

/-- Witness of C13: the peer closes before answering a close-file request; the
read fails with -7 and the connection still holds descriptor 3. -/
theorem C13_failed_read_keeps_descriptor_witness :
    ∃ x, ({ Rconnection.new [] 6311 with s := 3 } : Rconnection).request false 0
        Rmessage.empty (Rmessage.ofCmd CMD_closeFile) ⟨[.eof], false⟩ ⟨[], []⟩ = some x ∧
      x.status = -7 ∧ x.conn.s = 3 ∧ x.sock.closed = true ∧
      (x.conn.request false 0 Rmessage.empty (Rmessage.ofCmd CMD_closeFile) x.sock x.wire).map
        (fun y => y.status) = some (-1) :=
  ⟨_, rfl, by decide, by
    have h := (C13_failed_read_keeps_descriptor false 0 { Rconnection.new [] 6311 with s := 3 }
      Rmessage.empty (Rmessage.ofCmd CMD_closeFile) ⟨[.eof], false⟩ ⟨[], []⟩ _ (by decide) rfl
      (Or.inl (by decide))).1
    rw [h], by decide, by decide⟩

/-- A `recv` neither opens nor closes the descriptor. -/
theorem recv_closed (s : Socket) (k : Nat) : (recv s k).2.closed = s.closed := by
  unfold recv
  split_ifs
  · rfl
  · split <;> try rfl
    split_ifs <;> rfl

theorem recvLoop_closed : ∀ (k : Nat) (n : Option RecvResult) (m : Rmessage) (s : Socket),
    (Rmessage.recvLoop k n m s).2.2.closed = s.closed := by
  intro k
  induction k with
  | zero => intro n m s; rfl
  | succ k ih =>
    intro n m s
    unfold Rmessage.recvLoop
    by_cases hb : (m.bytesReceived : Int) < m.head.len
    · rw [if_pos hb]
      have hc := recv_closed s (m.head.len - m.bytesReceived).toNat
      generalize recv s (m.head.len - m.bytesReceived).toNat = rr at hc
      obtain ⟨r, s1⟩ := rr
      cases r with
      | eagain => exact hc
      | fail => exact hc
      | ok bs =>
        simp only []
        split_ifs
        · rw [ih]; exact hc
        · exact hc
    · rw [if_neg hb]

theorem read4_keeps (m : Rmessage) (s : Socket) (x : Int × Rmessage × Socket)
    (h : Rmessage.read4 m s = some x) : x.2.2.closed = s.closed := by
  unfold Rmessage.read4 at h
  split_ifs at h <;> (cases h; rfl)

theorem afterRecvLoop_keeps (t : Option RecvResult × Rmessage × Socket)
    (x : Int × Rmessage × Socket) (h : Rmessage.afterRecvLoop t = some x) (h0 : x.1 = 0) :
    x.2.2.closed = t.2.2.closed := by
  obtain ⟨n, m1, s1⟩ := t
  have n80 : ¬ ((-8 : Int) = 0) := by decide
  have fin : ∀ y, (if (m1.bytesReceived : Int) ≠ m1.head.len then some (-8, m1, closesocket s1)
      else Rmessage.read4 { m1 with receiving := 4 } s1) = some y → y.1 = 0 →
      y.2.2.closed = s1.closed := by
    intro y hy hy0
    split_ifs at hy
    · cases hy; exact absurd hy0 n80
    · exact read4_keeps _ _ _ hy
  cases n with
  | none => exact fin x h h0
  | some r =>
    cases r with
    | ok bs => exact fin x h h0
    | eagain => simp only [Rmessage.afterRecvLoop] at h; cases h; rfl
    | fail => simp only [Rmessage.afterRecvLoop] at h; cases h; exact absurd h0 n80

theorem read3_keeps (m : Rmessage) (s : Socket) (x : Int × Rmessage × Socket)
    (h : Rmessage.read3 m s = some x) (h0 : x.1 = 0) : x.2.2.closed = s.closed := by
  unfold Rmessage.read3 at h
  split_ifs at h
  · rw [afterRecvLoop_keeps _ _ h h0, recvLoop_closed]
  · exact read4_keeps _ _ _ h
  · exact read4_keeps _ _ _ h

theorem read2_keeps (mf : Bool) (m : Rmessage) (s : Socket) (x : Int × Rmessage × Socket)
    (h : Rmessage.read2 mf m s = some x) (h0 : x.1 = 0) : x.2.2.closed = s.closed := by
  have n100 : ¬ ((-10 : Int) = 0) := by decide
  unfold Rmessage.read2 at h
  split_ifs at h
  · cases h; exact absurd h0 n100
  · exact read3_keeps _ _ _ h h0
  · exact read3_keeps _ _ _ h h0
  · exact read3_keeps _ _ _ h h0

theorem skipLoop_keeps (mf : Bool) : ∀ (fuel : Nat) (m : Rmessage) (s : Socket)
    (x : Int × Rmessage × Socket), Rmessage.skipLoop mf fuel m s = some x → x.1 = 0 →
    x.2.2.closed = s.closed := by
  intro fuel
  induction fuel with
  | zero => intro m s x h; simp [Rmessage.skipLoop] at h
  | succ k ih =>
    intro m s x h h0
    have n80 : ¬ ((-8 : Int) = 0) := by decide
    unfold Rmessage.skipLoop at h
    by_cases hd : m.head.dof > 0
    · rw [if_pos hd] at h
      have hc := recv_closed s (if m.head.dof > 256 then 256 else m.head.dof).toNat
      generalize recv s (if m.head.dof > 256 then 256 else m.head.dof).toNat = rr at h hc
      obtain ⟨r, s1⟩ := rr
      cases r with
      | eagain => cases h; exact hc
      | fail => cases h; exact absurd h0 n80
      | ok bs => rw [ih _ _ _ h h0]; exact hc
    · rw [if_neg hd] at h
      exact read2_keeps _ _ _ _ h h0

theorem read1_keeps (mf : Bool) (fuel : Nat) (m : Rmessage) (s : Socket)
    (x : Int × Rmessage × Socket) (h : Rmessage.read1 mf fuel m s = some x) (h0 : x.1 = 0) :
    x.2.2.closed = s.closed := by
  unfold Rmessage.read1 at h
  split_ifs at h
  · exact skipLoop_keeps _ _ _ _ _ h h0
  · exact read2_keeps _ _ _ _ h h0

/-- A call of `Rmessage::read` that returns 0 has not closed the socket. -/
theorem read_keeps (mf : Bool) (fuel : Nat) (m : Rmessage) (s : Socket)
    (x : Int × Rmessage × Socket) (h : Rmessage.read mf fuel m s = some x) (h0 : x.1 = 0) :
    x.2.2.closed = s.closed := by
  have n70 : ¬ ((-7 : Int) = 0) := by decide
  have n80 : ¬ ((-8 : Int) = 0) := by decide
  unfold Rmessage.read at h
  split_ifs at h
  · have hc := recv_closed s 16
    generalize recv s 16 = rr at h hc
    obtain ⟨r, s1⟩ := rr
    cases r with
    | eagain => cases h; exact hc
    | fail => cases h; exact hc
    | ok bs =>
      simp only [] at h
      split_ifs at h
      · cases h; exact absurd h0 n70
      · cases h; exact absurd h0 n80
      · rw [read1_keeps _ _ _ _ _ h h0]; exact hc
  · exact read1_keeps _ _ _ _ _ h h0

/-- An exchange that returns 0 leaves the connection object as it was and has
not closed the socket. -/
theorem request_zero (mf : Bool) (fuel : Nat) (c : Rconnection) (target contents : Rmessage)
    (sock : Socket) (w : Wire) (x : Exchange)
    (hx : c.request mf fuel target contents sock w = some x) (h0 : x.status = 0) :
    x.conn = c ∧ x.sock.closed = sock.closed ∧
      Rmessage.read mf fuel target sock = some (0, x.target, x.sock) := by
  have n50 : ¬ ((-5 : Int) = 0) := by decide
  have n90 : ¬ ((-9 : Int) = 0) := by decide
  unfold Rconnection.request at hx
  split_ifs at hx with hs
  · cases hx; exact absurd h0 n50
  · simp only [] at hx
    split_ifs at hx with hr
    · cases hx; exact absurd h0 n90
    · cases hrd : Rmessage.read mf fuel target sock with
      | none => rw [hrd] at hx; simp at hx
      | some p =>
        obtain ⟨st, t1, s1⟩ := p
        rw [hrd] at hx
        cases hx
        have hst : st = 0 := h0
        subst hst
        exact ⟨rfl, read_keeps mf fuel target sock _ hrd rfl, rfl⟩

/-- After an exchange that returned 0 the status-reporting tail returns the
status carried by the response command word. -/
theorem requestStatus_zero (mf : Bool) (fuel : Nat) (c : Rconnection) (cm : Rmessage)
    (sock : Socket) (w : Wire) (x : Exchange)
    (hx : c.request mf fuel Rmessage.empty cm sock w = some x) (h0 : x.status = 0) :
    c.requestStatus mf fuel cm sock w = some { x with status := CMD_STAT x.target.command } := by
  simp [Rconnection.requestStatus, hx, h0]

/-- Claim C15 as amended. On an open socket, when the exchange of an operation returns
0 (success at the transport level), assign, open-file, create-file, remove-file
and login with authentication required return the status carried by the response
command word (`CMD_STAT`, non-zero when the server rejected the request), and a
non-void evaluate whose response does not carry exactly one value parameter
returns status -12 and no value; in every case the connection keeps its
descriptor and the socket stays open. -/
theorem C15_rejected_status_returned (crypt : List Nat → List Nat → List Nat) (mf : Bool)
    (fuel pfuel : Nat) (c : Rconnection) (sock : Socket) (w : Wire)
    (ho : sock.closed = false) :
    (∀ fresh symbol exp mem cm x, Rconnection.assignMessage fresh symbol exp mem = some cm →
      c.request mf fuel Rmessage.empty cm sock w = some x → x.status = 0 →
      c.assign fresh mf fuel symbol exp mem sock w
        = some { x with status := CMD_STAT x.target.command } ∧
      x.conn = c ∧ x.sock.closed = false) ∧
    (∀ fn cm x, Rmessage.ofText CMD_openFile fn = some cm →
      c.request mf fuel Rmessage.empty cm sock w = some x → x.status = 0 →
      c.openFile mf fuel fn sock w = some { x with status := CMD_STAT x.target.command } ∧
      x.conn = c ∧ x.sock.closed = false) ∧
    (∀ fn cm x, Rmessage.ofText CMD_createFile fn = some cm →
      c.request mf fuel Rmessage.empty cm sock w = some x → x.status = 0 →
      c.createFile mf fuel fn sock w = some { x with status := CMD_STAT x.target.command } ∧
      x.conn = c ∧ x.sock.closed = false) ∧
    (∀ fn cm x, Rmessage.ofText CMD_removeFile fn = some cm →
      c.request mf fuel Rmessage.empty cm sock w = some x → x.status = 0 →
      c.removeFile mf fuel fn sock w = some { x with status := CMD_STAT x.target.command } ∧
      x.conn = c ∧ x.sock.closed = false) ∧
    (∀ user pwd cm x, c.auth &&& A_required ≠ 0 →
      Rmessage.ofText CMD_login
        (user.take (strlen user) ++ [10] ++
          (if c.auth &&& A_crypt ≠ 0 then crypt pwd c.salt else pwd).take
            (strlen (if c.auth &&& A_crypt ≠ 0 then crypt pwd c.salt else pwd)) ++ [0])
        = some cm →
      c.request mf fuel Rmessage.empty cm sock w = some x → x.status = 0 →
      c.login crypt mf fuel user pwd sock w
        = some { x with status := CMD_STAT x.target.command } ∧
      x.conn = c ∧ x.sock.closed = false) ∧
    (∀ cmd opt cm x, opt &&& 1 = 0 → Rmessage.ofText CMD_eval cmd = some cm →
      c.request mf fuel Rmessage.empty cm sock w = some x → x.status = 0 →
      (x.target.pars ≠ 1 ∨
        (ptoi (loadWord x.target.data (x.target.par.getD 0 0)) &&& 0x3f) ≠ DT_SEXP) →
      c.eval mf fuel pfuel cmd opt sock w = some ⟨none, -12, x⟩ ∧
      x.conn = c ∧ x.sock.closed = false) := by
  have open_ : ∀ cm x, c.request mf fuel Rmessage.empty cm sock w = some x → x.status = 0 →
      x.conn = c ∧ x.sock.closed = false := by
    intro cm x hx h0
    obtain ⟨h1, h2, -⟩ := request_zero mf fuel c _ cm sock w x hx h0
    exact ⟨h1, by rw [h2]; exact ho⟩
  refine ⟨?_, ?_, ?_, ?_, ?_, ?_⟩
  · intro fresh symbol exp mem cm x hcm hx h0
    refine ⟨?_, open_ cm x hx h0⟩
    simp [Rconnection.assign, hcm, requestStatus_zero mf fuel c cm sock w x hx h0]
  · intro fn cm x hcm hx h0
    refine ⟨?_, open_ cm x hx h0⟩
    simp [Rconnection.openFile, hcm, requestStatus_zero mf fuel c cm sock w x hx h0]
  · intro fn cm x hcm hx h0
    refine ⟨?_, open_ cm x hx h0⟩
    simp [Rconnection.createFile, hcm, requestStatus_zero mf fuel c cm sock w x hx h0]
  · intro fn cm x hcm hx h0
    refine ⟨?_, open_ cm x hx h0⟩
    simp [Rconnection.removeFile, hcm, requestStatus_zero mf fuel c cm sock w x hx h0]
  · intro user pwd cm x ha hcm hx h0
    refine ⟨?_, open_ cm x hx h0⟩
    unfold Rconnection.login
    rw [if_neg ha]
    simp only []
    rw [hcm]
    exact requestStatus_zero mf fuel c cm sock w x hx h0
  · intro cmd opt cm x hopt hcm hx h0 hpar
    refine ⟨?_, open_ cm x hx h0⟩
    unfold Rconnection.eval
    have hne : ¬ (opt &&& 1 ≠ 0) := by simp [hopt]
    rw [if_neg hne, hcm]
    simp only [hx]
    rw [if_neg (fun h => hne h.1), if_pos ⟨hopt, h0, hpar⟩]

/-- Witness of C15: the server answers an open-file request with an error
response of status 0x41; `openFile` returns 65 and the socket stays open. -/
theorem C15_rejected_status_returned_witness :
    (({ Rconnection.new [] 6311 with s := 3 } : Rconnection).openFile false 0 [102]
        ⟨[.bytes [2, 0, 1, 65, 0, 0, 0, 0, 0, 0, 0, 0, 0, 0, 0, 0]], false⟩ ⟨[], []⟩).map
      (fun x => (x.status, x.sock.closed)) = some (65, false) := by
  have h := (C15_rejected_status_returned (fun p _ => p) false 0 0
    { Rconnection.new [] 6311 with s := 3 }
    ⟨[.bytes [2, 0, 1, 65, 0, 0, 0, 0, 0, 0, 0, 0, 0, 0, 0, 0]], false⟩ ⟨[], []⟩ rfl).2.1
    [102] _ _ rfl rfl (by decide)
  rw [h.1]
  decide

/-- Claim C15 as stated fails: the server answers an evaluate request with
an error response of status 0x41 and no parameter; the exchange returns 0, and
`eval` reports -12, not the status 65 carried by the response. -/
theorem C15_eval_reports_not_a_value :
    (({ Rconnection.new [] 6311 with s := 3 } : Rconnection).eval false 0 0 [120] 0
        ⟨[.bytes [2, 0, 1, 65, 0, 0, 0, 0, 0, 0, 0, 0, 0, 0, 0, 0]], false⟩ ⟨[], []⟩).map
      (fun r => (r.status, r.exch.status, CMD_STAT r.exch.target.command, r.exch.sock.closed))
      = some (-12, 0, 65, false) := by
  decide

theorem writeAt_length (buf : List Nat) (off : Nat) (bs : List Nat)
    (h : off + bs.length ≤ buf.length) : (writeAt buf off bs).length = buf.length := by
  simp [writeAt]
  omega

/-- A `recv` delivers at most the number of bytes asked for. -/
theorem recv_ok_length (s : Socket) (k : Nat) (bs : List Nat) (s1 : Socket)
    (h : recv s k = (.ok bs, s1)) : bs.length ≤ k := by
  unfold recv at h
  split_ifs at h
  · cases h
  · split at h
    · cases h
    · split_ifs at h with hle
      · cases h; exact hle
      · cases h; simp
    · cases h
    · cases h
    · cases h; simp

theorem toInt32_pos (n : Nat) (hn : n < 4294967296) (h : 0 < toInt32 n) :
    (toInt32 n).toNat = n ∧ n < 2147483648 := by
  unfold toInt32 at h ⊢
  rw [Nat.mod_eq_of_lt hn] at h ⊢
  split_ifs at h ⊢ with hlt
  · exact ⟨by simp, hlt⟩
  · omega

theorem parse_fields (m : Rmessage) (c : Nat) :
    ({ m.parse with complete := c } : Rmessage).parse.pars = m.parse.pars ∧
    ({ m.parse with complete := c } : Rmessage).parse.par = m.parse.par ∧
    m.parse.head = m.head ∧ m.parse.len = m.len ∧ m.parse.data = m.data := by
  unfold Rmessage.parse
  split_ifs <;> simp_all

theorem read4_framed (m : Rmessage) (s : Socket) (x : Int × Rmessage × Socket)
    (hr : m.Reading) (ha : m.Allocated) (h : Rmessage.read4 m s = some x)
    (hc : x.2.1.complete = 1) : x.2.1.Framed := by
  obtain ⟨hc0, hlen, hlt⟩ := hr
  unfold Rmessage.read4 at h
  split_ifs at h
  · cases h
    obtain ⟨p1, p2, p3, p4, p5⟩ := parse_fields m 1
    refine ⟨?_, ?_, ?_, ?_, p1.symm ▸ rfl, p2.symm ▸ rfl⟩
    · show m.parse.head.len = toInt32 m.parse.len
      rw [p3, p4]; exact hlen
    · show m.parse.len < _
      rw [p4]; exact hlt
    · show m.parse.head.len ≤ 0 → m.parse.data = []
      rw [p3, p5]; exact ha.1
    · show 0 < m.parse.head.len → m.parse.data.length = m.parse.len
      rw [p3, p4, p5]
      intro hp
      rw [(ha.2 hp).1, hlen]
      exact (toInt32_pos m.len hlt (hlen ▸ hp)).1
  · cases h
    rw [hc0] at hc
    exact absurd hc (by decide)

theorem recvLoop_reading : ∀ (k : Nat) (n : Option RecvResult) (m : Rmessage) (s : Socket),
    m.Reading → m.Allocated →
    (Rmessage.recvLoop k n m s).2.1.Reading ∧ (Rmessage.recvLoop k n m s).2.1.Allocated := by
  intro k
  induction k with
  | zero => intro n m s hr ha; exact ⟨hr, ha⟩
  | succ k ih =>
    intro n m s hr ha
    unfold Rmessage.recvLoop
    by_cases hb : (m.bytesReceived : Int) < m.head.len
    · rw [if_pos hb]
      have hl := recv_ok_length s (m.head.len - m.bytesReceived).toNat
      generalize recv s (m.head.len - m.bytesReceived).toNat = rr at hl
      obtain ⟨r, s1⟩ := rr
      cases r with
      | eagain => exact ⟨hr, ha⟩
      | fail => exact ⟨hr, ha⟩
      | ok bs =>
        simp only []
        have hbs := hl bs s1 rfl
        split_ifs
        · apply ih
          · exact hr
          · have hp : 0 < m.head.len := by omega
            obtain ⟨h1, h2⟩ := ha.2 hp
            refine ⟨fun h0 => absurd h0 (by show ¬ m.head.len ≤ 0; omega), fun _ => ?_⟩
            constructor
            · show (writeAt m.data m.bytesReceived bs).length = m.head.len.toNat
              rw [writeAt_length _ _ _ (by omega)]; exact h1
            · show ((m.bytesReceived + bs.length : Nat) : Int) ≤ m.head.len
              omega
        · exact ⟨hr, ha⟩
    · rw [if_neg hb]; exact ⟨hr, ha⟩

theorem afterRecvLoop_framed (t : Option RecvResult × Rmessage × Socket)
    (x : Int × Rmessage × Socket) (hr : t.2.1.Reading) (ha : t.2.1.Allocated)
    (h : Rmessage.afterRecvLoop t = some x) (hc : x.2.1.complete = 1) : x.2.1.Framed := by
  obtain ⟨n, m1, s1⟩ := t
  have n01 : ¬ ((0 : Nat) = 1) := by decide
  have hc0 : m1.complete = 0 := hr.1
  have fin : ∀ y, (if (m1.bytesReceived : Int) ≠ m1.head.len then some (-8, m1, closesocket s1)
      else Rmessage.read4 { m1 with receiving := 4 } s1) = some y → y.2.1.complete = 1 →
      y.2.1.Framed := by
    intro y hy hyc
    split_ifs at hy
    · cases hy; rw [hc0] at hyc; exact absurd hyc n01
    · exact read4_framed { m1 with receiving := 4 } s1 y hr ha hy hyc
  cases n with
  | none => exact fin x h hc
  | some r =>
    cases r with
    | ok bs => exact fin x h hc
    | eagain =>
      simp only [Rmessage.afterRecvLoop] at h; cases h
      rw [hc0] at hc; exact absurd hc n01
    | fail =>
      simp only [Rmessage.afterRecvLoop] at h; cases h
      rw [hc0] at hc; exact absurd hc n01

theorem read3_framed (m : Rmessage) (s : Socket) (x : Int × Rmessage × Socket)
    (hr : m.Reading) (ha : m.Allocated) (h3 : m.receiving = 3)
    (h : Rmessage.read3 m s = some x) (hc : x.2.1.complete = 1) : x.2.1.Framed := by
  unfold Rmessage.read3 at h
  rw [if_pos h3] at h
  split_ifs at h
  · obtain ⟨r1, a1⟩ := recvLoop_reading (m.head.len - m.bytesReceived).toNat none m s hr ha
    exact afterRecvLoop_framed _ _ r1 a1 h hc
  · exact read4_framed { m with receiving := 4 } s x hr ha h hc

theorem read2_framed (mf : Bool) (m : Rmessage) (s : Socket) (x : Int × Rmessage × Socket)
    (hr : m.Reading) (hd : m.data = []) (h2 : m.receiving = 2)
    (h : Rmessage.read2 mf m s = some x) (hc : x.2.1.complete = 1) : x.2.1.Framed := by
  have n01 : ¬ ((0 : Nat) = 1) := by decide
  unfold Rmessage.read2 at h
  rw [if_pos h2] at h
  split_ifs at h with hp
  · cases h
    have : m.complete = 1 := hc
    rw [hr.1] at this; exact absurd this n01
  · refine read3_framed
      { m with data := List.replicate m.head.len.toNat 0, bytesReceived := 0, receiving := 3 }
      s x hr ?_ rfl h hc
    refine ⟨fun h0 => absurd h0 (by show ¬ m.head.len ≤ 0; omega), fun _ => ⟨?_, ?_⟩⟩
    · show (List.replicate m.head.len.toNat 0).length = m.head.len.toNat
      simp
    · show ((0 : Nat) : Int) ≤ m.head.len
      omega
  · refine read3_framed { m with receiving := 3 } s x hr ?_ rfl h hc
    exact ⟨fun _ => hd, fun h0 => absurd h0 hp⟩

theorem skipLoop_framed (mf : Bool) : ∀ (fuel : Nat) (m : Rmessage) (s : Socket)
    (x : Int × Rmessage × Socket), m.Reading → m.data = [] →
    Rmessage.skipLoop mf fuel m s = some x → x.2.1.complete = 1 → x.2.1.Framed := by
  intro fuel
  induction fuel with
  | zero => intro m s x _ _ h; simp [Rmessage.skipLoop] at h
  | succ k ih =>
    intro m s x hr hd h hc
    have n01 : ¬ ((0 : Nat) = 1) := by decide
    unfold Rmessage.skipLoop at h
    by_cases hdof : m.head.dof > 0
    · rw [if_pos hdof] at h
      generalize recv s (if m.head.dof > 256 then 256 else m.head.dof).toNat = rr at h
      obtain ⟨r, s1⟩ := rr
      cases r with
      | eagain => cases h; have : m.complete = 1 := hc; rw [hr.1] at this; exact absurd this n01
      | fail => cases h; have : m.complete = 1 := hc; rw [hr.1] at this; exact absurd this n01
      | ok bs => exact ih { m with head := { m.head with dof := m.head.dof - bs.length } } s1 x hr hd h hc
    · rw [if_neg hdof] at h
      exact read2_framed mf { m with receiving := 2 } s x hr hd rfl h hc

/-- A first `read` into a fresh message that leaves it complete leaves it
framed: the length fields agree, the block holds the declared payload, and
`pars`, `par` are those of `parse`. -/
theorem read_framed (mf : Bool) (fuel : Nat) (s : Socket) (x : Int × Rmessage × Socket)
    (h : Rmessage.read mf fuel Rmessage.empty s = some x) (hc : x.2.1.complete = 1) :
    x.2.1.Framed := by
  have n01 : ¬ ((0 : Nat) = 1) := by decide
  unfold Rmessage.read at h
  rw [if_pos (by rfl)] at h
  generalize recv s 16 = rr at h
  obtain ⟨r, s1⟩ := rr
  cases r with
  | eagain => cases h; exact absurd hc n01
  | fail => cases h; exact absurd hc n01
  | ok bs =>
    simp only [] at h
    split_ifs at h
    · cases h; exact absurd hc n01
    · cases h; exact absurd hc n01
    · unfold Rmessage.read1 at h
      rw [if_pos (by rfl)] at h
      refine skipLoop_framed mf _ _ _ _ ⟨rfl, rfl, ?_⟩ rfl h hc
      show ptoi (toUInt32 _) < 4294967296
      unfold ptoi toUInt32
      omega

/-- A fresh response that an exchange returning 0 left complete is framed. -/
theorem request_framed (mf : Bool) (fuel : Nat) (c : Rconnection) (cm : Rmessage)
    (sock : Socket) (w : Wire) (x : Exchange)
    (hx : c.request mf fuel Rmessage.empty cm sock w = some x) (h0 : x.status = 0)
    (hc : x.target.complete = 1) : x.target.Framed := by
  obtain ⟨-, -, hrd⟩ := request_zero mf fuel c _ cm sock w x hx h0
  exact read_framed mf fuel sock _ hrd hc

theorem toInt32_small (n : Nat) (h : n < 2147483648) : toInt32 n = (n : Int) := by
  unfold toInt32
  rw [Nat.mod_eq_of_lt (by omega)]
  simp [h]

/-- The declared length of a framed message that holds its whole payload is
below `2^31`, and the block holds at least that many bytes. -/
theorem framed_len (m : Rmessage) (hf : m.Framed) (hp : m.payload.length = m.len) :
    m.len < 2147483648 ∧ m.len ≤ m.data.length := by
  obtain ⟨h1, h2, h3, h4, -, -⟩ := hf
  have hle : m.len ≤ m.data.length := by
    unfold Rmessage.payload at hp
    rw [List.length_take] at hp
    omega
  refine ⟨?_, hle⟩
  by_cases hpos : 0 < m.head.len
  · rw [h1] at hpos
    exact (toInt32_pos m.len h2 hpos).2
  · have hd := h3 (by omega)
    rw [hd] at hle
    simp at hle
    omega

theorem map_byteAt_range (data : List Nat) (p : Nat) (h : p ≤ data.length) :
    (List.range p).map (byteAt data) = (data.take p).map (fun b => b % 256) := by
  apply List.ext_getElem
  · simp [h]
  · intro i h1 h2
    simp only [List.length_map, List.length_range] at h1
    simp [byteAt, List.getD_eq_getElem?_getD, List.getElem?_eq_getElem (show i < data.length by omega)]

/-- Claim C16. A read-file call with caller capacity `cap` (an `unsigned int`, the
caller's buffer holding at least `cap` bytes) whose exchange returns 0 with a
complete response that holds its payload of declared length `p`: when `p > cap`
the call returns -8 and the buffer is unchanged; when `p <= cap` the call
returns `p`, the first `p` bytes of the buffer are the bytes of the payload and
the rest of the buffer is unchanged. -/
theorem C16_readFile_copy (mf : Bool) (fuel : Nat) (c : Rconnection) (buf : List Nat)
    (cap : Nat) (sock : Socket) (w : Wire) (x : Exchange)
    (hcap : cap < 4294967296) (hbuf : cap ≤ buf.length)
    (hx : c.request mf fuel Rmessage.empty (Rmessage.ofInt CMD_readFile (toInt32 cap)) sock w
      = some x)
    (h0 : x.status = 0) (hc : x.target.complete = 1)
    (hp : x.target.payload.length = x.target.len) :
    (x.target.len > cap →
      c.readFile mf fuel buf cap sock w = some (buf, { x with status := -8 })) ∧
    (x.target.len ≤ cap →
      ∃ buf1, c.readFile mf fuel buf cap sock w
          = some (buf1, { x with status := (x.target.len : Int) }) ∧
        buf1.length = buf.length ∧
        buf1.take x.target.len = x.target.payload.map (fun b => b % 256) ∧
        buf1.drop x.target.len = buf.drop x.target.len) := by
  obtain ⟨hlt, hle⟩ := framed_len x.target (request_framed mf fuel c _ sock w x hx h0 hc) hp
  have hmod : cap % 4294967296 = cap := Nat.mod_eq_of_lt hcap
  constructor
  · intro hgt
    simp [Rconnection.readFile, hx, h0, hmod, hgt, CERR_malformed_packet]
  · intro hle2
    have hng : ¬ (x.target.len > cap) := by omega
    have hnd : ¬ (x.target.data.length < x.target.len) := by omega
    have hpay : x.target.payload = x.target.data.take x.target.len := rfl
    by_cases hz : x.target.len > 0
    · refine ⟨writeAt buf 0 ((List.range x.target.len).map (byteAt x.target.data)), ?_, ?_, ?_, ?_⟩
      · simp [Rconnection.readFile, hx, h0, hmod, hng, hnd, hz, toInt32_small _ hlt]
      · rw [writeAt_length]
        simp; omega
      · rw [hpay, ← map_byteAt_range _ _ hle]
        simp [writeAt]
      · simp [writeAt]
    · have hz0 : x.target.len = 0 := by omega
      refine ⟨buf, ?_, rfl, ?_, ?_⟩
      · simp [Rconnection.readFile, hx, h0, hmod, hng, hnd, hz, toInt32_small _ hlt]
      · rw [hpay, hz0]; simp
      · rfl

/-- Witness of C16: capacity 10 and a response payload of 20 bytes; the call
returns -8 and the ten bytes of the buffer are unchanged. -/
theorem C16_readFile_copy_witness :
    (({ Rconnection.new [] 6311 with s := 3 } : Rconnection).readFile false 0
        (List.replicate 10 7) 10
        ⟨[.bytes [1, 0, 1, 0, 20, 0, 0, 0, 0, 0, 0, 0, 0, 0, 0, 0],
          .bytes (List.replicate 20 9)], false⟩ ⟨[], []⟩).map (fun r => (r.1, r.2.status))
      = some (List.replicate 10 7, -8) := by
  have h := (C16_readFile_copy false 0 { Rconnection.new [] 6311 with s := 3 }
    (List.replicate 10 7) 10
    ⟨[.bytes [1, 0, 1, 0, 20, 0, 0, 0, 0, 0, 0, 0, 0, 0, 0, 0],
      .bytes (List.replicate 20 9)], false⟩ ⟨[], []⟩ _ (by decide) (by decide) rfl
    (by decide) (by decide) (by decide)).1 (by decide)
  rw [h]
  rfl

/-- Read of a byte after a write inside the block. -/
theorem byteAt_writeAt (buf : List Nat) (off : Nat) (bs : List Nat) (i : Nat)
    (h : off + bs.length ≤ buf.length) :
    byteAt (writeAt buf off bs) i
      = if off ≤ i ∧ i < off + bs.length then byteAt bs (i - off) else byteAt buf i := by
  unfold byteAt writeAt
  simp only [List.getD_eq_getElem?_getD]
  have hto : (List.take off buf).length = off := by simp; omega
  by_cases h1 : i < off
  · have hn : ¬ (off ≤ i ∧ i < off + bs.length) := by omega
    rw [if_neg hn, List.append_assoc, List.getElem?_append_left (by omega),
      List.getElem?_take_of_lt h1]
  · by_cases h2 : i < off + bs.length
    · rw [if_pos ⟨by omega, h2⟩, List.append_assoc, List.getElem?_append_right (by omega), hto,
        List.getElem?_append_left (by omega)]
    · have hn : ¬ (off ≤ i ∧ i < off + bs.length) := by omega
      rw [if_neg hn, List.getElem?_append_right (by simp; omega)]
      simp only [List.length_append, hto, List.getElem?_drop]
      congr 3
      omega

theorem loadWord_writeAt_word (buf : List Nat) (off w : Nat) (h : off + 4 ≤ buf.length) :
    loadWord (writeAt buf off (wordBytes w)) off = w % 4294967296 := by
  have hl : (wordBytes w).length = 4 := rfl
  unfold loadWord
  rw [byteAt_writeAt _ _ _ _ (by omega), byteAt_writeAt _ _ _ _ (by omega),
    byteAt_writeAt _ _ _ _ (by omega), byteAt_writeAt _ _ _ _ (by omega), hl]
  rw [if_pos (by omega), if_pos (by omega), if_pos (by omega), if_pos (by omega)]
  have e0 : off - off = 0 := by omega
  have e1 : off + 1 - off = 1 := by omega
  have e2 : off + 2 - off = 2 := by omega
  have e3 : off + 3 - off = 3 := by omega
  rw [e0, e1, e2, e3]
  simp [wordBytes, byteAt]
  omega

theorem loadWord_writeAt_other (buf : List Nat) (off : Nat) (bs : List Nat) (p : Nat)
    (h : off + bs.length ≤ buf.length) (hp : p + 4 ≤ off ∨ off + bs.length ≤ p) :
    loadWord (writeAt buf off bs) p = loadWord buf p := by
  unfold loadWord
  rw [byteAt_writeAt _ _ _ _ h, byteAt_writeAt _ _ _ _ h, byteAt_writeAt _ _ _ _ h,
    byteAt_writeAt _ _ _ _ h]
  rw [if_neg (by omega), if_neg (by omega), if_neg (by omega), if_neg (by omega)]

theorem and_fffc (x : Nat) (hx : x < 65536) : x &&& 0xfffc = x / 4 * 4 := by
  have h1 : x &&& 0xfffc = x &&& 0xffffc := by
    apply Nat.eq_of_testBit_eq
    intro i
    rw [Nat.testBit_and, Nat.testBit_and]
    by_cases hi : i < 16
    · have : Nat.testBit 0xfffc i = Nat.testBit 0xffffc i := by
        interval_cases i <;> rfl
      rw [this]
    · have hxi : x.testBit i = false :=
        Nat.testBit_lt_two_pow (lt_of_lt_of_le hx (by
          calc 65536 = 2 ^ 16 := by norm_num
            _ ≤ 2 ^ i := Nat.pow_le_pow_right (by norm_num) (by omega)))
      simp [hxi]
  rw [h1, and_ffffc x (by omega)]

theorem SET_PAR_byte (t len : Nat) (ht : t < 256) :
    SET_PAR t len = (len % 16777216) * 256 + t := by
  unfold SET_PAR
  have h1 : len &&& 0xffffff = len % 16777216 := by
    have h := Nat.and_pow_two_sub_one_eq_mod len 24
    norm_num at h
    exact h
  have h2 : t &&& 255 = t := by
    have h := Nat.and_pow_two_sub_one_eq_mod t 8
    norm_num at h
    rw [h]; omega
  rw [h1, h2, Nat.shiftLeft_eq]
  have h3 := Nat.mul_add_lt_is_or (i := 8) (b := t) (by norm_num; omega) (len % 16777216)
  norm_num at h3
  have e8 : len % 16777216 * 2 ^ 8 = 256 * (len % 16777216) := by norm_num [Nat.mul_comm]
  rw [e8, ← h3]
  ring

theorem store_length (e : Rexp) (mem : List Nat) :
    (e.store mem).length = (if e.len > 0x7fffff then 8 else 4) + e.len := by
  unfold Rexp.store
  simp only []
  split_ifs
  · simp [writeAt, wordBytes, content_length]; omega
  · simp [wordBytes, content_length]; omega

theorem assign_tl (L : Nat) (h : L + 5 < 65536) :
    (if (L + 1) &&& 3 ≠ 0 then (L + 1 + 4) &&& 0xfffc else L + 1) = (L + 4) / 4 * 4 := by
  rw [and_3]
  split_ifs with hz
  · rw [and_fffc _ (by omega)]; omega
  · omega

theorem storageSize_eq (e : Rexp) (h : e.len + 8 < 4294967296) :
    e.storageSize = headerLen e.len + e.len := by
  unfold Rexp.storageSize headerLen Rsize_max
  rw [Nat.mod_eq_of_lt (by split_ifs <;> omega)]
  omega

theorem drop_writeAt_end (buf : List Nat) (off : Nat) (bs : List Nat)
    (h : buf.length = off + bs.length) : (writeAt buf off bs).drop off = bs := by
  unfold writeAt
  have h1 : List.drop (off + bs.length) buf = [] := List.drop_eq_nil_of_le (by omega)
  have h2 : (List.take off buf).length = off := by simp; omega
  rw [h1, List.append_nil]
  exact List.drop_left' h2

/-- The block after the writes of `assign`: a word at 0, the name at 4, a word
at `4+tl`, a second word after it in the large form, and the stored value from
`hl` to the end. -/
theorem assign_layout (d0 w0 name w1 w2 store : List Nat) (tl hl : Nat) (big : Prop)
    [Decidable big] (hw0 : w0.length = 4) (hname : name.length ≤ tl) (hw1 : w1.length = 4)
    (hw2 : w2.length = 4) (hhl : hl = 4 + tl + (if big then 8 else 4))
    (hd0 : d0.length = hl + store.length) :
    (writeAt (if big then writeAt (writeAt (writeAt (writeAt d0 0 w0) 4 name) (4 + tl) w1)
                (4 + tl + 4) w2
              else writeAt (writeAt (writeAt d0 0 w0) 4 name) (4 + tl) w1) hl store).length
        = d0.length ∧
    (∀ i, i < 4 →
      byteAt (writeAt (if big then writeAt (writeAt (writeAt (writeAt d0 0 w0) 4 name) (4 + tl) w1)
                (4 + tl + 4) w2
              else writeAt (writeAt (writeAt d0 0 w0) 4 name) (4 + tl) w1) hl store) i
        = byteAt w0 i) ∧
    (∀ i, i < name.length →
      byteAt (writeAt (if big then writeAt (writeAt (writeAt (writeAt d0 0 w0) 4 name) (4 + tl) w1)
                (4 + tl + 4) w2
              else writeAt (writeAt (writeAt d0 0 w0) 4 name) (4 + tl) w1) hl store) (4 + i)
        = byteAt name i) ∧
    (∀ i, i < 4 →
      byteAt (writeAt (if big then writeAt (writeAt (writeAt (writeAt d0 0 w0) 4 name) (4 + tl) w1)
                (4 + tl + 4) w2
              else writeAt (writeAt (writeAt d0 0 w0) 4 name) (4 + tl) w1) hl store) (4 + tl + i)
        = byteAt w1 i) ∧
    (big → ∀ i, i < 4 →
      byteAt (writeAt (if big then writeAt (writeAt (writeAt (writeAt d0 0 w0) 4 name) (4 + tl) w1)
                (4 + tl + 4) w2
              else writeAt (writeAt (writeAt d0 0 w0) 4 name) (4 + tl) w1) hl store)
          (4 + tl + 4 + i)
        = byteAt w2 i) ∧
    (writeAt (if big then writeAt (writeAt (writeAt (writeAt d0 0 w0) 4 name) (4 + tl) w1)
                (4 + tl + 4) w2
              else writeAt (writeAt (writeAt d0 0 w0) 4 name) (4 + tl) w1) hl store).drop hl
        = store := by
  have hge : 4 + tl + 4 ≤ hl := by rw [hhl]; split_ifs <;> omega
  have l1 : (writeAt d0 0 w0).length = d0.length := writeAt_length _ _ _ (by omega)
  have l2 : (writeAt (writeAt d0 0 w0) 4 name).length = d0.length := by
    rw [writeAt_length _ _ _ (by omega), l1]
  have l3 : (writeAt (writeAt (writeAt d0 0 w0) 4 name) (4 + tl) w1).length = d0.length := by
    rw [writeAt_length _ _ _ (by omega), l2]
  by_cases hb : big
  · have hhl8 : hl = 4 + tl + 8 := by rw [hhl, if_pos hb]
    simp only [if_pos hb]
    have l4 : (writeAt (writeAt (writeAt (writeAt d0 0 w0) 4 name) (4 + tl) w1)
        (4 + tl + 4) w2).length = d0.length := by
      rw [writeAt_length _ _ _ (by omega), l3]
    refine ⟨by rw [writeAt_length _ _ _ (by omega), l4], ?_, ?_, ?_, ?_, ?_⟩
    · intro i hi
      rw [byteAt_writeAt _ _ _ _ (by omega), if_neg (by omega),
        byteAt_writeAt _ _ _ _ (by omega), if_neg (by omega),
        byteAt_writeAt _ _ _ _ (by omega), if_neg (by omega),
        byteAt_writeAt _ _ _ _ (by omega), if_neg (by omega),
        byteAt_writeAt _ _ _ _ (by omega), if_pos (by omega)]
      rfl
    · intro i hi
      have e : 4 + i - 4 = i := by omega
      rw [byteAt_writeAt _ _ _ _ (by omega), if_neg (by omega),
        byteAt_writeAt _ _ _ _ (by omega), if_neg (by omega),
        byteAt_writeAt _ _ _ _ (by omega), if_neg (by omega),
        byteAt_writeAt _ _ _ _ (by omega), if_pos (by omega), e]
    · intro i hi
      have e : 4 + tl + i - (4 + tl) = i := by omega
      rw [byteAt_writeAt _ _ _ _ (by omega), if_neg (by omega),
        byteAt_writeAt _ _ _ _ (by omega), if_neg (by omega),
        byteAt_writeAt _ _ _ _ (by omega), if_pos (by omega), e]
    · intro _ i hi
      have e : 4 + tl + 4 + i - (4 + tl + 4) = i := by omega
      rw [byteAt_writeAt _ _ _ _ (by omega), if_neg (by omega),
        byteAt_writeAt _ _ _ _ (by omega), if_pos (by omega), e]
    · exact drop_writeAt_end _ _ _ (by rw [l4]; exact hd0)
  · have hhl4 : hl = 4 + tl + 4 := by rw [hhl, if_neg hb]
    simp only [if_neg hb]
    refine ⟨by rw [writeAt_length _ _ _ (by omega), l3], ?_, ?_, ?_, fun h => absurd h hb, ?_⟩
    · intro i hi
      rw [byteAt_writeAt _ _ _ _ (by omega), if_neg (by omega),
        byteAt_writeAt _ _ _ _ (by omega), if_neg (by omega),
        byteAt_writeAt _ _ _ _ (by omega), if_neg (by omega),
        byteAt_writeAt _ _ _ _ (by omega), if_pos (by omega)]
      rfl
    · intro i hi
      have e : 4 + i - 4 = i := by omega
      rw [byteAt_writeAt _ _ _ _ (by omega), if_neg (by omega),
        byteAt_writeAt _ _ _ _ (by omega), if_neg (by omega),
        byteAt_writeAt _ _ _ _ (by omega), if_pos (by omega), e]
    · intro i hi
      have e : 4 + tl + i - (4 + tl) = i := by omega
      rw [byteAt_writeAt _ _ _ _ (by omega), if_neg (by omega),
        byteAt_writeAt _ _ _ _ (by omega), if_pos (by omega), e]
    · exact drop_writeAt_end _ _ _ (by rw [l3]; exact hd0)

theorem loadWord_of_bytes (a b : List Nat) (p : Nat)
    (h : ∀ i, i < 4 → byteAt a (p + i) = byteAt b i) : loadWord a p = loadWord b 0 := by
  unfold loadWord
  have h0 := h 0 (by omega)
  rw [Nat.add_zero] at h0
  rw [h0, h 1 (by omega), h 2 (by omega), h 3 (by omega)]

theorem loadWord_of_bytes0 (a b : List Nat)
    (h : ∀ i, i < 4 → byteAt a i = byteAt b i) : loadWord a 0 = loadWord b 0 :=
  loadWord_of_bytes a b 0 (fun i hi => by rw [Nat.zero_add]; exact h i hi)

theorem parHeader_small (data : List Nat) (c t len : Nat) (ht : t < 64) (hl : len < 16777216)
    (h : loadWord data c = SET_PAR t len) : parHeader data c = (4, len) := by
  rw [SET_PAR_byte t len (by omega)] at h
  unfold parHeader
  simp only [ptoi, h]
  have h64 : (len % 16777216 * 256 + t) &&& DT_LARGE = 0 := by
    rw [and_low_byte _ DT_LARGE (by decide)]
    have e : (len % 16777216 * 256 + t) % 256 = t := by omega
    rw [e]
    exact (low_bits_small t ht).1
  rw [h64, Nat.shiftRight_eq_div_pow]
  simp
  omega

theorem loadWord_word (w : Nat) : loadWord (wordBytes w) 0 = w % 4294967296 := by
  have h := loadWord_wordBytes w []
  rw [List.append_nil] at h
  exact h

theorem byteAt_take_append (l t : List Nat) (k i : Nat) (hi : i < k) (hk : k ≤ l.length) :
    byteAt (l.take k ++ t) i = byteAt l i := by
  rw [byteAt_append_left _ _ _ (by simp; omega)]
  unfold byteAt
  rw [List.getD_eq_getElem?_getD, List.getD_eq_getElem?_getD, List.getElem?_take_of_lt hi]

theorem byteAt_append_nul (a : List Nat) : byteAt (a ++ [0]) a.length = 0 := by
  simp [byteAt]

theorem strlen_le (s : List Nat) : strlen s ≤ s.length :=
  (List.takeWhile_sublist _).length_le

theorem SET_PAR_lt (t len : Nat) (ht : t < 256) : SET_PAR t len < 4294967296 := by
  rw [SET_PAR_byte t len ht]
  omega

/-- Claim C17 as amended. For a destination name of fewer than 65531 bytes and a value
node with content length `c` (below `2^31 - 65552`), `assign` builds a request
whose payload length is 4 (name header) + the length of the name padded to the
next 4-byte boundary + the header of the DT_SEXP wrapper parameter (4 bytes, or 8
when the stored size of the value exceeds 0x7fffff) + the value's own
tagged-length header (4 bytes, or 8 when `c` exceeds 0x7fffff) + `c`. The name
header encodes (DT_STRING, padded name length) and is followed by the name and
its terminating NUL; the wrapper header encodes (DT_SEXP, stored size of the
value) right after the padded name, and the bytes written by the value's `store`
follow the wrapper header immediately, up to the end of the payload. -/
theorem C17_assign_payload (fresh symbol : List Nat) (exp : Rexp) (mem : List Nat)
    (hs : strlen symbol + 5 < 65536) (hc : exp.len + 65552 < 2147483648) :
    ∃ m, Rconnection.assignMessage fresh symbol exp mem = some m ∧
      m.len = 4 + paddedNameLen symbol + headerLen (headerLen exp.len + exp.len)
                + headerLen exp.len + exp.len ∧
      m.head = ⟨CMD_setSEXP, (m.len : Int), 0, 0⟩ ∧ m.data.length = m.len ∧
      loadWord m.data 0 = SET_PAR DT_STRING (paddedNameLen symbol) ∧
      parHeader m.data 0 = (4, paddedNameLen symbol) ∧
      (∀ i, i < strlen symbol → byteAt m.data (4 + i) = byteAt symbol i) ∧
      byteAt m.data (4 + strlen symbol) = 0 ∧
      loadWord m.data (4 + paddedNameLen symbol)
        = SET_PAR (if headerLen exp.len + exp.len > 0x7fffff then DT_SEXP ||| DT_LARGE
                   else DT_SEXP) (headerLen exp.len + exp.len) ∧
      (headerLen exp.len + exp.len > 0x7fffff →
        loadWord m.data (4 + paddedNameLen symbol + 4) = (headerLen exp.len + exp.len) >>> 24) ∧
      m.data.drop (4 + paddedNameLen symbol + headerLen (headerLen exp.len + exp.len))
        = exp.store mem := by
  have htl := assign_tl (strlen symbol) hs
  have hxl := storageSize_eq exp (by omega)
  have hsl : (exp.store mem).length = headerLen exp.len + exp.len := store_length exp mem
  have hpad : paddedNameLen symbol = (strlen symbol + 4) / 4 * 4 := rfl
  have hh4 : ∀ c, headerLen c = 4 ∨ headerLen c = 8 := by
    intro c; unfold headerLen; split_ifs <;> simp
  obtain ⟨tl, htle⟩ : ∃ tl, tl = (strlen symbol + 4) / 4 * 4 := ⟨_, rfl⟩
  obtain ⟨xl, hxle⟩ : ∃ xl, xl = headerLen exp.len + exp.len := ⟨_, rfl⟩
  have hxlb : xl < 2147483648 - 65544 := by rcases hh4 exp.len with h | h <;> omega
  have htlb : strlen symbol + 1 ≤ tl ∧ tl < 65536 := by omega
  have hhl : (if xl > 8388607 then ((4 + tl + 4) % 4294967296 + 4) % 4294967296
      else (4 + tl + 4) % 4294967296) = 4 + tl + headerLen xl := by
    unfold headerLen
    split_ifs <;> omega
  have hn : (4 + tl + headerLen xl + xl) % 4294967296 = 4 + tl + headerLen xl + xl := by
    rcases hh4 xl with h | h <;> omega
  simp only [Rconnection.assignMessage, htl, hxl, Rsize_max, hpad, ← htle, ← hxle, hhl, hn, hsl,
    itop]
  rw [if_pos ⟨by omega, by omega, by rcases hh4 xl with h | h <;> omega, by omega⟩]
  refine ⟨_, rfl, ?_⟩
  have hnl0 := Nat.min_eq_left (strlen_le symbol)
  have hname : (List.take (strlen symbol) symbol ++ [0]).length ≤ tl := by
    simp only [List.length_append, List.length_take, hnl0, List.length_singleton]; omega
  have hnl : (List.take (strlen symbol) symbol).length = strlen symbol := by
    simp only [List.length_take]
    exact Nat.min_eq_left (strlen_le symbol)
  obtain ⟨l5, b0, bn, b1, b2, dr⟩ := assign_layout
    (List.map (byteAt fresh) (List.range (4 + tl + headerLen xl + xl)))
    (wordBytes (SET_PAR DT_STRING tl)) (List.take (strlen symbol) symbol ++ [0])
    (wordBytes (SET_PAR (if xl > 8388607 then DT_SEXP ||| DT_LARGE else DT_SEXP) xl))
    (wordBytes (xl >>> 24)) (exp.store mem) tl (4 + tl + headerLen xl) (xl > 8388607)
    rfl hname rfl rfl (by unfold headerLen; rfl) (by simp [hsl, ← hxle])
  refine ⟨?_, ?_, ?_, ?_, ?_, ?_, ?_, ?_, ?_, dr⟩
  · show 4 + tl + headerLen xl + xl = _
    omega
  · show _ = phdr.mk CMD_setSEXP ((4 + tl + headerLen xl + xl : Nat) : Int) 0 0
    rw [toInt32_small _ (by rcases hh4 xl with h | h <;> omega)]
  · show List.length _ = 4 + tl + headerLen xl + xl
    rw [l5]; simp
  · show loadWord _ 0 = _
    rw [loadWord_of_bytes0 _ _ b0, loadWord_word, Nat.mod_eq_of_lt (SET_PAR_lt _ _ (by decide))]
  · have hw := loadWord_of_bytes0 _ _ b0
    rw [loadWord_word, Nat.mod_eq_of_lt (SET_PAR_lt _ _ (by decide))] at hw
    exact parHeader_small _ 0 DT_STRING tl (by decide) (by omega) hw
  · intro i hi
    show byteAt _ (4 + i) = _
    rw [bn i (by rw [List.length_append, hnl]; simp; omega)]
    exact byteAt_take_append _ _ _ _ hi (strlen_le symbol)
  · show byteAt _ (4 + strlen symbol) = 0
    rw [bn (strlen symbol) (by rw [List.length_append, hnl]; simp)]
    have h := byteAt_append_nul (List.take (strlen symbol) symbol)
    rw [hnl] at h
    exact h
  · show loadWord _ (4 + tl) = _
    rw [loadWord_of_bytes _ _ (4 + tl) b1, loadWord_word,
      Nat.mod_eq_of_lt (SET_PAR_lt _ _ (by split_ifs <;> decide))]
  · intro hbig
    show loadWord _ (4 + tl + 4) = _
    rw [loadWord_of_bytes _ _ (4 + tl + 4) (b2 hbig), loadWord_word]
    apply Nat.mod_eq_of_lt
    rw [Nat.shiftRight_eq_div_pow]
    omega

/-- Witness of C17: `assign("x", s)` for a string node `s` holding "hi": the
payload has 4 + 4 + 4 + 4 + 3 = 19 bytes. -/
theorem C17_assign_payload_witness :
    ∃ m, Rconnection.assignMessage [] [120] (Rexp.ofData XT_STR [104, 105, 0] 3 none) []
        = some m ∧ m.len = 19 := by
  obtain ⟨m, hm, hlen, -⟩ := C17_assign_payload [] [120]
    (Rexp.ofData XT_STR [104, 105, 0] 3 none) [] (by decide) (by decide)
  exact ⟨m, hm, by rw [hlen]; decide⟩

/-- Claim C17 as stated fails: for `assign("x", s)` with a string node `s`
holding "hi" (content length 3) the payload has 19 bytes, not 4 + 4 + 4 + 3 = 15:
between the padded name and the value's own header lies the header of the
DT_SEXP parameter that wraps the value. -/
theorem C17_wrapper_header_counted :
    (Rconnection.assignMessage [] [120] (Rexp.ofData XT_STR [104, 105, 0] 3 none) []).map
        (fun m => (m.len, m.payload))
      = some (19, [4, 4, 0, 0, 120, 0, 0, 0, 10, 7, 0, 0, 3, 3, 0, 0, 104, 105, 0]) ∧
    4 + paddedNameLen [120] + headerLen 3 + 3 = 15 := by
  decide

theorem notagLoop_children (np : Nat → Option Rexp) (eod : Nat) :
    ∀ (cs : List Rexp) (ptr k : Nat), ChildrenAt np eod ptr cs → cs.length < k →
      Rlist.notagLoop np eod k ptr = some cs := by
  intro cs
  induction cs with
  | nil =>
    intro ptr k h hk
    obtain ⟨k, rfl⟩ : ∃ j, k = j + 1 := ⟨k - 1, by simp at hk; omega⟩
    have h0 : ¬ (ptr < eod) := h
    simp [Rlist.notagLoop, h0]
  | cons c rest ih =>
    intro ptr k h hk
    obtain ⟨k, rfl⟩ : ∃ j, k = j + 1 := ⟨k - 1, by simp at hk; omega⟩
    obtain ⟨h1, h2, h3⟩ := h
    simp only [List.length_cons] at hk
    simp [Rlist.notagLoop, h1, h2, ih c.next k h3 (by omega)]

theorem tagLoop_pairs (np : Nat → Option Rexp) (eod : Nat) :
    ∀ (ps : List (Rexp × Rexp)) (ptr k : Nat), PairsAt np eod ptr ps → ps.length < k →
      ∃ p, Rlist.tagLoop np eod k ptr = some (ps, p) := by
  intro ps
  induction ps with
  | nil =>
    intro ptr k h hk
    obtain ⟨k, rfl⟩ : ∃ j, k = j + 1 := ⟨k - 1, by simp at hk; omega⟩
    have h0 : ¬ (ptr < eod) := h
    exact ⟨ptr, by simp [Rlist.tagLoop, h0]⟩
  | cons c rest ih =>
    intro ptr k h hk
    obtain ⟨k, rfl⟩ : ∃ j, k = j + 1 := ⟨k - 1, by simp at hk; omega⟩
    obtain ⟨h1, h2, h3, h4⟩ := h
    simp only [List.length_cons] at hk
    obtain ⟨p, hp⟩ := ih c.2.next k h4 (by omega)
    exact ⟨p, by simp [Rlist.tagLoop, h1, h2, h3, hp]⟩

/-- The cells of the chain hung below the first cell of an untagged list. -/
theorem chainNotag_nth (type : Nat) (msg : Bool) :
    ∀ (rest : List Rexp) (i : Nat),
      (i < rest.length → ∃ c, (Rlist.chainNotag type msg rest).bind (nthCell i) = some c ∧
        c.head = rest[i]? ∧ c.tag = none ∧ (some c.next = rest[i]?.map Rexp.next)) ∧
      (rest.length ≤ i → (Rlist.chainNotag type msg rest).bind (nthCell i) = none) := by
  intro rest
  induction rest with
  | nil => intro i; simp [Rlist.chainNotag]
  | cons h t ih =>
    intro i
    cases i with
    | zero =>
      simp [Rlist.chainNotag, Rlist.cell, nthCell, Rexp.head, Rexp.tag, Rexp.next, Rexp.info]
    | succ j =>
      have e : (Rlist.chainNotag type msg (h :: t)).bind (nthCell (j + 1))
          = (Rlist.chainNotag type msg t).bind (nthCell j) := by
        simp [Rlist.chainNotag, Rlist.cell, nthCell, Rexp.tail]
      rw [e]
      obtain ⟨a, b⟩ := ih j
      constructor
      · intro hj
        simp only [List.length_cons] at hj
        simpa using a (by omega)
      · intro hj
        simp only [List.length_cons] at hj
        exact b (by omega)

/-- The cells of the chain hung below the first cell of a tagged list. -/
theorem chainTag_nth (type : Nat) (msg : Bool) :
    ∀ (rest : List (Rexp × Rexp)) (i : Nat),
      (i < rest.length → ∃ c, (Rlist.chainTag type msg rest).bind (nthCell i) = some c ∧
        c.head = rest[i]?.map Prod.fst ∧ c.tag = rest[i]?.map Prod.snd ∧
        (some c.next = rest[i]?.map (fun p => p.2.next))) ∧
      (rest.length ≤ i → (Rlist.chainTag type msg rest).bind (nthCell i) = none) := by
  intro rest
  induction rest with
  | nil => intro i; simp [Rlist.chainTag]
  | cons h t ih =>
    intro i
    obtain ⟨h1, h2⟩ := h
    cases i with
    | zero =>
      simp [Rlist.chainTag, Rlist.cell, nthCell, Rexp.head, Rexp.tag, Rexp.next, Rexp.info]
    | succ j =>
      have e : (Rlist.chainTag type msg ((h1, h2) :: t)).bind (nthCell (j + 1))
          = (Rlist.chainTag type msg t).bind (nthCell j) := by
        simp [Rlist.chainTag, Rlist.cell, nthCell, Rexp.tail]
      rw [e]
      obtain ⟨a, b⟩ := ih j
      constructor
      · intro hj
        simp only [List.length_cons] at hj
        simpa using a (by omega)
      · intro hj
        simp only [List.length_cons] at hj
        exact b (by omega)

theorem childrenOf_get (ps : List (Rexp × Rexp)) :
    ∀ i, (childrenOf ps)[2 * i]? = ps[i]?.map Prod.fst ∧
      (childrenOf ps)[2 * i + 1]? = ps[i]?.map Prod.snd := by
  induction ps with
  | nil => intro i; simp [childrenOf]
  | cons p rest ih =>
    intro i
    cases i with
    | zero => simp [childrenOf]
    | succ j =>
      have e1 : 2 * (j + 1) = (2 * j + 1) + 1 := by ring
      rw [e1]
      simp only [childrenOf, List.getElem?_cons_succ]
      exact ih j

theorem nthCell_succ_tail : ∀ (i : Nat) (r : Rexp),
    nthCell (i + 1) r = (nthCell i r).bind Rexp.tail := by
  intro i
  induction i with
  | zero =>
    intro r
    cases h : r.tail <;> simp [nthCell, h]
  | succ j ih =>
    intro r
    have e : nthCell (j + 1 + 1) r = r.tail.bind (nthCell (j + 1)) := rfl
    rw [e]
    cases h : r.tail with
    | none => simp [nthCell, h]
    | some t =>
      simp only [Option.some_bind]
      rw [ih t]
      simp [nthCell, h]

/-- Claim C19. `Rlist::fix_content` on a fresh list node whose content is made of
consecutive child encodings, with more fuel than children. Untagged form with
`k >= 1` children `cs`: the chain has exactly `k` cells, cell `i` has child `i`
as head and no tag. Tagged form with `k >= 1` (value, tag) pairs `ps`: the chain
has exactly `k` cells, cell `i` has child `2i` as head and child `2i+1` as tag.
In both forms the tail of the last cell is null and the cursor `next` of every
appended cell (`i >= 1`) is the position right after its last child. -/
theorem C19_list_chain (np : Nat → Option Rexp) (fuel : Nat) (e : Rexp) :
    (∀ cs, e.type = XT_LIST_NOTAG → e.tag = none →
      ChildrenAt np (e.data + e.len) e.data cs → 1 ≤ cs.length → cs.length < fuel →
      ∃ r, Rlist.fix_content np fuel e = some r ∧
        (∀ i, i < cs.length → ∃ c, nthCell i r = some c ∧ c.head = cs[i]? ∧ c.tag = none ∧
          (1 ≤ i → some c.next = cs[i]?.map Rexp.next) ∧
          (i + 1 = cs.length → c.tail = none)) ∧
        nthCell cs.length r = none) ∧
    (∀ ps, e.type = XT_LIST_TAG →
      PairsAt np (e.data + e.len) e.data ps → 1 ≤ ps.length → ps.length < fuel →
      ∃ r, Rlist.fix_content np fuel e = some r ∧
        (∀ i, i < ps.length → ∃ c, nthCell i r = some c ∧
          c.head = (childrenOf ps)[2 * i]? ∧ c.tag = (childrenOf ps)[2 * i + 1]? ∧
          (1 ≤ i → some c.next = (childrenOf ps)[2 * i + 1]?.map Rexp.next) ∧
          (i + 1 = ps.length → c.tail = none)) ∧
        nthCell ps.length r = none) := by
  have last : ∀ (r : Rexp) (n : Nat), nthCell n r = none →
      ∀ i c, nthCell i r = some c → i + 1 = n → c.tail = none := by
    intro r n hn i c hc hi
    rw [← hi, nthCell_succ_tail, hc] at hn
    simpa using hn
  have t1 : XT_LIST_NOTAG ≠ XT_LIST := by decide
  have t2 : XT_LIST_TAG ≠ XT_LIST := by decide
  have t3 : XT_LIST_TAG ≠ XT_LIST_NOTAG := by decide
  constructor
  · intro cs hty htag hch h1 hf
    have hloop := notagLoop_children np _ cs _ fuel hch hf
    obtain ⟨h, rest, rfl⟩ : ∃ h rest, cs = h :: rest := by
      cases cs with
      | nil => simp at h1
      | cons h rest => exact ⟨h, rest, rfl⟩
    have hfix : Rlist.fix_content np fuel e = some (.node e.info e.attr (some h)
        (Rlist.chainNotag e.type e.info.msg rest) e.tag e.cont) := by
      unfold Rlist.fix_content
      simp only [hty, if_neg t1, if_true, hloop]
    have hnone : nthCell (h :: rest).length (.node e.info e.attr (some h)
        (Rlist.chainNotag e.type e.info.msg rest) e.tag e.cont) = none := by
      exact (chainNotag_nth e.type e.info.msg rest rest.length).2 (le_refl _)
    refine ⟨_, hfix, ?_, hnone⟩
    intro i hi
    cases i with
    | zero =>
      exact ⟨_, rfl, by simp [Rexp.head], htag, fun h0 => absurd h0 (by omega),
        fun hl => last _ _ hnone 0 _ rfl hl⟩
    | succ j =>
      simp only [List.length_cons] at hi
      obtain ⟨c, hc, hh, hg, hn⟩ := (chainNotag_nth e.type e.info.msg rest j).1 (by omega)
      exact ⟨c, hc, by simpa using hh, hg, fun _ => by simpa using hn,
        fun hl => last _ _ hnone (j + 1) c hc hl⟩
  · intro ps hty hch h1 hf
    obtain ⟨p, hloop⟩ := tagLoop_pairs np _ ps _ fuel hch hf
    obtain ⟨⟨h, t⟩, rest, rfl⟩ : ∃ h rest, ps = h :: rest := by
      cases ps with
      | nil => simp at h1
      | cons h rest => exact ⟨h, rest, rfl⟩
    have hfix : Rlist.fix_content np fuel e = some (.node { e.info with next := p } e.attr
        (some h) (Rlist.chainTag e.type e.info.msg rest) (some t) e.cont) := by
      unfold Rlist.fix_content
      simp only [hty, if_neg t2, if_neg t3, if_true, hloop]
    have hnone : nthCell ((h, t) :: rest).length (.node { e.info with next := p } e.attr
        (some h) (Rlist.chainTag e.type e.info.msg rest) (some t) e.cont) = none := by
      exact (chainTag_nth e.type e.info.msg rest rest.length).2 (le_refl _)
    refine ⟨_, hfix, ?_, hnone⟩
    intro i hi
    obtain ⟨g1, g2⟩ := childrenOf_get ((h, t) :: rest) i
    rw [g1, g2]
    cases i with
    | zero =>
      exact ⟨_, rfl, by simp [Rexp.head], by simp [Rexp.tag], fun h0 => absurd h0 (by omega),
        fun hl => last _ _ hnone 0 _ rfl hl⟩
    | succ j =>
      simp only [List.length_cons] at hi
      obtain ⟨c, hc, hh, hg, hn⟩ := (chainTag_nth e.type e.info.msg rest j).1 (by omega)
      refine ⟨c, hc, by simpa using hh, by simpa using hg, fun _ => ?_,
        fun hl => last _ _ hnone (j + 1) c hc hl⟩
      rw [hn]
      simp only [List.getElem?_cons_succ, Option.map_map]
      rfl

/-- Witness of C19: the untagged list of 3 integers and the tagged list of 2
pairs, parsed by `new_parsed_Rexp`: the third cell of the first holds the third
integer and ends the chain, the second cell of the second holds the second
value with its tag. -/
theorem C19_list_chain_witness :
    (∃ r c, Rlist.fix_content (fun p => new_parsed_Rexp 1 sampleUntagged p false) 4
          (sampleNode .Rlist XT_LIST_NOTAG 24) = some r ∧
        nthCell 2 r = some c ∧ c.head = some (sampleLeaf .Rinteger XT_INT 20 none) ∧
        c.tail = none) ∧
    (∃ r c, Rlist.fix_content (fun p => new_parsed_Rexp 1 sampleTagged p false) 3
          (sampleNode .Rlist XT_LIST_TAG 32) = some r ∧
        nthCell 1 r = some c ∧ c.head = some (sampleLeaf .Rinteger XT_INT 20 none) ∧
        c.tag = some (sampleLeaf .Rsymbol XT_SYMNAME 28 (some 32))) := by
  constructor
  · obtain ⟨r, hr, hcells, -⟩ :=
      (C19_list_chain (fun p => new_parsed_Rexp 1 sampleUntagged p false) 4
        (sampleNode .Rlist XT_LIST_NOTAG 24)).1
        [sampleLeaf .Rinteger XT_INT 4 none, sampleLeaf .Rinteger XT_INT 12 none,
          sampleLeaf .Rinteger XT_INT 20 none]
        rfl rfl ⟨by decide, rfl, by decide, rfl, by decide, rfl,
          (by decide : ¬ ((28 : Nat) < 4 + 24))⟩ (by decide)
        (by decide)
    obtain ⟨c, hc, hh, -, -, ht⟩ := hcells 2 (by decide)
    exact ⟨r, c, hr, hc, hh, ht rfl⟩
  · obtain ⟨r, hr, hcells, -⟩ :=
      (C19_list_chain (fun p => new_parsed_Rexp 1 sampleTagged p false) 3
        (sampleNode .Rlist XT_LIST_TAG 32)).2
        [(sampleLeaf .Rinteger XT_INT 4 none, sampleLeaf .Rsymbol XT_SYMNAME 12 (some 16)),
          (sampleLeaf .Rinteger XT_INT 20 none, sampleLeaf .Rsymbol XT_SYMNAME 28 (some 32))]
        rfl ⟨by decide, rfl, rfl, by decide, rfl, rfl, (by decide : ¬ ((36 : Nat) < 4 + 32))⟩
        (by decide) (by decide)
    obtain ⟨c, hc, hh, hg, -, -⟩ := hcells 1 (by decide)
    exact ⟨r, c, hr, hc, hh, hg⟩

/-- The loop of `Rvector::fix_content` from any state with `count <= capacity`
and a capacity of the form `16 * 2^j`: the children are appended in order to
those already stored, and the capacity keeps that form and bounds the count. -/
theorem vectorLoop_children (np : Nat → Option Rexp) (eod : Nat) :
    ∀ (cs : List Rexp) (ptr k : Nat) (cont : List Rexp) (cap j : Nat),
      ChildrenAt np eod ptr cs → cs.length < k → cont.length ≤ cap → cap = 16 * 2 ^ j →
      ∃ cap1 j1, Rvector.loop np eod k ptr cont cap = some (cont ++ cs, cap1) ∧
        cap1 = 16 * 2 ^ j1 ∧ (cont ++ cs).length ≤ cap1 ∧ cap ≤ cap1 := by
  intro cs
  induction cs with
  | nil =>
    intro ptr k cont cap j h hk hc hj
    obtain ⟨k, rfl⟩ : ∃ i, k = i + 1 := ⟨k - 1, by simp at hk; omega⟩
    have h0 : ¬ (ptr < eod) := h
    exact ⟨cap, j, by simp [Rvector.loop, h0], hj, by simpa using hc, le_refl _⟩
  | cons c rest ih =>
    intro ptr k cont cap j h hk hc hj
    obtain ⟨k, rfl⟩ : ∃ i, k = i + 1 := ⟨k - 1, by simp at hk; omega⟩
    obtain ⟨h1, h2, h3⟩ := h
    simp only [List.length_cons] at hk
    have hpos : 0 < cap := by rw [hj]; positivity
    by_cases hfull : cont.length = cap
    · obtain ⟨cap1, j1, hl, hc1, hle, hge⟩ := ih c.next k (cont ++ [c]) (cap * 2) (j + 1) h3
        (by omega) (by simp; omega) (by rw [hj, pow_succ]; ring)
      refine ⟨cap1, j1, ?_, hc1, by simpa using hle, by omega⟩
      simp [Rvector.loop, h1, h2, hfull, hl]
    · obtain ⟨cap1, j1, hl, hc1, hle, hge⟩ := ih c.next k (cont ++ [c]) cap j h3
        (by omega) (by simp; omega) hj
      refine ⟨cap1, j1, ?_, hc1, by simpa using hle, hge⟩
      simp [Rvector.loop, h1, h2, hfull, hl]

/-- Claim C20. `Rvector::fix_content` on a node whose content is made of `k`
consecutive child encodings `cs` (any `k`), with more fuel than children: the
node ends with `count = k` and `cont[i]` the `i`-th child in wire order; its
capacity is 16 times a power of two and at least `count`. Growth preserves what
is stored: from any state of the loop holding `cont` within a capacity of that
form, the loop ends with `cont` followed by the children. -/
theorem C20_vector_children (np : Nat → Option Rexp) (fuel : Nat) (e : Rexp) (cs : List Rexp)
    (h : ChildrenAt np (e.data + e.len) e.data cs) (hf : cs.length < fuel) :
    (∃ r, Rvector.fix_content np fuel e = some r ∧ r.count = cs.length ∧
      (∀ i : Nat, r.cont[i]? = cs[i]?) ∧ (∃ j, r.info.capacity = 16 * 2 ^ j) ∧
      r.count ≤ r.info.capacity) ∧
    (∀ cont cap j, cont.length ≤ cap → cap = 16 * 2 ^ j →
      ∃ cap1 j1, Rvector.loop np (e.data + e.len) fuel e.data cont cap
          = some (cont ++ cs, cap1) ∧
        cap1 = 16 * 2 ^ j1 ∧ (cont ++ cs).length ≤ cap1) := by
  constructor
  · obtain ⟨cap1, j1, hl, hc1, hle, -⟩ :=
      vectorLoop_children np _ cs e.data fuel [] 16 0 h hf (by simp) (by norm_num)
    rw [List.nil_append] at hl hle
    refine ⟨.node { e.info with capacity := cap1 } e.attr e.head e.tail e.tag cs,
      by simp [Rvector.fix_content, hl], rfl, fun i => rfl, ⟨j1, hc1⟩, hle⟩
  · intro cont cap j hc hj
    obtain ⟨cap1, j1, hl, hc1, hle, -⟩ :=
      vectorLoop_children np _ cs e.data fuel cont cap j h hf hc hj
    exact ⟨cap1, j1, hl, hc1, hle⟩

/-- Witness of C20: the vector of 17 integers parsed by `new_parsed_Rexp` has
count 17, its last child is the one parsed at offset 132, and its capacity has
grown from 16 to 32. -/
theorem C20_vector_children_witness :
    ∃ r, Rvector.fix_content (fun p => new_parsed_Rexp 1 sampleVector p false) 18
        (sampleNode .Rvector XT_VECTOR 136) = some r ∧ r.count = 17 ∧
      r.cont[16]? = some (sampleLeaf .Rinteger XT_INT 132 none) ∧ r.info.capacity = 32 := by
  have hch : ChildrenAt (fun p => new_parsed_Rexp 1 sampleVector p false)
      ((sampleNode .Rvector XT_VECTOR 136).data + (sampleNode .Rvector XT_VECTOR 136).len)
      (sampleNode .Rvector XT_VECTOR 136).data sampleVectorChildren :=
    ⟨by decide, rfl, by decide, rfl, by decide, rfl, by decide, rfl, by decide, rfl,
      by decide, rfl, by decide, rfl, by decide, rfl, by decide, rfl, by decide, rfl,
      by decide, rfl, by decide, rfl, by decide, rfl, by decide, rfl, by decide, rfl,
      by decide, rfl, by decide, rfl, (by decide : ¬ ((140 : Nat) < 4 + 136))⟩
  obtain ⟨r, hr, hcount, hget, -, -⟩ :=
    (C20_vector_children (fun p => new_parsed_Rexp 1 sampleVector p false) 18
      (sampleNode .Rvector XT_VECTOR 136) sampleVectorChildren hch (by decide)).1
  have hcap : (Rvector.fix_content (fun p => new_parsed_Rexp 1 sampleVector p false) 18
      (sampleNode .Rvector XT_VECTOR 136)).map (fun r => r.info.capacity) = some 32 := by
    decide
  rw [hr] at hcap
  exact ⟨r, hr, hcount, hget 16, by simpa using hcap⟩

theorem parse_len_lt (p1 p2 : Nat) (large : Bool) (h1 : p1 < 4294967296) :
    (if large then (p1 >>> 8) ||| ((p2 <<< 24) % Rsize_max) else p1 >>> 8) < 4294967296 := by
  have ha : p1 >>> 8 < 2 ^ 32 := by
    rw [Nat.shiftRight_eq_div_pow]
    have : p1 / 2 ^ 8 ≤ p1 := Nat.div_le_self _ _
    omega
  have hb : (p2 <<< 24) % Rsize_max < 2 ^ 32 := by
    unfold Rsize_max
    omega
  split_ifs
  · exact Nat.or_lt_two_pow ha hb
  · omega

/-- The base constructor returns a node whenever the parser returns one at
every later position (only the attribute is parsed from it): the content starts
after the header, `next` is the end of the content, and `len` fits 32 bits. -/
theorem ofPos_total (np : Nat → Option Rexp) (mem : List Nat) (d : Nat) (msg : Bool)
    (hnp : ∀ p, d < p → ∃ v, np p = some v ∧ p + 4 ≤ v.next) :
    ∃ e, Rexp.ofPos np mem d msg = some e ∧ d + 4 ≤ e.data ∧ e.next = e.data + e.len ∧
      e.len < 4294967296 ∧ e.head = none ∧ e.tail = none ∧ e.tag = none := by
  have hlen := parse_len_lt (ptoi (loadWord mem d)) (ptoi (loadWord mem (d + 4)))
    (decide ((ptoi (loadWord mem d) &&& XT_LARGE) > 0)) (loadWord_lt mem d)
  have hhl : d + 4 ≤ d + 4 * (if (decide ((ptoi (loadWord mem d) &&& XT_LARGE) > 0)) = true
      then 2 else 1) := by split_ifs <;> omega
  unfold Rexp.ofPos Rexp.parse
  simp only []
  by_cases hattr : (ptoi (loadWord mem d) &&& XT_HAS_ATTR) ≠ 0
  · rw [if_pos hattr]
    obtain ⟨a, ha, han⟩ := hnp _ (show d < d + 4 * (if (decide ((ptoi (loadWord mem d)
      &&& XT_LARGE) > 0)) = true then 2 else 1) by omega)
    simp only [ha]
    refine ⟨_, rfl, ?_, ?_, ?_, rfl, rfl, rfl⟩
    · show d + 4 ≤ a.next
      omega
    · rfl
    · show (_ % Rsize_max) < 4294967296
      unfold Rsize_max
      omega
  · rw [if_neg hattr]
    refine ⟨_, rfl, ?_, ?_, ?_, rfl, rfl, rfl⟩
    · exact hhl
    · rfl
    · exact hlen

theorem notagLoop_total (np : Nat → Option Rexp) (eod lo : Nat)
    (hnp : ∀ p, lo ≤ p → ∃ v, np p = some v ∧ p + 4 ≤ v.next) :
    ∀ (k ptr : Nat), lo ≤ ptr → 1 ≤ k → eod + 4 ≤ ptr + 4 * k →
      ∃ l, Rlist.notagLoop np eod k ptr = some l := by
  intro k
  induction k with
  | zero => intro ptr _ h1; omega
  | succ k ih =>
    intro ptr hlo _ hk
    unfold Rlist.notagLoop
    by_cases hp : ptr < eod
    · rw [if_pos hp]
      obtain ⟨h, hh, hn⟩ := hnp ptr hlo
      obtain ⟨l, hl⟩ := ih h.next (by omega) (by omega) (by omega)
      exact ⟨h :: l, by simp [hh, hl]⟩
    · rw [if_neg hp]; exact ⟨[], rfl⟩

theorem tagLoop_total (np : Nat → Option Rexp) (eod lo : Nat)
    (hnp : ∀ p, lo ≤ p → ∃ v, np p = some v ∧ p + 4 ≤ v.next) :
    ∀ (k ptr : Nat), lo ≤ ptr → 1 ≤ k → eod + 4 ≤ ptr + 4 * k →
      ∃ l p, Rlist.tagLoop np eod k ptr = some (l, p) ∧ ptr ≤ p := by
  intro k
  induction k with
  | zero => intro ptr _ h1; omega
  | succ k ih =>
    intro ptr hlo _ hk
    unfold Rlist.tagLoop
    by_cases hp : ptr < eod
    · rw [if_pos hp]
      obtain ⟨h, hh, hn⟩ := hnp ptr hlo
      obtain ⟨t, ht, htn⟩ := hnp h.next (by omega)
      obtain ⟨l, p, hl, hle⟩ := ih t.next (by omega) (by omega) (by omega)
      exact ⟨(h, t) :: l, p, by simp [hh, ht, hl], by omega⟩
    · rw [if_neg hp]; exact ⟨[], ptr, rfl, le_refl _⟩

theorem vectorLoop_total (np : Nat → Option Rexp) (eod lo : Nat)
    (hnp : ∀ p, lo ≤ p → ∃ v, np p = some v ∧ p + 4 ≤ v.next) :
    ∀ (k ptr : Nat) (cont : List Rexp) (cap : Nat), lo ≤ ptr → 1 ≤ k →
      eod + 4 ≤ ptr + 4 * k → ∃ r, Rvector.loop np eod k ptr cont cap = some r := by
  intro k
  induction k with
  | zero => intro ptr _ _ _ h1; omega
  | succ k ih =>
    intro ptr cont cap hlo _ hk
    unfold Rvector.loop
    by_cases hp : ptr < eod
    · rw [if_pos hp]
      obtain ⟨h, hh, hn⟩ := hnp ptr hlo
      simp only [hh]
      exact ih h.next _ _ (by omega) (by omega) (by omega)
    · rw [if_neg hp]; exact ⟨_, rfl⟩

theorem withInfo_info (e : Rexp) (i : RexpInfo) : (e.withInfo i).info = i := by
  cases e; rfl

/-- `Rlist::fix_content` returns on a fresh node whose content starts at or
after `lo`, when the parser returns at every position from `lo` on and the fuel
covers the content; the cursor `next` does not move before the content. -/
theorem listFix_total (np : Nat → Option Rexp) (lo k : Nat) (e : Rexp)
    (hnp : ∀ p, lo ≤ p → ∃ v, np p = some v ∧ p + 4 ≤ v.next)
    (hd : lo ≤ e.data) (hn : e.data ≤ e.next) (hk : e.len + 4 ≤ 4 * k) :
    ∃ r, Rlist.fix_content np k e = some r ∧ e.data ≤ r.next := by
  have hk1 : 1 ≤ k := by omega
  unfold Rlist.fix_content
  simp only []
  split_ifs with h1 h2 h3
  · obtain ⟨hd1, hh, hhn⟩ := hnp e.data hd
    simp only [hh]
    by_cases g1 : hd1.next < e.data + e.len
    · rw [if_pos g1]
      obtain ⟨tl, ht, htn⟩ := hnp hd1.next (by omega)
      simp only [ht]
      by_cases g2 : tl.next < e.data + e.len
      · rw [if_pos g2]
        obtain ⟨tg, hg, -⟩ := hnp tl.next (by omega)
        simp only [hg]
        exact ⟨_, rfl, hn⟩
      · rw [if_neg g2]
        exact ⟨_, rfl, hn⟩
    · rw [if_neg g1]
      exact ⟨_, rfl, hn⟩
  · obtain ⟨l, hl⟩ := notagLoop_total np (e.data + e.len) lo hnp k e.data hd hk1 (by omega)
    rw [hl]
    cases l with
    | nil => exact ⟨_, rfl, hn⟩
    | cons h rest => exact ⟨_, rfl, hn⟩
  · obtain ⟨l, p, hl, hp⟩ := tagLoop_total np (e.data + e.len) lo hnp k e.data hd hk1 (by omega)
    rw [hl]
    cases l with
    | nil =>
      refine ⟨_, rfl, ?_⟩
      show e.data ≤ (e.withInfo { e.info with next := p }).info.next
      rw [withInfo_info]
      exact hp
    | cons h rest =>
      obtain ⟨h1, h2⟩ := h
      exact ⟨_, rfl, hp⟩
  · exact ⟨_, rfl, hn⟩

theorem vectorFix_total (np : Nat → Option Rexp) (lo k : Nat) (e : Rexp)
    (hnp : ∀ p, lo ≤ p → ∃ v, np p = some v ∧ p + 4 ≤ v.next)
    (hd : lo ≤ e.data) (hk : e.len + 4 ≤ 4 * k) :
    ∃ r, Rvector.fix_content np k e = some r ∧ r.next = e.next := by
  obtain ⟨⟨cont, cap⟩, hr⟩ := vectorLoop_total np (e.data + e.len) lo hnp k e.data [] 16 hd
    (by omega) (by omega)
  exact ⟨.node { e.info with capacity := cap } e.attr e.head e.tail e.tag cont,
    by simp only [Rvector.fix_content, hr], rfl⟩

theorem asClass_info (e : Rexp) (c : RClass) : (e.asClass c).info = { e.info with cls := c } := by
  unfold Rexp.asClass
  rw [withInfo_info]

theorem byteAt_out (mem : List Nat) (i : Nat) (h : mem.length ≤ i) : byteAt mem i = 0 := by
  unfold byteAt
  rw [List.getD_eq_getElem?_getD, List.getElem?_eq_none h]
  rfl

/-- Past the end of the block the parser reads an empty header and returns a
plain node without content. -/
theorem new_parsed_Rexp_leaf (mem : List Nat) (fuel d : Nat) (msg : Bool)
    (h : mem.length ≤ d) :
    ∃ v, new_parsed_Rexp (fuel + 1) mem d msg = some v ∧ d + 4 ≤ v.next := by
  have h0 : loadWord mem d = 0 := by
    unfold loadWord
    rw [byteAt_out mem d h, byteAt_out mem (d + 1) (by omega), byteAt_out mem (d + 2) (by omega),
      byteAt_out mem (d + 3) (by omega)]
  refine ⟨.node { cls := .Rexp, type := 0, len := 0, pos := d, data := d + 4, next := d + 4,
                  msg := msg, master := .null, rcount := 0, own := [], capacity := 0,
                  name := none }
    none none none none [], ?_, le_refl _⟩
  unfold new_parsed_Rexp
  simp [Rexp.ofPos, Rexp.parse, ptoi, h0, Rexp.withInfo, Rexp.info, Rexp.attr, Rexp.head,
    Rexp.tail, Rexp.tag, Rexp.cont, XT_ARRAY_INT, XT_INT, XT_ARRAY_DOUBLE, XT_DOUBLE, XT_LIST,
    XT_LIST_NOTAG, XT_LIST_TAG, XT_VECTOR, XT_STR, XT_SYM, XT_SYMNAME, XT_ARRAY_STR]

/-- One level of the parser: it returns at `d` when it returns, with one unit of
fuel less, at every later position, and the fuel covers a content of 32-bit
length. -/
theorem new_parsed_Rexp_step (mem : List Nat) (fuel d : Nat) (msg : Bool)
    (hnp : ∀ p, d < p → ∃ v, new_parsed_Rexp fuel mem p false = some v ∧ p + 4 ≤ v.next)
    (hf : 1073741825 ≤ fuel) :
    ∃ v, new_parsed_Rexp (fuel + 1) mem d msg = some v ∧ d + 4 ≤ v.next := by
  obtain ⟨e, he, hd, hn, hl, -, -, -⟩ :=
    ofPos_total (fun p => new_parsed_Rexp fuel mem p false) mem d msg hnp
  have hnp1 : ∀ p, d + 1 ≤ p →
      ∃ v, (fun p => new_parsed_Rexp fuel mem p false) p = some v ∧ p + 4 ≤ v.next :=
    fun p hp => hnp p (by omega)
  have hcls : ∀ c, d + 4 ≤ (e.asClass c).next := by
    intro c
    show d + 4 ≤ (e.asClass c).info.next
    rw [asClass_info]
    show d + 4 ≤ e.next
    omega
  unfold new_parsed_Rexp
  simp only [he]
  split_ifs
  · exact ⟨_, rfl, hcls _⟩
  · exact ⟨_, rfl, hcls _⟩
  · have hi := asClass_info e .Rlist
    obtain ⟨r, hr, hrn⟩ := listFix_total (fun p => new_parsed_Rexp fuel mem p false) (d + 1)
      fuel (e.asClass .Rlist) hnp1
      (by show d + 1 ≤ (e.asClass .Rlist).info.data; rw [hi]; show d + 1 ≤ e.data; omega)
      (by show (e.asClass .Rlist).info.data ≤ (e.asClass .Rlist).info.next; rw [hi]
          show e.data ≤ e.next; omega)
      (by show (e.asClass .Rlist).info.len + 4 ≤ 4 * fuel; rw [hi]
          show e.len + 4 ≤ 4 * fuel; omega)
    refine ⟨r, hr, ?_⟩
    have : (e.asClass .Rlist).data = e.data := by
      show (e.asClass .Rlist).info.data = _; rw [hi]; rfl
    omega
  · have hi := asClass_info e .Rvector
    obtain ⟨r, hr, hrn⟩ := vectorFix_total (fun p => new_parsed_Rexp fuel mem p false) (d + 1)
      fuel (e.asClass .Rvector) hnp1
      (by show d + 1 ≤ (e.asClass .Rvector).info.data; rw [hi]; show d + 1 ≤ e.data; omega)
      (by show (e.asClass .Rvector).info.len + 4 ≤ 4 * fuel; rw [hi]
          show e.len + 4 ≤ 4 * fuel; omega)
    refine ⟨r, hr, ?_⟩
    rw [hrn]
    exact hcls _
  · exact ⟨_, rfl, hcls _⟩
  · refine ⟨_, rfl, ?_⟩
    show d + 4 ≤ (Rsymbol.fix_content mem (e.asClass .Rsymbol)).info.next
    unfold Rsymbol.fix_content
    simp only [withInfo_info]
    exact hcls _
  · exact ⟨_, rfl, hcls _⟩
  · refine ⟨_, rfl, ?_⟩
    show d + 4 ≤ e.next
    omega

/-- The parser is total: with fuel beyond `2^30 + 2` plus the size of the block
it returns a node at every position, and the node ends after its header. -/
theorem new_parsed_Rexp_total (mem : List Nat) :
    ∀ (n d : Nat), mem.length ≤ d + n → ∀ (fuel : Nat) (msg : Bool), 1073741826 + n ≤ fuel →
      ∃ v, new_parsed_Rexp fuel mem d msg = some v ∧ d + 4 ≤ v.next := by
  intro n
  induction n with
  | zero =>
    intro d hd fuel msg hf
    obtain ⟨f, rfl⟩ : ∃ f, fuel = f + 1 := ⟨fuel - 1, by omega⟩
    exact new_parsed_Rexp_leaf mem f d msg (by omega)
  | succ n ih =>
    intro d hd fuel msg hf
    obtain ⟨f, rfl⟩ : ∃ f, fuel = f + 1 := ⟨fuel - 1, by omega⟩
    exact new_parsed_Rexp_step mem f d msg
      (fun p hp => ih p (by omega) f false (by omega)) (by omega)

/-- In a framed message the first recorded parameter, if any, is at offset 0,
and a message with one parameter has a non-zero declared length. -/
theorem framed_par (m : Rmessage) (hf : m.Framed) :
    m.par.getD 0 0 = 0 ∧ (m.pars = 1 → m.head.len ≠ 0) := by
  obtain ⟨h1, h2, -, -, h5, h6⟩ := hf
  unfold Rmessage.parse at h5 h6
  by_cases hl : m.len < 4
  · rw [if_pos hl] at h5 h6
    have h5a : m.pars = 0 := h5
    have h6a : m.par = [] := h6
    exact ⟨by rw [h6a]; rfl, fun h => by omega⟩
  · rw [if_neg hl] at h5 h6
    have h6a : m.par = Rmessage.parseLoop m.data m.len 16 0 := h6
    constructor
    · rw [h6a]
      have e : Rmessage.parseLoop m.data m.len 16 0 = Rmessage.parseLoop m.data m.len (15 + 1) 0 :=
        rfl
      rw [e]
      unfold Rmessage.parseLoop
      split_ifs <;> rfl
    · intro _
      rw [h1]
      unfold toInt32
      rw [Nat.mod_eq_of_lt h2]
      split_ifs <;> omega

theorem heap_get_lt (h : Heap) (a : Nat) (c : Cell) (hg : h.get a = some c) :
    a < h.cells.length := by
  unfold Heap.get at hg
  by_contra hn
  rw [List.getD_eq_getElem?_getD, List.getElem?_eq_none (by omega)] at hg
  simp at hg

theorem heap_get_put (h : Heap) (a : Nat) (c : Option Cell) (ha : a < h.cells.length) :
    (h.put a c).get a = c := by
  unfold Heap.get Heap.put
  rw [List.getD_eq_getElem?_getD]
  simp [ha]

theorem heap_get_put_ne (h : Heap) (a b : Nat) (c : Option Cell) (hab : a ≠ b) :
    (h.put a c).get b = h.get b := by
  unfold Heap.get Heap.put
  rw [List.getD_eq_getElem?_getD, List.getD_eq_getElem?_getD]
  simp [List.getElem?_set_ne hab]

theorem heap_put_put (h : Heap) (a : Nat) (c1 c2 : Option Cell) :
    (h.put a c1).put a c2 = h.put a c2 := by
  simp [Heap.put]

theorem heap_put_length (h : Heap) (a : Nat) (c : Option Cell) :
    (h.put a c).cells.length = h.cells.length := by
  simp [Heap.put]

/-- Destruction of a node that is its own master and has no attribute and no
message: its `data` is passed to `free` and the node is deallocated, whatever
`rcount` is. -/
theorem delete_self_master (f : Nat) (h : Heap) (a : Nat) (c : Cell)
    (hg : h.get a = some c) (hattr : c.attr = none) (hself : c.master = some a)
    (hmsg : c.msg = none) :
    Rexp.delete (f + 1) h a = some ({ h with freed := h.freed ++ [c.data] }.put a none) := by
  have hlt := heap_get_lt h a c hg
  unfold Rexp.delete
  simp only [hg, hattr, hself, if_true]
  rw [heap_get_put _ _ _ (by exact hlt)]
  simp only [hmsg, heap_put_put]

/-- Destruction of a node without attribute and master that holds a message
while `rcount > 0`: a diagnostic is printed, nothing is freed or deleted, and the
node is deallocated. -/
theorem delete_msg_master_refuses (f : Nat) (h : Heap) (a : Nat) (c : Cell) (q : Nat)
    (hg : h.get a = some c) (hattr : c.attr = none) (hm : c.master = none)
    (hmsg : c.msg = some q) (hrc : c.rcount > 0) :
    Rexp.delete (f + 1) h a = some ({ h with warnings := h.warnings + 1 }.put a none) := by
  have hlt := heap_get_lt h a c hg
  unfold Rexp.delete
  simp only [hg, hattr, hm]
  rw [heap_get_put _ _ _ hlt]
  simp [hmsg, hrc, Heap.put]

/-- Registration of a node without master as a dependent of another live node
through `set_master`: the master pointer is set and the count of the master goes
up by one. -/
theorem set_master_registers (h : Heap) (a d : Nat) (c cd : Cell)
    (hg : h.get a = some c) (hd : h.get d = some cd) (hdm : cd.master = none) (hda : d ≠ a) :
    Rexp.set_master h d (some a)
      = some ((h.put d (some { cd with master := some a })).put a
          (some { c with rcount := c.rcount + 1 })) := by
  have hlt := heap_get_lt h d cd hd
  unfold Rexp.set_master
  simp only [hd, hdm, Heap.incr]
  rw [heap_get_put_ne _ _ _ _ hda, hg]

/-- Destruction of a dependent (no attribute, no message, another live node as
master): the count of the master goes down by one and the dependent is
deallocated; nothing is freed. -/
theorem delete_dependent (f : Nat) (h : Heap) (a d : Nat) (cM c : Cell)
    (hg : h.get a = some cM) (hd : h.get d = some c) (hda : d ≠ a)
    (hattr : c.attr = none) (hm : c.master = some a) (hmsg : c.msg = none) :
    Rexp.delete (f + 1) h d
      = some ((h.put a (some { cM with rcount := cM.rcount - 1 })).put d none) := by
  have hlt := heap_get_lt h d c hd
  have had : ¬ (a = d) := fun e => hda e.symm
  unfold Rexp.delete
  simp only [hd, hattr, hm, if_neg had, Heap.decr, hg, Option.map_some']
  rw [heap_get_put _ _ _ (by rw [heap_put_length]; exact hlt)]
  simp only [hmsg, heap_put_put]

/-- Destruction of the dependents of a master, in any order: the count of the
master goes down by their number, every dependent is deallocated, nothing is
freed or deleted. -/
theorem deleteAll_dependents (f : Nat) (a : Nat) :
    ∀ (ds : List Nat) (h : Heap) (cM : Cell), h.get a = some cM → ds.Nodup → a ∉ ds →
      (∀ d, d ∈ ds → ∃ c, h.get d = some c ∧ c.attr = none ∧ c.master = some a ∧ c.msg = none) →
      ∃ h1, Rexp.deleteAll (f + 1) h ds = some h1 ∧
        h1.get a = some { cM with rcount := cM.rcount - ds.length } ∧
        h1.freed = h.freed ∧ h1.deleted = h.deleted ∧ h1.warnings = h.warnings ∧
        (∀ d, d ∈ ds → h1.get d = none) ∧
        (∀ x, x ∉ ds → x ≠ a → h1.get x = h.get x) := by
  intro ds
  induction ds with
  | nil =>
    intro h cM hg _ _ _
    exact ⟨h, rfl, by simpa using hg, rfl, rfl, rfl, fun d hd => by simp at hd,
      fun _ _ _ => rfl⟩
  | cons d ds ih =>
    intro h cM hg hnd hna hdep
    obtain ⟨c, hd, hattr, hm, hmsg⟩ := hdep d (List.mem_cons_self _ _)
    have hda : d ≠ a := fun e => hna (e ▸ List.mem_cons_self _ _)
    have hstep := delete_dependent f h a d cM c hg hd hda hattr hm hmsg
    have hga : ((h.put a (some { cM with rcount := cM.rcount - 1 })).put d none).get a
        = some { cM with rcount := cM.rcount - 1 } := by
      rw [heap_get_put_ne _ _ _ _ hda, heap_get_put _ _ _ (heap_get_lt h a cM hg)]
    obtain ⟨hnd1, hnd2⟩ := List.nodup_cons.1 hnd
    obtain ⟨h1, e1, e2, e3, e4, e5, e6, e7⟩ := ih _ _ hga hnd2
      (fun hm => hna (List.mem_cons_of_mem _ hm))
      (fun d1 hd1 => by
        obtain ⟨c1, g1, g2⟩ := hdep d1 (List.mem_cons_of_mem _ hd1)
        have n1 : d ≠ d1 := fun e => hnd1 (e ▸ hd1)
        have n2 : a ≠ d1 := fun e => hna (e ▸ List.mem_cons_of_mem _ hd1)
        exact ⟨c1, by rw [heap_get_put_ne _ _ _ _ n1, heap_get_put_ne _ _ _ _ n2]; exact g1, g2⟩)
    have hdl : d < (h.put a (some { cM with rcount := cM.rcount - 1 })).cells.length := by
      rw [heap_put_length]; exact heap_get_lt h d c hd
    refine ⟨h1, ?_, ?_, e3, e4, e5, ?_, ?_⟩
    · simp only [Rexp.deleteAll, hstep]
      exact e1
    · rw [e2]
      simp only [List.length_cons, Nat.cast_add, Nat.cast_one]
      congr 2
      ring
    · intro d1 hd1
      rcases List.mem_cons.1 hd1 with e | hm1
      · subst e
        rw [e7 d1 hnd1 hda]
        exact heap_get_put _ _ _ hdl
      · exact e6 d1 hm1
    · intro x hx hxa
      have hxd : d ≠ x := fun e => hx (e ▸ List.mem_cons_self _ _)
      rw [e7 x (fun hm => hx (List.mem_cons_of_mem _ hm)) hxa,
        heap_get_put_ne _ _ _ _ hxd, heap_get_put_ne _ _ _ _ (Ne.symm hxa)]

/-- The part of the reference-counting rule that the code keeps: when the
dependents of a master (nodes without attribute and message whose master it is)
are destroyed in any order and then the master, a master that owns its block
passes it to `free` exactly once, and a master that holds a message counted by
exactly these dependents deletes the message exactly once. -/
theorem dependents_then_master (f : Nat) (h : Heap) (a : Nat) (cM : Cell) (ds : List Nat)
    (hg : h.get a = some cM) (hattr : cM.attr = none) (hnd : ds.Nodup) (hna : a ∉ ds)
    (hdep : ∀ d, d ∈ ds →
      ∃ c, h.get d = some c ∧ c.attr = none ∧ c.master = some a ∧ c.msg = none) :
    (cM.master = some a → cM.msg = none →
      ∃ h2, (Rexp.deleteAll (f + 1) h ds).bind (fun h1 => Rexp.delete (f + 1) h1 a) = some h2 ∧
        h2.freed = h.freed ++ [cM.data] ∧ h2.deleted = h.deleted) ∧
    (∀ q, cM.master = none → cM.msg = some q → cM.rcount = ds.length →
      ∃ h2, (Rexp.deleteAll (f + 1) h ds).bind (fun h1 => Rexp.delete (f + 1) h1 a) = some h2 ∧
        h2.freed = h.freed ∧ h2.deleted = h.deleted ++ [q] ∧ h2.warnings = h.warnings) := by
  obtain ⟨h1, e1, e2, e3, e4, e5, -, -⟩ := deleteAll_dependents f a ds h cM hg hnd hna hdep
  have hlt := heap_get_lt h1 a _ e2
  constructor
  · intro hself hmsg
    rw [e1, Option.some_bind, delete_self_master f h1 a _ e2 hattr hself hmsg]
    exact ⟨_, rfl, by simp [Heap.put, e3], by simp [Heap.put, e4]⟩
  · intro q hm hmsg hrc
    rw [e1, Option.some_bind]
    unfold Rexp.delete
    simp only [e2, hattr, hm]
    rw [heap_get_put _ _ _ hlt]
    have h0 : ¬ (cM.rcount - (ds.length : Int) > 0) := by omega
    simp only [hmsg, if_neg h0]
    exact ⟨_, rfl, by simp [Heap.put, e3], by simp [Heap.put, e4], by simp [Heap.put, e5]⟩

/-- The header size and declared length that `Rexp::parse` decodes at `pos` are
those of the tagged-length header there. -/
theorem parse_header (mem : List Nat) (pos : Nat) :
    pos + 4 * (if (decide ((ptoi (loadWord mem pos) &&& XT_LARGE) > 0)) = true then 2 else 1)
        = pos + (parHeader mem pos).1 ∧
    (if (decide ((ptoi (loadWord mem pos) &&& XT_LARGE) > 0)) = true
      then (ptoi (loadWord mem pos) >>> 8) |||
        ((ptoi (loadWord mem (pos + 4)) <<< 24) % Rsize_max)
      else ptoi (loadWord mem pos) >>> 8) = (parHeader mem pos).2 := by
  unfold parHeader
  simp only [XT_LARGE, DT_LARGE, decide_eq_true_eq]
  split_ifs <;> simp

theorem parHeader_len_lt (mem : List Nat) (pos : Nat) : (parHeader mem pos).2 < 4294967296 := by
  rw [← (parse_header mem pos).2]
  exact parse_len_lt _ _ _ (loadWord_lt mem pos)

/-- Claim C21. `Rexp::parse` at `pos`, the header there having size `h` (4 bytes,
or 8 in the large form) and declared length `L`. When the has-attributes bit is
set and the attribute node parsed at the header end consumes `a <= L` bytes, the
content starts at the header end plus `a`, the content length is `L - a`, the
attribute is the node parsed there, and the cursor returned is the header end
plus `L`. That is the cursor returned when the bit is not set, where the content
starts at the header end and has length `L`. -/
theorem C21_parse_with_attribute (np : Nat → Option Rexp) (mem : List Nat) (this : Rexp)
    (pos : Nat) :
    (∀ atr a, (ptoi (loadWord mem pos) &&& XT_HAS_ATTR) ≠ 0 →
      np (pos + (parHeader mem pos).1) = some atr →
      atr.next = pos + (parHeader mem pos).1 + a → a ≤ (parHeader mem pos).2 →
      ∃ e, Rexp.parse np mem this pos
          = some (e, pos + (parHeader mem pos).1 + (parHeader mem pos).2) ∧
        e.data = pos + (parHeader mem pos).1 + a ∧ e.len = (parHeader mem pos).2 - a ∧
        e.info.pos = pos ∧
        (e.attr = some atr ∨ e.attr = some (atr.withInfo { atr.info with master := .other }))) ∧
    ((ptoi (loadWord mem pos) &&& XT_HAS_ATTR) = 0 →
      ∃ e, Rexp.parse np mem this pos
          = some (e, pos + (parHeader mem pos).1 + (parHeader mem pos).2) ∧
        e.data = pos + (parHeader mem pos).1 ∧ e.len = (parHeader mem pos).2 ∧
        e.attr = this.attr) := by
  obtain ⟨hd, hl⟩ := parse_header mem pos
  have hlt := parHeader_len_lt mem pos
  constructor
  · intro atr a hbit hat hnext hle
    unfold Rexp.parse
    simp only []
    rw [if_pos hbit, hd, hl, hat]
    simp only [hnext]
    have e1 : pos + (parHeader mem pos).1 + a - (pos + (parHeader mem pos).1) = a := by omega
    have e2 : ((parHeader mem pos).2 + Rsize_max - a % Rsize_max) % Rsize_max
        = (parHeader mem pos).2 - a := by
      unfold Rsize_max
      omega
    have e3 : pos + (parHeader mem pos).1 + a + ((parHeader mem pos).2 - a)
        = pos + (parHeader mem pos).1 + (parHeader mem pos).2 := by omega
    rw [e1, e2, e3]
    refine ⟨_, rfl, rfl, rfl, rfl, ?_⟩
    simp only [Rexp.attr]
    split_ifs
    · exact Or.inr rfl
    · exact Or.inl rfl
  · intro hbit
    unfold Rexp.parse
    simp only []
    rw [if_neg (fun h => h hbit), hd, hl]
    exact ⟨_, rfl, rfl, rfl, rfl⟩

/-- Witness of C21: an integer array with the has-attributes bit (header
`(32 | 128, 16)`), a string attribute of 8 bytes and 8 bytes of content: the
content starts at 12 with length 8 and the cursor returned is 20. -/
theorem C21_parse_with_attribute_witness :
    ∃ e, Rexp.parse (fun p => new_parsed_Rexp 1 sampleAttributed p false) sampleAttributed
        (sampleNode .Rexp 0 0) 0 = some (e, 20) ∧ e.data = 12 ∧ e.len = 8 ∧
      (e.attr = some (sampleLeaf .Rstring XT_STR 4 none) ∨
        e.attr = some ((sampleLeaf .Rstring XT_STR 4 none).withInfo
          { (sampleLeaf .Rstring XT_STR 4 none).info with master := .other })) := by
  obtain ⟨e, he, hd, hl, -, ha⟩ :=
    (C21_parse_with_attribute (fun p => new_parsed_Rexp 1 sampleAttributed p false)
      sampleAttributed (sampleNode .Rexp 0 0) 0).1 (sampleLeaf .Rstring XT_STR 4 none) 8
      (by decide) rfl rfl (by decide)
  exact ⟨e, he, hd, hl, ha⟩

theorem parHeader_size (data : List Nat) (c : Nat) :
    (parHeader data c).1 = 4 ∨ (parHeader data c).1 = 8 := by
  unfold parHeader
  simp only []
  split_ifs
  · exact Or.inr rfl
  · exact Or.inl rfl

theorem parHeader_empty (data : List Nat) (c : Nat) (h : loadWord data c < 64) :
    parHeader data c = (4, 0) := by
  unfold parHeader
  simp only [ptoi]
  have h1 : loadWord data c &&& DT_LARGE = 0 := (low_bits_small _ h).1
  have h2 : loadWord data c >>> 8 = 0 := by
    rw [Nat.shiftRight_eq_div_pow]
    exact Nat.div_eq_of_lt (by omega)
  simp [h1, h2]

/-- Claim C22, the code at the failing input: a payload of 5 to 7 bytes that
starts with a parameter header of declared length 0 (small form). `parse` has no
test but `c < eop`: it records a second parameter at offset 4 and loads its
header word (4 bytes, and 4 more when the large bit is set there) although fewer
than 4 bytes of the payload are left, and stage 4 of `read` returns 0 with the
message complete; nothing returns -8. -/
theorem C22_parse_reads_past_payload (m : Rmessage) (s : Socket) (h4 : m.receiving = 4)
    (hl : 4 < m.len) (hl8 : m.len < 8) (hw : loadWord m.data 0 < 64) :
    m.parse.par = [0, 4] ∧ m.parse.pars = 2 ∧
      (4, (parHeader m.data 4).1) ∈ m.parseReads ∧ m.len < 4 + (parHeader m.data 4).1 ∧
      Rmessage.read4 m s = some (0, { m.parse with complete := 1 }, s) := by
  have h0 := parHeader_empty m.data 0 hw
  have hs := parHeader_size m.data 4
  have hloop : Rmessage.parseLoop m.data m.len 16 0 = [0, 4] := by
    have e : Rmessage.parseLoop m.data m.len 16 0
        = Rmessage.parseLoop m.data m.len (14 + 1 + 1) 0 := rfl
    rw [e]
    unfold Rmessage.parseLoop
    rw [if_pos (by omega), h0]
    unfold Rmessage.parseLoop
    rw [if_pos (by omega)]
    have e2 : Rmessage.parseLoop m.data m.len 14
        (0 + 4 + 0 + (parHeader m.data (0 + 4 + 0)).1 + (parHeader m.data (0 + 4 + 0)).2) = [] := by
      have e3 : (14 : Nat) = 13 + 1 := rfl
      rw [e3]
      unfold Rmessage.parseLoop
      rw [if_neg (by
        have : (0 : Nat) + 4 + 0 = 4 := rfl
        rw [this]
        omega)]
    rw [e2]
    rfl
  have hn : ¬ (m.len < 4) := by omega
  refine ⟨?_, ?_, ?_, by omega, ?_⟩
  · simp [Rmessage.parse, hn, hloop]
  · simp [Rmessage.parse, hn, hloop]
  · simp [Rmessage.parseReads, hn, hloop]
  · simp [Rmessage.read4, h4]

/-- Witness of C22: a response announcing 5 payload bytes `0 0 0 0 9`: the scan
loads 4 bytes at offset 4, where one byte of the payload is left, and `read`
returns 0 with two parameters recorded. -/
theorem C22_parse_reads_past_payload_witness :
    (4, 4) ∈ Rmessage.parseReads
      { Rmessage.empty with
        receiving := 4, len := 5, data := [0, 0, 0, 0, 9], head := ⟨65537, 5, 0, 0⟩ } ∧
    (Rmessage.read false 0 Rmessage.empty
        ⟨[.bytes [1, 0, 1, 0, 5, 0, 0, 0, 0, 0, 0, 0, 0, 0, 0, 0], .bytes [0, 0, 0, 0, 9]],
          false⟩).map (fun r => (r.1, r.2.1.len, r.2.1.pars, r.2.1.par, r.2.1.complete))
      = some (0, 5, 2, [0, 4], 1) :=
  ⟨(C22_parse_reads_past_payload
      { Rmessage.empty with
        receiving := 4, len := 5, data := [0, 0, 0, 0, 9], head := ⟨65537, 5, 0, 0⟩ }
      ⟨[], false⟩ rfl (by decide) (by decide) (by decide)).2.2.1,
    by decide⟩

theorem recv_eof (rest : List SockEvent) (k : Nat) :
    recv ⟨.eof :: rest, false⟩ k = (.ok [], ⟨.eof :: rest, false⟩) := by
  simp [recv]

/-- After the close of the peer the loop that skips the auxiliary data makes no
progress: every turn receives zero bytes and leaves `head.dof` as it is, so the
loop is still running whatever the fuel. -/
theorem skipLoop_eof (mf : Bool) (rest : List SockEvent) :
    ∀ (fuel : Nat) (m : Rmessage), m.head.dof > 0 →
      Rmessage.skipLoop mf fuel m ⟨.eof :: rest, false⟩ = none := by
  intro fuel
  induction fuel with
  | zero => intro m _; rfl
  | succ k ih =>
    intro m hd
    unfold Rmessage.skipLoop
    rw [if_pos hd, recv_eof]
    simp only []
    apply ih
    show m.head.dof - ((([] : List Nat).length : Nat) : Int) > 0
    simpa using hd

/-- Claim C23, the code at the failing input: in stage 1 of `Rmessage::read` with
auxiliary length `head.dof > 0`, once the peer has closed every `recv` of the loop
returns 0: the turn neither returns from the call (only `n == -1` is tested) nor
changes `head.dof` (`head.dof -= 0`), so the loop does not terminate: for every
bound on the number of turns the loop, and the call of `read`, are still running. -/
theorem C23_skip_loop_spins_on_close (mf : Bool) (m : Rmessage) (rest : List SockEvent)
    (h1 : m.receiving = 1) (hd : m.head.dof > 0) :
    (∀ fuel, Rmessage.skipLoop mf (fuel + 1) m ⟨.eof :: rest, false⟩
        = Rmessage.skipLoop mf fuel
            { m with head := { m.head with dof := m.head.dof - 0 } } ⟨.eof :: rest, false⟩) ∧
    (∀ fuel, Rmessage.skipLoop mf fuel m ⟨.eof :: rest, false⟩ = none) ∧
    (∀ fuel, Rmessage.read mf fuel m ⟨.eof :: rest, false⟩ = none) := by
  have n10 : ¬ ((1 : Nat) = 0) := by decide
  refine ⟨?_, fun fuel => skipLoop_eof mf rest fuel m hd, ?_⟩
  · intro fuel
    have e : Rmessage.skipLoop mf (fuel + 1) m ⟨.eof :: rest, false⟩
        = Rmessage.skipLoop mf fuel
            { m with head := { m.head with dof := m.head.dof - (([] : List Nat).length : Nat) } }
            ⟨.eof :: rest, false⟩ := by
      rw [Rmessage.skipLoop, if_pos hd, recv_eof]
    rw [e]
    simp
  · intro fuel
    unfold Rmessage.read
    rw [h1, if_neg n10]
    unfold Rmessage.read1
    rw [h1, if_pos rfl]
    exact skipLoop_eof mf rest (fuel + 1) m hd

/-- Witness of C23: a response whose header announced 2 bytes of auxiliary data,
the peer closing before sending them. -/
theorem C23_skip_loop_spins_on_close_witness :
    Rmessage.read false 1000
      { Rmessage.empty with receiving := 1, head := ⟨65537, 0, 2, 0⟩ } ⟨[.eof], false⟩ = none :=
  (C23_skip_loop_spins_on_close false
    { Rmessage.empty with receiving := 1, head := ⟨65537, 0, 2, 0⟩ } [] rfl (by decide)).2.2 1000

theorem countP_flip (p q : Nat → Bool) (d : Nat) (hp : p d = false) (hq : q d = true)
    (hother : ∀ x, x ≠ d → q x = p x) :
    ∀ (l : List Nat), l.Nodup → d ∈ l → l.countP q = l.countP p + 1 := by
  intro l
  induction l with
  | nil => intro _ hd; simp at hd
  | cons x t ih =>
    intro hnd hd
    obtain ⟨hx, ht⟩ := List.nodup_cons.1 hnd
    by_cases hxd : x = d
    · subst hxd
      have hsame : t.countP q = t.countP p := by
        apply List.countP_congr
        intro y hy
        have hyx : y ≠ x := fun e => hx (e ▸ hy)
        rw [hother y hyx]
      rw [List.countP_cons_of_pos _ _ hq, List.countP_cons_of_neg _ _ (by simp [hp]), hsame]
    · have hdt : d ∈ t := by
        rcases List.mem_cons.1 hd with e | e
        · exact absurd e.symm hxd
        · exact e
      have hqx : q x = p x := hother x hxd
      simp only [List.countP_cons, hqx, ih ht hdt]
      omega

/-- The part of the count invariant that the code keeps: registering a live node
without master as a dependent of another live node raises the count of that node
by one (`set_master_registers`) and the number of its dependents by one. -/
theorem set_master_registers_count (h : Heap) (a d : Nat) (c cd : Cell)
    (hg : h.get a = some c) (hd : h.get d = some cd) (hdm : cd.master = none) (hda : d ≠ a) :
    ((h.put d (some { cd with master := some a })).put a
        (some { c with rcount := c.rcount + 1 })).dependents a = h.dependents a + 1 := by
  have hla := heap_get_lt h a c hg
  have hld := heap_get_lt h d cd hd
  unfold Heap.dependents
  rw [heap_put_length, heap_put_length, ← List.countP_eq_length_filter,
    ← List.countP_eq_length_filter]
  apply countP_flip _ _ d
  · simp [hd, hdm]
  · rw [heap_get_put_ne _ _ _ _ (Ne.symm hda), heap_get_put _ _ _ hld]
    simp [hda]
  · intro x hx
    by_cases hxa : x = a
    · simp [hxa]
    · rw [heap_get_put_ne _ _ _ _ (Ne.symm hxa), heap_get_put_ne _ _ _ _ (Ne.symm hx)]
  · exact List.nodup_range _
  · exact List.mem_range.2 hld

/-- Registration of nodes without master as dependents of one live node through
`set_master`, one call per node: the count of that node goes up by their number,
every one of them has it as master, and nothing else changes. -/
theorem set_master_all_registers (a : Nat) :
    ∀ (ds : List Nat) (h : Heap) (cM : Cell), h.get a = some cM → ds.Nodup → a ∉ ds →
      (∀ d, d ∈ ds → ∃ c, h.get d = some c ∧ c.master = none) →
      ∃ h1, Rexp.set_master_all (some a) h ds = some h1 ∧
        h1.get a = some { cM with rcount := cM.rcount + ds.length } ∧
        h1.freed = h.freed ∧ h1.deleted = h.deleted ∧ h1.warnings = h.warnings ∧
        (∀ d c, d ∈ ds → h.get d = some c → h1.get d = some { c with master := some a }) ∧
        (∀ x, x ∉ ds → x ≠ a → h1.get x = h.get x) := by
  intro ds
  induction ds with
  | nil =>
    intro h cM hg _ _ _
    exact ⟨h, rfl, by simpa using hg, rfl, rfl, rfl, fun d _ hd => by simp at hd,
      fun _ _ _ => rfl⟩
  | cons d ds ih =>
    intro h cM hg hnd hna hdep
    obtain ⟨c, hd, hm⟩ := hdep d (List.mem_cons_self _ _)
    have hda : d ≠ a := fun e => hna (e ▸ List.mem_cons_self _ _)
    have hstep := set_master_registers h a d cM c hg hd hm hda
    have hld := heap_get_lt h d c hd
    have hga : ((h.put d (some { c with master := some a })).put a
        (some { cM with rcount := cM.rcount + 1 })).get a
          = some { cM with rcount := cM.rcount + 1 } :=
      heap_get_put _ _ _ (by rw [heap_put_length]; exact heap_get_lt h a cM hg)
    obtain ⟨hnd1, hnd2⟩ := List.nodup_cons.1 hnd
    obtain ⟨h1, e1, e2, e3, e4, e5, e6, e7⟩ := ih _ _ hga hnd2
      (fun hm => hna (List.mem_cons_of_mem _ hm))
      (fun d1 hd1 => by
        obtain ⟨c1, g1, g2⟩ := hdep d1 (List.mem_cons_of_mem _ hd1)
        have n1 : d ≠ d1 := fun e => hnd1 (e ▸ hd1)
        have n2 : a ≠ d1 := fun e => hna (e ▸ List.mem_cons_of_mem _ hd1)
        exact ⟨c1, by rw [heap_get_put_ne _ _ _ _ n2, heap_get_put_ne _ _ _ _ n1]; exact g1, g2⟩)
    refine ⟨h1, ?_, ?_, e3, e4, e5, ?_, ?_⟩
    · simp only [Rexp.set_master_all, hstep]
      exact e1
    · rw [e2]
      simp only [List.length_cons, Nat.cast_add, Nat.cast_one]
      congr 2
      ring
    · intro d1 c1 hd1 hg1
      rcases List.mem_cons.1 hd1 with e | hm1
      · subst e
        rw [e7 d1 hnd1 hda, heap_get_put_ne _ _ _ _ (Ne.symm hda), heap_get_put _ _ _ hld]
        rw [hd] at hg1
        cases hg1
        rfl
      · have n1 : d ≠ d1 := fun e => hnd1 (e ▸ hm1)
        have n2 : a ≠ d1 := fun e => hna (e ▸ List.mem_cons_of_mem _ hm1)
        exact e6 d1 c1 hm1 (by
          rw [heap_get_put_ne _ _ _ _ n2, heap_get_put_ne _ _ _ _ n1]; exact hg1)
    · intro x hx hxa
      have hxd : d ≠ x := fun e => hx (e ▸ List.mem_cons_self _ _)
      rw [e7 x (fun hm => hx (List.mem_cons_of_mem _ hm)) hxa,
        heap_get_put_ne _ _ _ _ (Ne.symm hxa), heap_get_put_ne _ _ _ _ hxd]

/-- Destruction of a node without attribute and master that holds a message
while `rcount` is not positive: the message is deleted and the node is
deallocated; nothing is passed to `free`. -/
theorem delete_msg_master_deletes (f : Nat) (h : Heap) (a : Nat) (c : Cell) (q : Nat)
    (hg : h.get a = some c) (hattr : c.attr = none) (hm : c.master = none)
    (hmsg : c.msg = some q) (hrc : ¬ (c.rcount > 0)) :
    Rexp.delete (f + 1) h a = some ({ h with deleted := h.deleted ++ [q] }.put a none) := by
  have hlt := heap_get_lt h a c hg
  unfold Rexp.delete
  simp only [hg, hattr, hm]
  rw [heap_get_put _ _ _ hlt]
  simp [hmsg, hrc, Heap.put]

/-- Destruction of a master whose one dependent is its attribute, as
`Rexp::parse` builds it: the destructor destroys the attribute first, which takes
the count back to 0, and then deletes the message; both nodes are deallocated and
nothing is passed to `free`. -/
theorem delete_master_with_attr (f : Nat) (h : Heap) (a d : Nat) (c cd : Cell) (q : Nat)
    (hg : h.get a = some c) (hattr : c.attr = some d) (hm : c.master = none)
    (hmsg : c.msg = some q) (hrc : c.rcount = 1)
    (hd : h.get d = some cd) (hda : d ≠ a)
    (hdattr : cd.attr = none) (hdm : cd.master = some a) (hdmsg : cd.msg = none) :
    ∃ h2, Rexp.delete (f + 2) h a = some h2 ∧ h2.freed = h.freed ∧
      h2.deleted = h.deleted ++ [q] ∧ h2.warnings = h.warnings ∧
      h2.get a = none ∧ h2.get d = none := by
  have hla := heap_get_lt h a c hg
  have hld := heap_get_lt h d cd hd
  have hstep := delete_dependent f h a d c cd hg hd hda hdattr hdm hdmsg
  obtain ⟨c1, hc1⟩ : ∃ c1, c1 = { c with rcount := c.rcount - 1 } := ⟨_, rfl⟩
  rw [← hc1] at hstep
  have m1 : c1.master = none := by rw [hc1]; exact hm
  have q1 : c1.msg = some q := by rw [hc1]; exact hmsg
  have r1 : ¬ (c1.rcount > 0) := by
    rw [hc1]
    show ¬ (c.rcount - 1 > 0)
    omega
  have hga : ((h.put a (some c1)).put d none).get a = some c1 := by
    rw [heap_get_put_ne _ _ _ _ hda, heap_get_put _ _ _ hla]
  have hla1 : a < ((h.put a (some c1)).put d none).cells.length := by
    rw [heap_put_length, heap_put_length]; exact hla
  have e : Rexp.delete (f + 2) h a
      = some ({ (h.put a (some c1)).put d none with
          deleted := h.deleted ++ [q] }.put a none) := by
    rw [Rexp.delete]
    simp only [hg, hattr, hstep, hga, m1]
    rw [heap_get_put _ _ _ hla1]
    simp [q1, r1, Heap.put]
  refine ⟨_, e, by simp [Heap.put], by simp [Heap.put], by simp [Heap.put], ?_, ?_⟩
  · exact heap_get_put _ _ _ hla1
  · rw [heap_get_put_ne _ _ _ _ (Ne.symm hda)]
    exact heap_get_put _ _ _ (by rw [heap_put_length]; exact hld)

theorem countP_update (p q : Nat → Bool) (d : Nat) (hother : ∀ x, x ≠ d → q x = p x)
    (l : List Nat) (hnd : l.Nodup) (hd : d ∈ l) :
    (l.countP q : Int)
      = (l.countP p : Int) - (if p d = true then 1 else 0) + (if q d = true then 1 else 0) := by
  have hsame : p d = q d → l.countP q = l.countP p := by
    intro e
    apply List.countP_congr
    intro x _
    by_cases hxd : x = d
    · rw [hxd, e]
    · rw [hother x hxd]
  cases hp : p d <;> cases hq : q d
  · rw [hsame (by rw [hp, hq])]
    simp
  · rw [countP_flip p q d hp hq hother l hnd hd]
    simp
  · rw [countP_flip q p d hq hp (fun x hx => (hother x hx).symm) l hnd hd]
    simp
  · rw [hsame (by rw [hp, hq])]
    simp

/-- The number of dependents after the node at a live address `x` is replaced:
one less for the old master of `x`, one more for its new master. -/
theorem dependents_put (h : Heap) (x a : Nat) (cx : Cell) (c' : Option Cell)
    (hg : h.get x = some cx) :
    ((h.put x c').dependents a : Int) = (h.dependents a : Int)
      - (if x ≠ a ∧ cx.master = some a then 1 else 0)
      + (if x ≠ a ∧ c'.bind Cell.master = some a then 1 else 0) := by
  have hlt := heap_get_lt h x cx hg
  unfold Heap.dependents
  rw [heap_put_length, ← List.countP_eq_length_filter, ← List.countP_eq_length_filter]
  rw [countP_update
    (fun d => decide (d ≠ a) && decide ((h.get d).bind Cell.master = some a))
    (fun d => decide (d ≠ a) && decide (((h.put x c').get d).bind Cell.master = some a))
    x (fun y hy => by
      show (decide (y ≠ a) && decide (((h.put x c').get y).bind Cell.master = some a))
        = (decide (y ≠ a) && decide ((h.get y).bind Cell.master = some a))
      rw [heap_get_put_ne _ _ _ _ (Ne.symm hy)])
    _ (List.nodup_range _) (List.mem_range.2 hlt)]
  simp only [heap_get_put _ _ _ hlt, hg, Option.some_bind, Bool.and_eq_true, decide_eq_true_eq]

theorem countedBy_congr (h : Heap) (off off' : Nat → Int) (H : h.CountedBy off)
    (he : ∀ a c, h.get a = some c → off a = off' a) : h.CountedBy off' :=
  ⟨fun a c hg => by rw [← he a c hg]; exact H.1 a c hg, H.2⟩

/-- Replacing a live node: the offset of the invariant moves by the change of
`rcount` at that node and by one for its old and its new master. -/
theorem countedBy_put (h : Heap) (off : Nat → Int) (x : Nat) (cx c' : Cell)
    (H : h.CountedBy off) (hg : h.get x = some cx)
    (hwf : ∀ m, c'.master = some m → m < h.cells.length) :
    (h.put x (some c')).CountedBy (fun a => off a
      + (if a = x then c'.rcount - cx.rcount else 0)
      + (if x ≠ a ∧ cx.master = some a then 1 else 0)
      - (if x ≠ a ∧ c'.master = some a then 1 else 0)) := by
  have hlt := heap_get_lt h x cx hg
  constructor
  · intro a c hga
    rw [dependents_put h x a cx (some c') hg]
    simp only [Option.some_bind]
    by_cases hax : a = x
    · subst hax
      rw [heap_get_put _ _ _ hlt] at hga
      cases hga
      have := H.1 a cx hg
      simp only [if_true]
      omega
    · rw [heap_get_put_ne _ _ _ _ (Ne.symm hax)] at hga
      have := H.1 a c hga
      simp only [if_neg hax]
      omega
  · intro d c m hgd hm
    rw [heap_put_length]
    by_cases hdx : d = x
    · subst hdx
      rw [heap_get_put _ _ _ hlt] at hgd
      cases hgd
      exact hwf m hm
    · rw [heap_get_put_ne _ _ _ _ (Ne.symm hdx)] at hgd
      exact H.2 d c m hgd hm

/-- Deallocating a live node that has no master keeps the invariant. -/
theorem countedBy_dealloc (h : Heap) (off : Nat → Int) (x : Nat) (cx : Cell)
    (H : h.CountedBy off) (hg : h.get x = some cx) (hm : cx.master = none) :
    (h.put x none).CountedBy off := by
  have hlt := heap_get_lt h x cx hg
  constructor
  · intro a c hga
    rw [dependents_put h x a cx none hg]
    have hax : x ≠ a := by
      intro e
      subst e
      rw [heap_get_put _ _ _ hlt] at hga
      cases hga
    rw [heap_get_put_ne _ _ _ _ hax] at hga
    have := H.1 a c hga
    simp only [hm, Option.none_bind, and_false, if_false]
    omega
  · intro d c m hgd hmd
    rw [heap_put_length]
    have hdx : x ≠ d := by
      intro e
      subst e
      rw [heap_get_put _ _ _ hlt] at hgd
      cases hgd
    rw [heap_get_put_ne _ _ _ _ hdx] at hgd
    exact H.2 d c m hgd hmd

/-- The lists of freed blocks and deleted messages and the number of
diagnostics do not enter the invariant. -/
theorem countedBy_logs (h : Heap) (off : Nat → Int) (fr de : List Nat) (w : Nat)
    (H : h.CountedBy off) :
    Heap.CountedBy { h with freed := fr, deleted := de, warnings := w } off := H

theorem heap_get_alloc_lt (h : Heap) (c : Cell) (a : Nat) (ha : a < h.cells.length) :
    (h.alloc c).1.get a = h.get a := by
  unfold Heap.get Heap.alloc
  rw [List.getD_eq_getElem?_getD, List.getD_eq_getElem?_getD]
  simp [List.getElem?_append_left ha]

theorem heap_get_alloc_eq (h : Heap) (c : Cell) :
    (h.alloc c).1.get h.cells.length = some c := by
  unfold Heap.get Heap.alloc
  rw [List.getD_eq_getElem?_getD]
  simp

theorem heap_alloc_length (h : Heap) (c : Cell) :
    (h.alloc c).1.cells.length = h.cells.length + 1 := by
  simp [Heap.alloc]

/-- Allocating a node as a constructor leaves it (`rcount = 0`, `master` null or
the node itself) keeps the invariant. -/
theorem countedBy_alloc (h : Heap) (c : Cell) (H : h.CountedBy (fun _ => 0))
    (hrc : c.rcount = 0) (hm : c.master = none ∨ c.master = some h.cells.length) :
    (h.alloc c).1.CountedBy (fun _ => 0) := by
  have hdep : ∀ a, (h.alloc c).1.dependents a = h.dependents a := by
    intro a
    unfold Heap.dependents
    rw [heap_alloc_length, List.range_succ, List.filter_append, List.length_append]
    have hlast : ((List.filter (fun d => decide (d ≠ a) &&
        decide (((h.alloc c).1.get d).bind Cell.master = some a)) [h.cells.length]).length) = 0 := by
      rw [List.length_eq_zero, List.filter_eq_nil_iff]
      intro d hd
      rw [List.mem_singleton] at hd
      subst hd
      rw [heap_get_alloc_eq]
      rcases hm with e | e
      · simp [e]
      · simp only [Option.some_bind, e, Bool.and_eq_true, decide_eq_true_eq, Option.some.injEq]
        intro hh
        exact hh.1 hh.2
    rw [hlast, Nat.add_zero]
    congr 1
    apply List.filter_congr
    intro d hd
    rw [heap_get_alloc_lt h c d (List.mem_range.1 hd)]
  constructor
  · intro a c0 hga
    rw [hdep]
    rcases Nat.lt_trichotomy a h.cells.length with hlt | heq | hgt
    · rw [heap_get_alloc_lt h c a hlt] at hga
      exact H.1 a c0 hga
    · subst heq
      rw [heap_get_alloc_eq] at hga
      cases hga
      have hz : h.dependents h.cells.length = 0 := by
        unfold Heap.dependents
        rw [List.length_eq_zero, List.filter_eq_nil_iff]
        intro d _
        simp only [Bool.and_eq_true, decide_eq_true_eq, not_and]
        intro _ hmd
        cases hgd : h.get d with
        | none => rw [hgd] at hmd; cases hmd
        | some cd =>
          rw [hgd] at hmd
          exact absurd (H.2 d cd _ hgd hmd) (Nat.lt_irrefl _)
      rw [hz, hrc]
      rfl
    · have hl := heap_get_lt _ a c0 hga
      rw [heap_alloc_length] at hl
      omega
  · intro d c0 m hgd hmd
    rw [heap_alloc_length]
    rcases Nat.lt_trichotomy d h.cells.length with hlt | heq | hgt
    · rw [heap_get_alloc_lt h c d hlt] at hgd
      exact Nat.lt_succ_of_lt (H.2 d c0 m hgd hmd)
    · subst heq
      rw [heap_get_alloc_eq] at hgd
      cases hgd
      rcases hm with e | e
      · rw [e] at hmd; cases hmd
      · rw [e] at hmd
        cases hmd
        exact Nat.lt_succ_self _
    · have hl := heap_get_lt _ d c0 hgd
      rw [heap_alloc_length] at hl
      omega

/-- A call of `set_master` on a node that is not its own master, with another
node as the new master, keeps the count invariant. -/
theorem set_master_counted (h h' : Heap) (d : Nat) (m : Option Nat)
    (H : h.CountedBy (fun _ => 0))
    (hself : (h.get d).bind Cell.master ≠ some d) (hmd : m ≠ some d)
    (hrun : Rexp.set_master h d m = some h') : h'.CountedBy (fun _ => 0) := by
  unfold Rexp.set_master at hrun
  cases hgd : h.get d with
  | none => rw [hgd] at hrun; cases hrun
  | some cd =>
    rw [hgd] at hrun hself
    simp only [Option.some_bind] at hself
    simp only [] at hrun
    -- the statement `if (master) master->rcount--`
    have step1 : ∃ h1 off1, (match cd.master with
          | some p => h.decr p
          | none => some h) = some h1 ∧ h1.CountedBy off1 ∧ h1.get d = some cd ∧
        h1.cells.length = h.cells.length ∧
        (∀ a, off1 a = if cd.master = some a then -1 else 0) := by
      cases hcm : cd.master with
      | none => exact ⟨h, fun _ => 0, rfl, H, hgd, rfl, fun a => by simp⟩
      | some p =>
        have hpd : p ≠ d := fun e => hself (by rw [hcm, e])
        simp only [Heap.decr]
        cases hgp : h.get p with
        | none =>
          rw [hcm] at hrun
          simp only [Heap.decr, hgp] at hrun
          cases hrun
        | some cp =>
          refine ⟨_, _, rfl, countedBy_put h _ p cp { cp with rcount := cp.rcount - 1 } H hgp
            (fun m1 hm1 => H.2 p cp m1 hgp hm1), ?_, heap_put_length _ _ _, ?_⟩
          · rw [heap_get_put_ne _ _ _ _ hpd]; exact hgd
          · intro a
            by_cases hap : a = p
            · subst hap
              simp
            · have hpa : ¬ (p = a) := fun e => hap e.symm
              simp [hap, hpa]
    obtain ⟨h1, off1, e1, H1, hgd1, hlen1, hoff1⟩ := step1
    rw [e1] at hrun
    simp only [hgd1] at hrun
    have hld1 := heap_get_lt h1 d cd hgd1
    cases m with
    | none =>
      simp only [Option.some.injEq] at hrun
      rw [← hrun]
      refine countedBy_congr _ _ _ (countedBy_put h1 off1 d cd { cd with master := none } H1 hgd1
        (fun m1 hm1 => by cases hm1)) ?_
      intro a c _
      simp only [hoff1 a]
      by_cases hca : cd.master = some a
      · have hda : d ≠ a := fun e => hself (by rw [hca, e])
        have had : ¬ (a = d) := fun e => hda e.symm
        simp [hca, hda, had]
      · simp [hca]
    | some q =>
      have hqd : q ≠ d := fun e => hmd (by rw [e])
      simp only [Heap.incr] at hrun
      cases hgq : (h1.put d (some { cd with master := some q })).get q with
      | none => rw [hgq] at hrun; cases hrun
      | some cq =>
        rw [hgq] at hrun
        simp only [Option.some.injEq] at hrun
        rw [← hrun]
        have hlq := heap_get_lt _ q cq hgq
        rw [heap_put_length] at hlq
        have H2 := countedBy_put h1 off1 d cd { cd with master := some q } H1 hgd1
          (fun m1 hm1 => by cases hm1; exact hlq)
        have hcqm : ∀ m1, cq.master = some m1 →
            m1 < (h1.put d (some { cd with master := some q })).cells.length :=
          fun m1 hm1 => H2.2 q cq m1 hgq hm1
        refine countedBy_congr _ _ _ (countedBy_put _ _ q cq { cq with rcount := cq.rcount + 1 }
          H2 hgq hcqm) ?_
        intro a c _
        simp only [hoff1 a]
        have hdq : d ≠ q := fun e => hqd e.symm
        by_cases hca : cd.master = some a
        · have hda : d ≠ a := fun e => hself (by rw [hca, e])
          have had : ¬ (a = d) := fun e => hda e.symm
          by_cases haq : a = q
          · subst haq
            simp [hca, hda, had]
          · have hqa : ¬ (q = a) := fun e => haq e.symm
            simp [hca, hda, had, haq, hqa]
        · by_cases haq : a = q
          · subst haq
            have had : ¬ (a = d) := hqd
            simp [hca, had, hdq]
          · have hqa : ¬ (q = a) := fun e => haq e.symm
            by_cases had : a = d
            · subst had
              simp [hca, hdq]
            · simp [hca, had, haq, hqa]

/-- Replacing a live node by one with the same `rcount` and `master` keeps the
count invariant. -/
theorem countedBy_put_same (h : Heap) (x : Nat) (cx c' : Cell)
    (H : h.CountedBy (fun _ => 0)) (hg : h.get x = some cx)
    (hrc : c'.rcount = cx.rcount) (hm : c'.master = cx.master) :
    (h.put x (some c')).CountedBy (fun _ => 0) := by
  refine countedBy_congr _ _ _ (countedBy_put h _ x cx c' H hg
    (fun m1 hm1 => H.2 x cx m1 hg (by rw [← hm]; exact hm1))) ?_
  intro a _ _
  simp only [hrc, hm]
  by_cases hc : x ≠ a ∧ cx.master = some a
  · simp [hc]
  · simp [hc]

/-- The attachment of an attribute by `Rexp::parse` keeps the count invariant
when the attribute is not its own master and is neither the node nor the master
of the node. -/
theorem parse_attr_counted (h h' : Heap) (this a : Nat)
    (H : h.CountedBy (fun _ => 0))
    (h1 : (h.get a).bind Cell.master ≠ some a) (h2 : this ≠ a)
    (h3 : (h.get this).bind Cell.master ≠ some a)
    (hrun : Rexp.parse_attr h this a = some h') : h'.CountedBy (fun _ => 0) := by
  unfold Rexp.parse_attr at hrun
  cases hg : h.get this with
  | none => rw [hg] at hrun; cases hrun
  | some c =>
    rw [hg] at hrun h3
    simp only [Option.some_bind] at h3
    simp only [] at hrun
    have H0 := countedBy_put_same h this c { c with attr := some a } H hg rfl rfl
    by_cases hc : c.master.isSome ∨ c.msg.isSome
    · rw [if_pos hc] at hrun
      refine set_master_counted _ h' a _ H0 ?_ ?_ hrun
      · rw [heap_get_put_ne _ _ _ _ h2]
        exact h1
      · intro e
        cases hcm : c.master with
        | none =>
          rw [hcm] at e
          simp only [Option.getD_none, Option.some.injEq] at e
          exact h2 e
        | some p =>
          rw [hcm] at e
          simp only [Option.getD_some, Option.some.injEq] at e
          exact h3 (by rw [hcm, e])
    · rw [if_neg hc] at hrun
      cases hrun
      exact H0

/-- A destruction keeps the count invariant, whatever the node and the nesting
of the attributes destroyed with it. -/
theorem delete_counted :
    ∀ (fuel : Nat) (h h' : Heap) (this : Nat), h.CountedBy (fun _ => 0) →
      Rexp.delete fuel h this = some h' → h'.CountedBy (fun _ => 0) := by
  intro fuel
  induction fuel with
  | zero => intro h h' this _ hrun; cases hrun
  | succ k ih =>
    intro h h' this H hrun
    rw [Rexp.delete] at hrun
    cases hg : h.get this with
    | none => rw [hg] at hrun; cases hrun
    | some c =>
      rw [hg] at hrun
      simp only [] at hrun
      -- the statement `if (attr) delete(attr)`
      have step1 : ∃ h1, (match c.attr with
            | some a => Rexp.delete k h a
            | none => some h) = some h1 ∧ h1.CountedBy (fun _ => 0) := by
        cases hca : c.attr with
        | none => exact ⟨h, rfl, H⟩
        | some a =>
          cases hd : Rexp.delete k h a with
          | none =>
            rw [hca] at hrun
            simp only [hd] at hrun
            cases hrun
          | some h1 => exact ⟨h1, hd, ih h h1 a H hd⟩
      obtain ⟨h1, e1, H1⟩ := step1
      rw [e1] at hrun
      simp only [] at hrun
      cases hg1 : h1.get this with
      | none => rw [hg1] at hrun; cases hrun
      | some c1 =>
        rw [hg1] at hrun
        simp only [] at hrun
        have hl1 := heap_get_lt h1 this c1 hg1
        -- the statement `if (master) ...`
        have step2 : ∃ h3 c3, (match c1.master with
              | some m =>
                if m = this then
                  some ({ h1 with freed := h1.freed ++ [c1.data] }.put this
                    (some { c1 with attr := none, len := 0, master := none }))
                else (h1.decr m).map (fun (h2 : Heap) =>
                  h2.put this (some { c1 with attr := none, master := none }))
              | none => some (h1.put this (some { c1 with attr := none }))) = some h3 ∧
            h3.CountedBy (fun _ => 0) ∧ h3.get this = some c3 ∧ c3.master = none := by
          cases hcm : c1.master with
          | none =>
            refine ⟨_, _, rfl, ?_, heap_get_put _ _ _ hl1, rfl⟩
            exact countedBy_put_same h1 this c1 _ H1 hg1 rfl hcm.symm
          | some m =>
            by_cases hmt : m = this
            · subst hmt
              simp only [if_true]
              refine ⟨_, { c1 with attr := none, len := 0, master := none }, rfl, ?_,
                heap_get_put _ _ _ hl1, rfl⟩
              refine countedBy_congr _ _ _ (countedBy_put
                { h1 with freed := h1.freed ++ [c1.data] } _ m c1
                { c1 with attr := none, len := 0, master := none }
                (countedBy_logs h1 _ _ _ _ H1) hg1 (fun m1 hm1 => by cases hm1)) ?_
              intro a _ _
              by_cases ham : a = m
              · subst ham
                simp
              · have hma : ¬ (m = a) := fun e => ham e.symm
                simp [hcm, ham, hma]
            · simp only [if_neg hmt, Heap.decr]
              cases hgm : h1.get m with
              | none =>
                rw [hcm] at hrun
                simp only [if_neg hmt, Heap.decr, hgm, Option.map_none'] at hrun
                cases hrun
              | some cm =>
                simp only [Option.map_some']
                have Ha := countedBy_put h1 _ m cm { cm with rcount := cm.rcount - 1 } H1 hgm
                  (fun m1 hm1 => H1.2 m cm m1 hgm hm1)
                have hgt : (h1.put m (some { cm with rcount := cm.rcount - 1 })).get this
                    = some c1 := by
                  rw [heap_get_put_ne _ _ _ _ hmt]; exact hg1
                refine ⟨_, { c1 with attr := none, master := none }, rfl, ?_,
                  heap_get_put _ _ _ (by rw [heap_put_length]; exact hl1), rfl⟩
                refine countedBy_congr _ _ _ (countedBy_put _ _ this c1
                  { c1 with attr := none, master := none } Ha hgt
                  (fun m1 hm1 => by cases hm1)) ?_
                intro a _ _
                have htm : this ≠ m := fun e => hmt e.symm
                by_cases ham : a = m
                · subst ham
                  simp [hcm, htm, hmt]
                · have hma : ¬ (m = a) := fun e => ham e.symm
                  by_cases hat : a = this
                  · subst hat
                    simp [hcm, hma, ham, htm, hmt]
                  · simp [hcm, ham, hma, hat]
        obtain ⟨h3, c3, e3, H3, hg3, hm3⟩ := step2
        rw [e3] at hrun
        simp only [hg3, Option.some.injEq] at hrun
        rw [← hrun]
        cases hq : c3.msg with
        | none => exact countedBy_dealloc h3 _ this c3 H3 hg3 hm3
        | some q =>
          simp only []
          by_cases hr : c3.rcount > 0
          · rw [if_pos hr]
            exact countedBy_dealloc _ _ this c3 (countedBy_logs h3 _ _ _ _ H3) hg3 hm3
          · rw [if_neg hr]
            exact countedBy_dealloc _ _ this c3 (countedBy_logs h3 _ _ _ _ H3) hg3 hm3

theorem countedBy_empty : (⟨[], [], [], 0⟩ : Heap).CountedBy (fun _ => 0) := by
  constructor
  · intro a c hg
    have := heap_get_lt _ a c hg
    simp at this
  · intro d c m hg _
    have := heap_get_lt _ d c hg
    simp at this

/-- One step that calls `set_master` as the program does keeps the count
invariant. -/
theorem nodeOp_run_counted (fuel : Nat) (h h' : Heap) (op : NodeOp)
    (H : h.CountedBy (fun _ => 0)) (hadm : op.asParse h = true)
    (hrun : op.run fuel h = some h') : h'.CountedBy (fun _ => 0) := by
  cases op with
  | parsed msg data len =>
    simp only [NodeOp.run, Option.some.injEq] at hrun
    rw [← hrun]
    exact countedBy_alloc h _ H rfl (Or.inl rfl)
  | ofData block len attr =>
    simp only [NodeOp.run, Option.some.injEq] at hrun
    rw [← hrun]
    exact countedBy_alloc h _ H rfl (Or.inr rfl)
  | parse_attr this a =>
    simp only [NodeOp.asParse, Bool.and_eq_true, decide_eq_true_eq] at hadm
    exact parse_attr_counted h h' this a H hadm.1.1 hadm.1.2 hadm.2 hrun
  | set_master this m =>
    simp only [NodeOp.asParse, Bool.and_eq_true, decide_eq_true_eq] at hadm
    exact set_master_counted h h' this m H hadm.1 hadm.2 hrun
  | delete this => exact delete_counted fuel h h' this H hrun

theorem runAll_counted (fuel : Nat) :
    ∀ (ops : List NodeOp) (h h' : Heap), h.CountedBy (fun _ => 0) →
      NodeOp.allAsParse fuel h ops = true → NodeOp.runAll fuel h ops = some h' →
      h'.CountedBy (fun _ => 0) := by
  intro ops
  induction ops with
  | nil =>
    intro h h' H _ hrun
    simp only [NodeOp.runAll, Option.some.injEq] at hrun
    rw [← hrun]
    exact H
  | cons op ops ih =>
    intro h h' H hadm hrun
    simp only [NodeOp.runAll] at hrun
    simp only [NodeOp.allAsParse, Bool.and_eq_true] at hadm
    cases h1 : op.run fuel h with
    | none => rw [h1] at hrun; cases hrun
    | some h2 =>
      rw [h1] at hrun
      have hadm2 := hadm.2
      rw [h1] at hadm2
      exact ih h2 h' (nodeOp_run_counted fuel h h2 op H hadm.1 h1) hadm2 hrun

theorem runAll_append (fuel : Nat) :
    ∀ (pre : List NodeOp) (h : Heap) (post : List NodeOp),
      NodeOp.runAll fuel h (pre ++ post)
        = (NodeOp.runAll fuel h pre).bind (fun h1 => NodeOp.runAll fuel h1 post) := by
  intro pre
  induction pre with
  | nil => intro h post; rfl
  | cons op pre ih =>
    intro h post
    simp only [List.cons_append, NodeOp.runAll]
    cases op.run fuel h with
    | none => rfl
    | some h1 => exact ih h1 post

theorem allAsParse_initial (fuel : Nat) :
    ∀ (pre : List NodeOp) (h : Heap) (post : List NodeOp),
      NodeOp.allAsParse fuel h (pre ++ post) = true → NodeOp.allAsParse fuel h pre = true := by
  intro pre
  induction pre with
  | nil => intro h post _; rfl
  | cons op pre ih =>
    intro h post hadm
    simp only [List.cons_append, NodeOp.allAsParse, Bool.and_eq_true] at hadm ⊢
    refine ⟨hadm.1, ?_⟩
    have h2 := hadm.2
    cases h1 : op.run fuel h with
    | none => rfl
    | some h3 =>
      rw [h1] at h2
      exact ih h3 post h2

theorem asClass_rootFields (e : Rexp) (c : RClass) :
    (e.asClass c).rootFields
      = (c, e.info.type, e.info.len, e.info.pos, e.info.data, e.info.msg, e.info.own, e.attr) := by
  cases e
  rfl

/-- `Rlist::fix_content` leaves the header fields and the attribute of the node
as they are. -/
theorem listFix_rootFields (np : Nat → Option Rexp) (k : Nat) (e r : Rexp)
    (h : Rlist.fix_content np k e = some r) : r.rootFields = e.rootFields := by
  unfold Rlist.fix_content at h
  simp only [] at h
  split_ifs at h with h1 h2 h3
  · cases hh : np e.data with
    | none => rw [hh] at h; cases h
    | some hd =>
      rw [hh] at h
      simp only [] at h
      by_cases g1 : hd.next < e.data + e.len
      · rw [if_pos g1] at h
        cases ht : np hd.next with
        | none => rw [ht] at h; cases h
        | some tl =>
          rw [ht] at h
          simp only [] at h
          by_cases g2 : tl.next < e.data + e.len
          · rw [if_pos g2] at h
            cases hg : np tl.next with
            | none => rw [hg] at h; cases h
            | some tg =>
              rw [hg] at h
              cases h
              cases e
              rfl
          · rw [if_neg g2] at h
            cases h
            cases e
            rfl
      · rw [if_neg g1] at h
        cases h
        cases e
        rfl
  · cases hl : Rlist.notagLoop np (e.data + e.len) k e.data with
    | none => rw [hl] at h; cases h
    | some l =>
      rw [hl] at h
      cases l with
      | nil => cases h; rfl
      | cons x rest =>
        cases h
        cases e
        rfl
  · cases hl : Rlist.tagLoop np (e.data + e.len) k e.data with
    | none => rw [hl] at h; cases h
    | some lp =>
      rw [hl] at h
      obtain ⟨l, p⟩ := lp
      cases l with
      | nil =>
        cases h
        cases e
        rfl
      | cons x rest =>
        obtain ⟨x1, x2⟩ := x
        cases h
        cases e
        rfl
  · cases h
    rfl

/-- `Rvector::fix_content` leaves the header fields and the attribute of the
node as they are. -/
theorem vectorFix_rootFields (np : Nat → Option Rexp) (k : Nat) (e r : Rexp)
    (h : Rvector.fix_content np k e = some r) : r.rootFields = e.rootFields := by
  unfold Rvector.fix_content at h
  cases hl : Rvector.loop np (e.data + e.len) k e.data [] 16 with
  | none => rw [hl] at h; cases h
  | some cc =>
    rw [hl] at h
    obtain ⟨cont, cap⟩ := cc
    cases h
    cases e
    rfl

theorem symbolFix_rootFields (mem : List Nat) (e : Rexp) :
    (Rsymbol.fix_content mem e).rootFields = e.rootFields := by
  cases e
  rfl

/-- The node that the base constructor leaves at offset `d`: its fields are
those the header at `d` gives, and its attribute, if the bit is set, is the node
parsed right after the header. -/
theorem ofPos_decoded (np : Nat → Option Rexp) (mem : List Nat) (d : Nat) (msg : Bool)
    (e0 : Rexp) (hnp : ∀ p a, np p = some a → a.info.pos = p)
    (h : Rexp.ofPos np mem d msg = some e0) :
    e0.info.pos = d ∧ e0.info.type = loadWord mem d &&& 0x3f ∧ e0.info.cls = .Rexp ∧
    e0.info.msg = msg ∧ e0.info.own = [] ∧
    (loadWord mem d &&& XT_HAS_ATTR = 0 →
      e0 = leafNode .Rexp (loadWord mem d &&& 0x3f) (parHeader mem d).2 d
        (d + (parHeader mem d).1) msg) ∧
    (loadWord mem d &&& XT_HAS_ATTR ≠ 0 →
      ∃ a, e0.attr = some a ∧ a.info.pos = d + (parHeader mem d).1 ∧ e0.info.data = a.next) := by
  obtain ⟨ph1, ph2⟩ := parse_header mem d
  unfold Rexp.ofPos Rexp.parse at h
  simp only [] at h
  rw [ph1, ph2] at h
  by_cases hattr : (ptoi (loadWord mem d) &&& XT_HAS_ATTR) ≠ 0
  · rw [if_pos hattr] at h
    cases ha : np (d + (parHeader mem d).1) with
    | none => rw [ha] at h; cases h
    | some a =>
      rw [ha] at h
      simp only [Option.some.injEq] at h
      have hp := hnp _ a ha
      rw [← h]
      have hw : ∀ (b : Bool),
          (if b = true then a.withInfo { a.info with master := .other } else a).info.pos
            = a.info.pos ∧
          (if b = true then a.withInfo { a.info with master := .other } else a).next
            = a.next := by
        intro b
        cases b
        · exact ⟨rfl, rfl⟩
        · simp [Rexp.next, withInfo_info]
      exact ⟨rfl, rfl, rfl, rfl, rfl, fun h0 => absurd h0 hattr,
        fun _ => ⟨_, rfl, (hw _).1.trans hp, (hw _).2.symm⟩⟩
  · rw [if_neg hattr] at h
    simp only [Option.some.injEq] at h
    rw [← h]
    refine ⟨rfl, rfl, rfl, rfl, rfl, fun _ => rfl, fun h1 => absurd h1 hattr⟩

/-- Every node the parser returns is the one the bytes at its offset describe. -/
theorem new_parsed_Rexp_decoded (mem : List Nat) :
    ∀ (fuel d : Nat) (msg : Bool) (v : Rexp),
      new_parsed_Rexp fuel mem d msg = some v → v.DecodedAt mem d msg := by
  intro fuel
  induction fuel with
  | zero => intro d msg v h; cases h
  | succ f ih =>
    intro d msg v h
    unfold new_parsed_Rexp at h
    simp only [ptoi] at h
    cases he : Rexp.ofPos (fun p => new_parsed_Rexp f mem p false) mem d msg with
    | none => rw [he] at h; cases h
    | some e0 =>
      rw [he] at h
      simp only [] at h
      obtain ⟨f1, f2, f3, f4, f5, f6, f7⟩ := ofPos_decoded _ mem d msg e0
        (fun p a ha => (ih p false a ha).1) he
      -- the fields of the node returned are those of the base node, the class apart
      have key : ∀ c, classOfType (loadWord mem d &&& 0x3f) = c →
          v.rootFields = (e0.asClass c).rootFields →
          (flatType (loadWord mem d &&& 0x3f) → v = e0.asClass c) → v.DecodedAt mem d msg := by
        intro c hc hr hflat
        rw [asClass_rootFields] at hr
        simp only [Rexp.rootFields, Prod.mk.injEq] at hr
        obtain ⟨r1, r2, r3, r4, r5, r6, r7, r8⟩ := hr
        refine ⟨by rw [r4, f1], by show v.info.type = _; rw [r2, f2], by rw [r1, hc],
          by rw [r6, f4], by rw [r7, f5], ?_, ?_⟩
        · intro h0
          have e1 := f6 h0
          refine ⟨by rw [r8, e1]; rfl, by show v.info.data = _; rw [r5, e1]; rfl,
            by show v.info.len = _; rw [r3, e1]; rfl, ?_⟩
          intro hf
          rw [hflat hf, e1, hc]
          rfl
        · intro h1
          obtain ⟨a, a1, a2, a3⟩ := f7 h1
          exact ⟨a, by rw [r8]; exact a1, a2, by show v.info.data = _; rw [r5]; exact a3⟩
      have hself : e0.asClass .Rexp = e0 := by
        cases e0 with
        | node i a hd tl tg ct =>
          have : i.cls = .Rexp := f3
          cases i
          simp only at this
          subst this
          rfl
      split_ifs at h with h1 h2 h3 h4 h5 h6 h7
      · cases h
        exact key .Rinteger (by unfold classOfType; rw [if_pos h1]) rfl (fun _ => rfl)
      · cases h
        exact key .Rdouble (by unfold classOfType; rw [if_neg h1, if_pos h2]) rfl (fun _ => rfl)
      · exact key .Rlist (by unfold classOfType; rw [if_neg h1, if_neg h2, if_pos h3]) (listFix_rootFields _ _ _ _ h)
          (fun hf => by
            unfold flatType at hf
            rcases h3 with g | g | g
            · exact absurd g hf.1
            · exact absurd g hf.2.1
            · exact absurd g hf.2.2.1)
      · exact key .Rvector (by unfold classOfType; rw [if_neg h1, if_neg h2, if_neg h3, if_pos h4])
          (vectorFix_rootFields _ _ _ _ h) (fun hf => absurd h4 hf.2.2.2.1)
      · cases h
        exact key .Rstring (by unfold classOfType; rw [if_neg h1, if_neg h2, if_neg h3, if_neg h4, if_pos h5]) rfl (fun _ => rfl)
      · cases h
        exact key .Rsymbol (by unfold classOfType; rw [if_neg h1, if_neg h2, if_neg h3, if_neg h4, if_neg h5, if_pos h6])
          (symbolFix_rootFields _ _) (fun hf => by
            rcases h6 with g | g
            · exact absurd g hf.2.2.2.2.1
            · exact absurd g hf.2.2.2.2.2)
      · cases h
        exact key .Rstrings (by unfold classOfType; rw [if_neg h1, if_neg h2, if_neg h3, if_neg h4,
          if_neg h5, if_neg h6, if_pos h7]) rfl
          (fun _ => rfl)
      · cases h
        exact key .Rexp (by unfold classOfType; rw [if_neg h1, if_neg h2, if_neg h3, if_neg h4,
          if_neg h5, if_neg h6, if_neg h7])
          (by rw [hself]) (fun _ => hself.symm)

theorem asClass_fields (e : Rexp) (c : RClass) :
    (e.asClass c).data = e.data ∧ (e.asClass c).len = e.len ∧ (e.asClass c).type = e.type ∧
      (e.asClass c).next = e.next := by
  cases e
  exact ⟨rfl, rfl, rfl, rfl⟩

/-- The loop of the untagged branch of `Rlist::fix_content` returns when the
values it reads lie inside the block. -/
theorem notagLoop_within (va : Nat → Option Nat) (np : Nat → Option Rexp) (e : Nat)
    (hva : ∀ p e1, va p = some e1 → ∃ v, np p = some v ∧ v.next = e1) :
    ∀ (k c : Nat), valuesWithin va e k c = true → ∃ l, Rlist.notagLoop np e k c = some l := by
  intro k
  induction k with
  | zero => intro c h; cases h
  | succ k ih =>
    intro c h
    unfold valuesWithin at h
    unfold Rlist.notagLoop
    by_cases hc : c < e
    · rw [if_pos hc] at h
      rw [if_pos hc]
      cases hv : va c with
      | none => rw [hv] at h; cases h
      | some c1 =>
        rw [hv] at h
        obtain ⟨v, hn, hnx⟩ := hva c c1 hv
        obtain ⟨l, hl⟩ := ih v.next (by rw [hnx]; exact h)
        exact ⟨v :: l, by simp [hn, hl]⟩
    · rw [if_neg hc]
      exact ⟨[], rfl⟩

/-- The loop of `Rvector::fix_content` returns when the values it reads lie
inside the block. -/
theorem vectorLoop_within (va : Nat → Option Nat) (np : Nat → Option Rexp) (e : Nat)
    (hva : ∀ p e1, va p = some e1 → ∃ v, np p = some v ∧ v.next = e1) :
    ∀ (k c : Nat) (cont : List Rexp) (cap : Nat), valuesWithin va e k c = true →
      ∃ r, Rvector.loop np e k c cont cap = some r := by
  intro k
  induction k with
  | zero => intro c _ _ h; cases h
  | succ k ih =>
    intro c cont cap h
    unfold valuesWithin at h
    unfold Rvector.loop
    by_cases hc : c < e
    · rw [if_pos hc] at h
      rw [if_pos hc]
      cases hv : va c with
      | none => rw [hv] at h; cases h
      | some c1 =>
        rw [hv] at h
        obtain ⟨v, hn, hnx⟩ := hva c c1 hv
        simp only [hn]
        exact ih v.next _ _ (by rw [hnx]; exact h)
    · rw [if_neg hc]
      exact ⟨_, rfl⟩

/-- The loop of the tagged branch of `Rlist::fix_content` returns when the
values and tags it reads lie inside the block, and stops at the offset the check
computes. -/
theorem tagLoop_within (va : Nat → Option Nat) (np : Nat → Option Rexp) (e : Nat)
    (hva : ∀ p e1, va p = some e1 → ∃ v, np p = some v ∧ v.next = e1) :
    ∀ (k c p : Nat), pairsWithin va e k c = some p →
      ∃ l, Rlist.tagLoop np e k c = some (l, p) := by
  intro k
  induction k with
  | zero => intro c p h; cases h
  | succ k ih =>
    intro c p h
    unfold pairsWithin at h
    unfold Rlist.tagLoop
    by_cases hc : c < e
    · rw [if_pos hc] at h
      rw [if_pos hc]
      cases hv : va c with
      | none => rw [hv] at h; cases h
      | some c1 =>
        rw [hv] at h
        simp only [] at h
        obtain ⟨v, hn, hnx⟩ := hva c c1 hv
        cases hv2 : va c1 with
        | none => rw [hv2] at h; cases h
        | some c2 =>
          rw [hv2] at h
          simp only [] at h
          obtain ⟨t, htn, htx⟩ := hva c1 c2 hv2
          obtain ⟨l, hl⟩ := ih t.next p (by rw [htx]; exact h)
          refine ⟨(v, t) :: l, ?_⟩
          rw [← hnx] at htn
          simp [hn, htn, hl]
    · rw [if_neg hc] at h
      rw [if_neg hc]
      cases h
      exact ⟨[], rfl⟩

theorem pairsWithin_ge (va : Nat → Option Nat)
    (hva : ∀ p e1, va p = some e1 → p ≤ e1) (e : Nat) :
    ∀ (k c p : Nat), pairsWithin va e k c = some p → c ≤ p := by
  intro k
  induction k with
  | zero => intro c p h; cases h
  | succ k ih =>
    intro c p h
    unfold pairsWithin at h
    by_cases hc : c < e
    · rw [if_pos hc] at h
      cases hv : va c with
      | none => rw [hv] at h; cases h
      | some c1 =>
        rw [hv] at h
        simp only [] at h
        cases hv2 : va c1 with
        | none => rw [hv2] at h; cases h
        | some c2 =>
          rw [hv2] at h
          simp only [] at h
          have := ih c2 p h
          have := hva c c1 hv
          have := hva c1 c2 hv2
          omega
    · rw [if_neg hc] at h
      cases h
      exact le_refl _

/-- `Rlist::fix_content` returns when the values it reads lie inside the block;
`next` stays the end of the content, and is the offset the loop stops at for a
tagged list. -/
theorem listFix_within (va : Nat → Option Nat) (np : Nat → Option Rexp) (k : Nat) (e : Rexp)
    (hva : ∀ p e1, va p = some e1 → ∃ v, np p = some v ∧ v.next = e1) :
    (e.type = XT_LIST → dottedWithin va (e.data + e.len) e.data = true →
      ∃ r, Rlist.fix_content np k e = some r ∧ r.next = e.next) ∧
    (e.type = XT_LIST_NOTAG → valuesWithin va (e.data + e.len) k e.data = true →
      ∃ r, Rlist.fix_content np k e = some r ∧ r.next = e.next) ∧
    (∀ p, e.type = XT_LIST_TAG → pairsWithin va (e.data + e.len) k e.data = some p →
      ∃ r, Rlist.fix_content np k e = some r ∧ r.next = p) := by
  have n1 : ¬ (XT_LIST_NOTAG = XT_LIST) := by decide
  have n2 : ¬ (XT_LIST_TAG = XT_LIST) := by decide
  have n3 : ¬ (XT_LIST_TAG = XT_LIST_NOTAG) := by decide
  refine ⟨?_, ?_, ?_⟩
  · intro ht h
    unfold dottedWithin at h
    unfold Rlist.fix_content
    simp only []
    rw [if_pos ht]
    cases hv : va e.data with
    | none => rw [hv] at h; cases h
    | some c1 =>
      rw [hv] at h
      simp only [] at h
      obtain ⟨hd, hn, hnx⟩ := hva _ _ hv
      simp only [hn]
      by_cases g1 : hd.next < e.data + e.len
      · rw [if_pos g1]
        rw [← hnx, if_pos g1] at h
        cases hv2 : va hd.next with
        | none => rw [hv2] at h; cases h
        | some c2 =>
          rw [hv2] at h
          simp only [] at h
          obtain ⟨tl, htn, htx⟩ := hva _ _ hv2
          simp only [htn]
          by_cases g2 : tl.next < e.data + e.len
          · rw [if_pos g2]
            rw [← htx, if_pos g2] at h
            cases hv3 : va tl.next with
            | none => rw [hv3] at h; cases h
            | some c3 =>
              obtain ⟨tg, hgn, -⟩ := hva _ _ hv3
              simp only [hgn]
              exact ⟨_, rfl, rfl⟩
          · rw [if_neg g2]
            exact ⟨_, rfl, rfl⟩
      · rw [if_neg g1]
        exact ⟨_, rfl, rfl⟩
  · intro ht h
    obtain ⟨l, hl⟩ := notagLoop_within va np _ hva k e.data h
    unfold Rlist.fix_content
    simp only []
    rw [if_neg (by rw [ht]; exact n1), if_pos ht, hl]
    cases l with
    | nil => exact ⟨_, rfl, rfl⟩
    | cons x rest => exact ⟨_, rfl, rfl⟩
  · intro p ht h
    obtain ⟨l, hl⟩ := tagLoop_within va np _ hva k e.data p h
    unfold Rlist.fix_content
    simp only []
    rw [if_neg (by rw [ht]; exact n2), if_neg (by rw [ht]; exact n3), if_pos ht, hl]
    cases l with
    | nil =>
      refine ⟨_, rfl, ?_⟩
      show (e.withInfo { e.info with next := p }).info.next = p
      rw [withInfo_info]
    | cons x rest =>
      obtain ⟨x1, x2⟩ := x
      exact ⟨_, rfl, rfl⟩

/-- `Rvector::fix_content` returns when the values it reads lie inside the
block. -/
theorem vectorFix_within (va : Nat → Option Nat) (np : Nat → Option Rexp) (k : Nat) (e : Rexp)
    (hva : ∀ p e1, va p = some e1 → ∃ v, np p = some v ∧ v.next = e1)
    (h : valuesWithin va (e.data + e.len) k e.data = true) :
    ∃ r, Rvector.fix_content np k e = some r ∧ r.next = e.next := by
  obtain ⟨⟨cont, cap⟩, hr⟩ := vectorLoop_within va np _ hva k e.data [] 16 h
  exact ⟨.node { e.info with capacity := cap } e.attr e.head e.tail e.tag cont,
    by simp only [Rvector.fix_content, hr], rfl⟩

/-- The base constructor returns when the attribute, if the bit is set, is a
value that ends at `c` within the declared content: the content of the node
starts at `c` and ends where the header says. -/
theorem ofPos_within (np : Nat → Option Rexp) (mem : List Nat) (d : Nat) (msg : Bool) (c : Nat)
    (hattr : if loadWord mem d &&& XT_HAS_ATTR ≠ 0
      then ∃ a, np (d + (parHeader mem d).1) = some a ∧ a.next = c
      else c = d + (parHeader mem d).1)
    (hdc : d + (parHeader mem d).1 ≤ c)
    (hce : c ≤ d + (parHeader mem d).1 + (parHeader mem d).2) :
    ∃ e0, Rexp.ofPos np mem d msg = some e0 ∧ e0.data = c ∧
      e0.data + e0.len = d + (parHeader mem d).1 + (parHeader mem d).2 ∧
      e0.next = d + (parHeader mem d).1 + (parHeader mem d).2 ∧
      e0.type = loadWord mem d &&& 0x3f := by
  obtain ⟨ph1, ph2⟩ := parse_header mem d
  have hlen := parHeader_len_lt mem d
  unfold Rexp.ofPos Rexp.parse
  simp only []
  rw [ph1, ph2]
  by_cases hb : (ptoi (loadWord mem d) &&& XT_HAS_ATTR) ≠ 0
  · rw [if_pos hb]
    have hb1 : loadWord mem d &&& XT_HAS_ATTR ≠ 0 := hb
    rw [if_pos hb1] at hattr
    obtain ⟨a, ha, hac⟩ := hattr
    simp only [ha]
    have hl1 : ((parHeader mem d).2 + Rsize_max - (a.next - (d + (parHeader mem d).1)) % Rsize_max)
        % Rsize_max = (parHeader mem d).2 - (a.next - (d + (parHeader mem d).1)) := by
      unfold Rsize_max
      omega
    refine ⟨_, rfl, hac, ?_, ?_, rfl⟩
    · show a.next + ((parHeader mem d).2 + Rsize_max
          - (a.next - (d + (parHeader mem d).1)) % Rsize_max) % Rsize_max = _
      rw [hl1]
      omega
    · show a.next + ((parHeader mem d).2 + Rsize_max
          - (a.next - (d + (parHeader mem d).1)) % Rsize_max) % Rsize_max = _
      rw [hl1]
      omega
  · rw [if_neg hb]
    have hb1 : ¬ (loadWord mem d &&& XT_HAS_ATTR ≠ 0) := hb
    rw [if_neg hb1] at hattr
    refine ⟨_, rfl, hattr.symm, rfl, rfl, rfl⟩

theorem symbolFix_next (mem : List Nat) (e : Rexp) :
    (Rsymbol.fix_content mem e).next = e.next := by
  cases e
  rfl

/-- The parser returns on a value that lies inside the block, with the fuel the
check used: no byte outside the block is read, and `next` is the offset the
check computes. -/
theorem new_parsed_Rexp_within (mem : List Nat) :
    ∀ (k d e : Nat) (msg : Bool), valueWithin k mem d = some e →
      d + 4 ≤ e ∧ ∃ v, new_parsed_Rexp k mem d msg = some v ∧ v.next = e := by
  intro k
  induction k with
  | zero => intro d e msg h; cases h
  | succ k ih =>
    intro d e msg h
    have hva : ∀ p e1, valueWithin k mem p = some e1 →
        ∃ v, (fun q => new_parsed_Rexp k mem q false) p = some v ∧ v.next = e1 :=
      fun p e1 hp => (ih p e1 false hp).2
    have hge : ∀ p e1, valueWithin k mem p = some e1 → p ≤ e1 :=
      fun p e1 hp => by have := (ih p e1 false hp).1; omega
    have hs4 : 4 ≤ (parHeader mem d).1 := by
      rcases parHeader_size mem d with g | g <;> omega
    unfold valueWithin at h
    simp only [] at h
    by_cases hb : d + (parHeader mem d).1 ≤ mem.length ∧
        d + (parHeader mem d).1 + (parHeader mem d).2 ≤ mem.length
    · rw [if_pos hb] at h
      cases hm : (if loadWord mem d &&& XT_HAS_ATTR ≠ 0
          then valueWithin k mem (d + (parHeader mem d).1)
          else some (d + (parHeader mem d).1)) with
      | none => rw [hm] at h; cases h
      | some c =>
        rw [hm] at h
        simp only [] at h
        by_cases hce : c ≤ d + (parHeader mem d).1 + (parHeader mem d).2
        · rw [if_pos hce] at h
          have hattr : if loadWord mem d &&& XT_HAS_ATTR ≠ 0
              then ∃ a, (fun q => new_parsed_Rexp k mem q false) (d + (parHeader mem d).1)
                = some a ∧ a.next = c
              else c = d + (parHeader mem d).1 := by
            by_cases hbit : loadWord mem d &&& XT_HAS_ATTR ≠ 0
            · rw [if_pos hbit] at hm
              rw [if_pos hbit]
              exact hva _ _ hm
            · rw [if_neg hbit] at hm
              rw [if_neg hbit]
              cases hm
              rfl
          have hdc : d + (parHeader mem d).1 ≤ c := by
            by_cases hbit : loadWord mem d &&& XT_HAS_ATTR ≠ 0
            · rw [if_pos hbit] at hm
              exact hge _ _ hm
            · rw [if_neg hbit] at hm
              cases hm
              exact le_refl _
          obtain ⟨e0, he0, hd0, hl0, hn0, ht0⟩ :=
            ofPos_within (fun q => new_parsed_Rexp k mem q false) mem d msg c hattr hdc hce
          unfold new_parsed_Rexp
          simp only [ptoi, he0]
          by_cases t17 : loadWord mem d &&& 63 = XT_LIST
          · rw [if_pos t17] at h
            by_cases hw : dottedWithin (fun p => valueWithin k mem p)
                (d + (parHeader mem d).1 + (parHeader mem d).2) c = true
            · rw [if_pos hw] at h
              cases h
              obtain ⟨a1, a2, a3, a4⟩ := asClass_fields e0 .Rlist
              obtain ⟨r, hr, hrn⟩ := (listFix_within (fun p => valueWithin k mem p) _ k
                (e0.asClass .Rlist) hva).1 (by rw [a3, ht0]; exact t17)
                (by rw [a1, a2, hl0, hd0]; exact hw)
              rw [if_neg (by rw [t17]; decide), if_neg (by rw [t17]; decide),
                if_pos (Or.inl t17)]
              exact ⟨by omega, r, hr, by rw [hrn, a4, hn0]⟩
            · rw [if_neg hw] at h
              cases h
          · rw [if_neg t17] at h
            by_cases t20 : loadWord mem d &&& 63 = XT_LIST_NOTAG ∨
                loadWord mem d &&& 63 = XT_VECTOR
            · rw [if_pos t20] at h
              by_cases hw : valuesWithin (fun p => valueWithin k mem p)
                  (d + (parHeader mem d).1 + (parHeader mem d).2) k c = true
              · rw [if_pos hw] at h
                cases h
                rcases t20 with g | g
                · obtain ⟨a1, a2, a3, a4⟩ := asClass_fields e0 .Rlist
                  obtain ⟨r, hr, hrn⟩ := (listFix_within (fun p => valueWithin k mem p) _ k
                    (e0.asClass .Rlist) hva).2.1 (by rw [a3, ht0]; exact g)
                    (by rw [a1, a2, hl0, hd0]; exact hw)
                  rw [if_neg (by rw [g]; decide), if_neg (by rw [g]; decide),
                    if_pos (Or.inr (Or.inl g))]
                  exact ⟨by omega, r, hr, by rw [hrn, a4, hn0]⟩
                · obtain ⟨a1, a2, a3, a4⟩ := asClass_fields e0 .Rvector
                  obtain ⟨r, hr, hrn⟩ := vectorFix_within (fun p => valueWithin k mem p) _ k
                    (e0.asClass .Rvector) hva (by rw [a1, a2, hl0, hd0]; exact hw)
                  rw [if_neg (by rw [g]; decide), if_neg (by rw [g]; decide),
                    if_neg (by rw [g]; decide), if_pos g]
                  exact ⟨by omega, r, hr, by rw [hrn, a4, hn0]⟩
              · rw [if_neg hw] at h
                cases h
            · rw [if_neg t20] at h
              by_cases t21 : loadWord mem d &&& 63 = XT_LIST_TAG
              · rw [if_pos t21] at h
                obtain ⟨a1, a2, a3, a4⟩ := asClass_fields e0 .Rlist
                obtain ⟨r, hr, hrn⟩ := (listFix_within (fun p => valueWithin k mem p) _ k
                  (e0.asClass .Rlist) hva).2.2 e (by rw [a3, ht0]; exact t21)
                  (by rw [a1, a2, hl0, hd0]; exact h)
                have hpe := pairsWithin_ge (fun p => valueWithin k mem p) hge _ k c e h
                rw [if_neg (by rw [t21]; decide), if_neg (by rw [t21]; decide),
                  if_pos (Or.inr (Or.inr t21))]
                exact ⟨by omega, r, hr, hrn⟩
              · rw [if_neg t21] at h
                have hnl : ¬ (loadWord mem d &&& 63 = XT_LIST ∨
                    loadWord mem d &&& 63 = XT_LIST_NOTAG ∨
                    loadWord mem d &&& 63 = XT_LIST_TAG) := by
                  intro g
                  rcases g with g | g | g
                  · exact t17 g
                  · exact t20 (Or.inl g)
                  · exact t21 g
                have hnv : ¬ (loadWord mem d &&& 63 = XT_VECTOR) := fun g => t20 (Or.inr g)
                have hend : e = d + (parHeader mem d).1 + (parHeader mem d).2 := by
                  by_cases t5 : loadWord mem d &&& 63 = XT_SYM
                  · rw [if_pos t5] at h
                    by_cases hlt : c < d + (parHeader mem d).1 + (parHeader mem d).2
                    · rw [if_pos hlt] at h
                      cases h
                      rfl
                    · rw [if_neg hlt] at h
                      cases h
                  · rw [if_neg t5] at h
                    cases h
                    rfl
                rw [hend]
                refine ⟨by omega, ?_⟩
                rw [if_neg hnl, if_neg hnv]
                split_ifs
                · exact ⟨_, rfl, by rw [(asClass_fields e0 _).2.2.2, hn0]⟩
                · exact ⟨_, rfl, by rw [(asClass_fields e0 _).2.2.2, hn0]⟩
                · exact ⟨_, rfl, by rw [(asClass_fields e0 _).2.2.2, hn0]⟩
                · exact ⟨_, rfl,
                    by rw [symbolFix_next, (asClass_fields e0 _).2.2.2, hn0]⟩
                · exact ⟨_, rfl, by rw [(asClass_fields e0 _).2.2.2, hn0]⟩
                · exact ⟨_, rfl, hn0⟩
        · rw [if_neg hce] at h
          cases h
    · rw [if_neg hb] at h
      cases h

theorem parse_mono (np np' : Nat → Option Rexp) (mem : List Nat) (this : Rexp) (pos : Nat)
    (r : Rexp × Nat) (hnp : ∀ p v, np p = some v → np' p = some v)
    (h : Rexp.parse np mem this pos = some r) : Rexp.parse np' mem this pos = some r := by
  unfold Rexp.parse at h ⊢
  simp only [] at h ⊢
  by_cases hb : (ptoi (loadWord mem pos) &&& XT_HAS_ATTR) ≠ 0
  · rw [if_pos hb] at h ⊢
    cases ha : np (pos + 4 * (if (decide ((ptoi (loadWord mem pos) &&& XT_LARGE) > 0)) = true
        then 2 else 1)) with
    | none => rw [ha] at h; cases h
    | some a =>
      rw [ha] at h
      rw [hnp _ a ha]
      exact h
  · rw [if_neg hb] at h ⊢
    exact h

theorem ofPos_mono (np np' : Nat → Option Rexp) (mem : List Nat) (d : Nat) (msg : Bool)
    (e : Rexp) (hnp : ∀ p v, np p = some v → np' p = some v)
    (h : Rexp.ofPos np mem d msg = some e) : Rexp.ofPos np' mem d msg = some e := by
  unfold Rexp.ofPos at h ⊢
  simp only [] at h ⊢
  cases hp : Rexp.parse np mem
      (.node
        { cls := .Rexp, type := 0, len := 0, pos := 0, data := 0, next := 0, msg := msg,
          master := .null, rcount := 0, own := [], capacity := 0, name := none }
        none none none none []) d with
  | none => rw [hp] at h; cases h
  | some r =>
    rw [hp] at h
    rw [parse_mono np np' mem _ d r hnp hp]
    exact h

theorem notagLoop_mono (np np' : Nat → Option Rexp) (eod : Nat)
    (hnp : ∀ p v, np p = some v → np' p = some v) :
    ∀ (k ptr : Nat) (l : List Rexp), Rlist.notagLoop np eod k ptr = some l →
      ∀ k', k ≤ k' → Rlist.notagLoop np' eod k' ptr = some l := by
  intro k
  induction k with
  | zero => intro ptr l h; cases h
  | succ k ih =>
    intro ptr l h k' hk
    obtain ⟨j, rfl⟩ : ∃ j, k' = j + 1 := ⟨k' - 1, by omega⟩
    unfold Rlist.notagLoop at h ⊢
    by_cases hc : ptr < eod
    · rw [if_pos hc] at h ⊢
      cases hv : np ptr with
      | none => rw [hv] at h; cases h
      | some v =>
        rw [hv] at h
        rw [hnp _ v hv]
        simp only [] at h ⊢
        cases hl : Rlist.notagLoop np eod k v.next with
        | none => rw [hl] at h; cases h
        | some l1 =>
          rw [hl] at h
          rw [ih v.next l1 hl j (by omega)]
          exact h
    · rw [if_neg hc] at h ⊢
      exact h

theorem tagLoop_mono (np np' : Nat → Option Rexp) (eod : Nat)
    (hnp : ∀ p v, np p = some v → np' p = some v) :
    ∀ (k ptr : Nat) (r : List (Rexp × Rexp) × Nat), Rlist.tagLoop np eod k ptr = some r →
      ∀ k', k ≤ k' → Rlist.tagLoop np' eod k' ptr = some r := by
  intro k
  induction k with
  | zero => intro ptr r h; cases h
  | succ k ih =>
    intro ptr r h k' hk
    obtain ⟨j, rfl⟩ : ∃ j, k' = j + 1 := ⟨k' - 1, by omega⟩
    unfold Rlist.tagLoop at h ⊢
    by_cases hc : ptr < eod
    · rw [if_pos hc] at h ⊢
      cases hv : np ptr with
      | none => rw [hv] at h; cases h
      | some v =>
        rw [hv] at h
        rw [hnp _ v hv]
        simp only [] at h ⊢
        cases ht : np v.next with
        | none => rw [ht] at h; cases h
        | some t =>
          rw [ht] at h
          rw [hnp _ t ht]
          simp only [] at h ⊢
          cases hl : Rlist.tagLoop np eod k t.next with
          | none => rw [hl] at h; cases h
          | some r1 =>
            rw [hl] at h
            rw [ih t.next r1 hl j (by omega)]
            exact h
    · rw [if_neg hc] at h ⊢
      exact h

theorem vectorLoop_mono (np np' : Nat → Option Rexp) (eod : Nat)
    (hnp : ∀ p v, np p = some v → np' p = some v) :
    ∀ (k ptr : Nat) (cont : List Rexp) (cap : Nat) (r : List Rexp × Nat),
      Rvector.loop np eod k ptr cont cap = some r →
      ∀ k', k ≤ k' → Rvector.loop np' eod k' ptr cont cap = some r := by
  intro k
  induction k with
  | zero => intro ptr cont cap r h; cases h
  | succ k ih =>
    intro ptr cont cap r h k' hk
    obtain ⟨j, rfl⟩ : ∃ j, k' = j + 1 := ⟨k' - 1, by omega⟩
    unfold Rvector.loop at h ⊢
    by_cases hc : ptr < eod
    · rw [if_pos hc] at h ⊢
      cases hv : np ptr with
      | none => rw [hv] at h; cases h
      | some v =>
        rw [hv] at h
        rw [hnp _ v hv]
        simp only [] at h ⊢
        exact ih _ _ _ _ h j (by omega)
    · rw [if_neg hc] at h ⊢
      exact h

theorem listFix_mono (np np' : Nat → Option Rexp) (k k' : Nat) (e r : Rexp)
    (hnp : ∀ p v, np p = some v → np' p = some v) (hk : k ≤ k')
    (h : Rlist.fix_content np k e = some r) : Rlist.fix_content np' k' e = some r := by
  unfold Rlist.fix_content at h ⊢
  simp only [] at h ⊢
  by_cases h1 : e.type = XT_LIST
  · rw [if_pos h1] at h ⊢
    cases hh : np e.data with
    | none => rw [hh] at h; cases h
    | some hd =>
      rw [hh] at h
      rw [hnp _ hd hh]
      simp only [] at h ⊢
      by_cases g1 : hd.next < e.data + e.len
      · rw [if_pos g1] at h ⊢
        cases ht : np hd.next with
        | none => rw [ht] at h; cases h
        | some tl =>
          rw [ht] at h
          rw [hnp _ tl ht]
          simp only [] at h ⊢
          by_cases g2 : tl.next < e.data + e.len
          · rw [if_pos g2] at h ⊢
            cases hg : np tl.next with
            | none => rw [hg] at h; cases h
            | some tg =>
              rw [hg] at h
              rw [hnp _ tg hg]
              exact h
          · rw [if_neg g2] at h ⊢
            exact h
      · rw [if_neg g1] at h ⊢
        exact h
  · rw [if_neg h1] at h ⊢
    by_cases h2 : e.type = XT_LIST_NOTAG
    · rw [if_pos h2] at h ⊢
      cases hl : Rlist.notagLoop np (e.data + e.len) k e.data with
      | none => rw [hl] at h; cases h
      | some l =>
        rw [hl] at h
        rw [notagLoop_mono np np' _ hnp k e.data l hl k' hk]
        exact h
    · rw [if_neg h2] at h ⊢
      by_cases h3 : e.type = XT_LIST_TAG
      · rw [if_pos h3] at h ⊢
        cases hl : Rlist.tagLoop np (e.data + e.len) k e.data with
        | none => rw [hl] at h; cases h
        | some l =>
          rw [hl] at h
          rw [tagLoop_mono np np' _ hnp k e.data l hl k' hk]
          exact h
      · rw [if_neg h3] at h ⊢
        exact h

theorem vectorFix_mono (np np' : Nat → Option Rexp) (k k' : Nat) (e r : Rexp)
    (hnp : ∀ p v, np p = some v → np' p = some v) (hk : k ≤ k')
    (h : Rvector.fix_content np k e = some r) : Rvector.fix_content np' k' e = some r := by
  unfold Rvector.fix_content at h ⊢
  cases hl : Rvector.loop np (e.data + e.len) k e.data [] 16 with
  | none => rw [hl] at h; cases h
  | some cc =>
    rw [hl] at h
    rw [vectorLoop_mono np np' _ hnp k e.data [] 16 cc hl k' hk]
    exact h

/-- A result of the parser does not depend on the fuel: with one more unit it
returns the same node. -/
theorem new_parsed_Rexp_succ (mem : List Nat) :
    ∀ (k d : Nat) (msg : Bool) (v : Rexp), new_parsed_Rexp k mem d msg = some v →
      new_parsed_Rexp (k + 1) mem d msg = some v := by
  intro k
  induction k with
  | zero => intro d msg v h; cases h
  | succ k ih =>
    intro d msg v h
    have hnp : ∀ p a, (fun q => new_parsed_Rexp k mem q false) p = some a →
        (fun q => new_parsed_Rexp (k + 1) mem q false) p = some a :=
      fun p a ha => ih p false a ha
    rw [new_parsed_Rexp] at h
    rw [new_parsed_Rexp]
    cases he : Rexp.ofPos (fun q => new_parsed_Rexp k mem q false) mem d msg with
    | none => rw [he] at h; cases h
    | some e0 =>
      rw [he] at h
      rw [ofPos_mono _ _ mem d msg e0 hnp he]
      simp only [] at h ⊢
      split_ifs at h ⊢
      · exact h
      · exact h
      · exact listFix_mono _ _ k (k + 1) _ v hnp (Nat.le_succ k) h
      · exact vectorFix_mono _ _ k (k + 1) _ v hnp (Nat.le_succ k) h
      · exact h
      · exact h
      · exact h
      · exact h

/-- Enough fuel gives the result: a node the parser returns with fuel `k` is
returned with every larger fuel. -/
theorem new_parsed_Rexp_fuel (mem : List Nat) (k d : Nat) (msg : Bool) (v : Rexp)
    (h : new_parsed_Rexp k mem d msg = some v) :
    ∀ k', k ≤ k' → new_parsed_Rexp k' mem d msg = some v := by
  intro k' hk
  induction k' with
  | zero =>
    have : k = 0 := by omega
    subst this
    exact h
  | succ j ih =>
    by_cases hj : k ≤ j
    · exact new_parsed_Rexp_succ mem j d msg v (ih hj)
    · have : k = j + 1 := by omega
      subst this
      exact h

set_option maxRecDepth 100000 in
/-- A vector of seventeen integers lies inside its block of 140 bytes; the loop
takes one turn per child and one to stop. -/
theorem valueWithin_sampleVector : valueWithin 19 sampleVector 0 = some 140 := by decide

/-- A tagged list of two pairs lies inside its block of 36 bytes. -/
theorem valueWithin_sampleTagged : valueWithin 4 sampleTagged 0 = some 36 := by decide

/-- An integer array with a string attribute lies inside its block of 20 bytes. -/
theorem valueWithin_sampleAttributed : valueWithin 2 sampleAttributed 0 = some 20 := by decide

/-- A value whose declared content is cut short by the end of the block does not
lie inside it, whatever the bound: here the header declares 12 bytes of content
and 11 are there. -/
theorem valueWithin_cut_short (k : Nat) :
    valueWithin k [10, 16, 0, 0, 32, 12, 0, 0, 1, 0, 0, 0, 2, 0, 0, 0, 3, 0, 0] 4 = none := by
  cases k with
  | zero => rfl
  | succ k => rfl

end Rsrv
